import Mathlib

/-!
Flow-field particle sketch (`sketch.js`).

A shallow embedding of the simulation loop of `sketch.js`: the flow-field
rebuild, the particle integration model, the colour-injection registry and
the global hue drift.

JavaScript numbers are idealised as the elements of a linearly ordered field
`α` with a floor function (`ℚ` for evaluation, `ℝ` for the exact laws).  The
transcendental primitives of the p5.js runtime (`Math.sqrt`, `cos`, `sin`,
`noise`, the constant `TWO_PI`) are the fields of a record `P5 α`; the
theorems that need them to be exact say so through `P5.Exact`.  This
embedding carries the properties of the structure of the computation: the
trail, the registry, the grid indices, the order of the blend.

The properties of the magnitudes and of the hues depend on the arithmetic
itself and are settled on a second embedding, the functions `Rounded.*` over
a record `FP α`: every operation rounds its exact result (`round53` for the
doubles) and a division by `0` gives no number.
-/

namespace Sketch

/-! ## Runtime primitives -/

/-- The numeric primitives of the p5.js runtime used by the sketch. -/
structure P5 (α : Type) where
  sqrt : α → α
  cos : α → α
  sin : α → α
  TWO_PI : α
  noise : α → α → α → α

/-- Exactness of the runtime primitives: `sqrt` is the non-negative square
root and `(cos a, sin a)` lies on the unit circle.  This is an idealisation
that the doubles do not meet; what the doubles do meet is `FP.Accurate`, on
which the properties of the magnitudes are stated. -/
structure P5.Exact {α : Type} [LinearOrderedField α] (E : P5 α) : Prop where
  sqrt_nonneg : ∀ x, 0 ≤ E.sqrt x
  sqrt_mul_self : ∀ x, 0 ≤ x → E.sqrt x * E.sqrt x = x
  cos_sq_add_sin_sq : ∀ a, E.cos a * E.cos a + E.sin a * E.sin a = 1

/-- A p5.Vector created by `createVector(x, y)`; its `z` stays `0`. -/
structure Vec (α : Type) where
  x : α
  y : α
deriving DecidableEq

section Defs

variable {α : Type} [LinearOrderedField α] [FloorRing α]

/-- Modelled from the spec: `p5.Vector.add` is library code absent from src/
(Vector2 "add"): componentwise sum. -/
def Vec.add (v w : Vec α) : Vec α := ⟨v.x + w.x, v.y + w.y⟩

/-- Modelled from the spec: `p5.Vector.sub` is library code absent from src/
(Vector2 "subtract"): componentwise difference. -/
def Vec.sub (v w : Vec α) : Vec α := ⟨v.x - w.x, v.y - w.y⟩

/-- Modelled from the spec: `p5.Vector.mult` is library code absent from src/
(Vector2 "scale"): multiplication of both components by a scalar. -/
def Vec.mult (v : Vec α) (n : α) : Vec α := ⟨v.x * n, v.y * n⟩

/-- Modelled from the spec: `p5.Vector.div` is library code absent from src/;
division of both components by a scalar, a division by `0` leaving the
vector as it is. -/
def Vec.div (v : Vec α) (n : α) : Vec α := if n = 0 then v else ⟨v.x / n, v.y / n⟩

/-- Modelled from the spec: `p5.Vector.magSq` is library code absent from
src/: the squared length. -/
def Vec.magSq (v : Vec α) : α := v.x * v.x + v.y * v.y

/-- Modelled from the spec: `p5.Vector.mag` is library code absent from src/
("magnitude"): the square root of the squared length. -/
def Vec.mag (E : P5 α) (v : Vec α) : α := E.sqrt v.magSq

/-- Modelled from the spec: `p5.Vector.normalize` is library code absent from
src/ ("Normalizing a zero-length vector yields a zero vector rather than
failing or producing NaN"): scale by the reciprocal of the length unless the
length is `0`. -/
def Vec.normalize (E : P5 α) (v : Vec α) : Vec α :=
  let len := v.mag E
  if len ≠ 0 then v.mult (1 / len) else v

/-- Modelled from the spec: `p5.Vector.setMag` is library code absent from
src/ ("rescale to magnitude"): normalise, then scale. -/
def Vec.setMag (E : P5 α) (v : Vec α) (n : α) : Vec α := (v.normalize E).mult n

/-- Modelled from the spec: `p5.Vector.limit` is library code absent from
src/ ("clamp velocity magnitude to maxSpeed"): a vector whose squared length
exceeds `max * max` is divided by its length and scaled by `max`. -/
def Vec.limit (E : P5 α) (v : Vec α) (max : α) : Vec α :=
  let mSq := v.magSq
  if mSq > max * max then (v.div (E.sqrt mSq)).mult max else v

/-- Modelled from the spec: `p5.Vector.fromAngle` is library code absent from
src/ ("produce a unit vector at that angle"). -/
def Vec.fromAngle (E : P5 α) (angle : α) : Vec α := ⟨E.cos angle, E.sin angle⟩

/-- Modelled from the spec: `dist` is library code absent from src/: the
Euclidean distance of `(x1, y1)` and `(x2, y2)`. -/
def dist (E : P5 α) (x1 y1 x2 y2 : α) : α :=
  E.sqrt ((x2 - x1) * (x2 - x1) + (y2 - y1) * (y2 - y1))

/-- Modelled from the spec: `map` is library code absent from src/ ("influence
decays linearly from 1 at distance 0 to 0 at distance R"): the affine
re-mapping of `n` from `[start1, stop1]` to `[start2, stop2]`. -/
def map (n start1 stop1 start2 stop2 : α) : α :=
  (n - start1) / (stop1 - start1) * (stop2 - start2) + start2

/-- Modelled from the spec: `lerp` is library code absent from src/
("linearly interpolate current hue toward the injection's hue"). -/
def lerp (start stop amt : α) : α := amt * (stop - start) + start

/-- Modelled from the spec: `floor` is library code absent from src/
("integer division by the grid step"): the greatest integer below. -/
def floor (x : α) : ℤ := ⌊x⌋

/-- Modelled from the spec: `random(lo, hi)` is library code absent from src/
("a bounded uniform random delta in [-5,5]"); `u` is the variate in `[0,1)`
the generator returns for this call. -/
def random (u lo hi : α) : α := u * (hi - lo) + lo

/-- Modelled from the spec: the one-argument `random(hi)` is library code
absent from src/ ("created once at startup with random position"); `u` is
the variate in `[0,1)` the generator returns for this call. -/
def randomTo (u hi : α) : α := u * hi

/-- The JavaScript remainder `a % b` on numbers: the result has the sign of
the dividend, the quotient being truncated towards zero. -/
def jsMod (a b : α) : α :=
  let q := a / b
  a - b * (if 0 ≤ q then (⌊q⌋ : α) else (⌈q⌉ : α))

/-! ## Global constants of the sketch -/

/-- `let resolution = 20`. -/
def resolution : α := 20

/-- `let numParticles = 1000`. -/
def numParticles : ℕ := 1000

/-- `let baseHue = 200`. -/
def baseHue : α := 200

/-- `let maxInjectedColors = 5`. -/
def maxInjectedColors : ℕ := 5

/-- `let zoffSpeed = 0.0003`. -/
def zoffSpeed : α := 3 / 10000

/-! ## Particle -/

/-- The fields of `class Particle`. -/
structure Particle (α : Type) where
  pos : Vec α
  vel : Vec α
  acc : Vec α
  maxspeed : α
  history : List (Vec α)
  maxHistory : ℕ
deriving DecidableEq

/-- `constructor()`: `x` and `y` are the values of `random(width)` and
`random(height)`. -/
def Particle.constructor (x y : α) : Particle α :=
  { pos := ⟨x, y⟩, vel := ⟨0, 0⟩, acc := ⟨0, 0⟩, maxspeed := 2, history := [], maxHistory := 20 }

/-- `applyForce(force)`. -/
def Particle.applyForce (p : Particle α) (force : Vec α) : Particle α :=
  { p with acc := p.acc.add force }

/-- `update()`: integrate, clear the force, record the trail point. -/
def Particle.update (E : P5 α) (p : Particle α) : Particle α :=
  let vel := (p.vel.add p.acc).limit E p.maxspeed
  let pos := p.pos.add vel
  let acc := p.acc.mult 0
  let history := p.history ++ [pos]
  let history := if history.length > p.maxHistory then history.drop 1 else history
  { p with pos := pos, vel := vel, acc := acc, history := history }

/-- `edges()`: the four tests run in the order of the source, each on the
position the previous one left. -/
def Particle.edges (width height : α) (p : Particle α) : Particle α :=
  let x := if p.pos.x < 0 then width else p.pos.x
  let x := if x > width then 0 else x
  let y := if p.pos.y < 0 then height else p.pos.y
  let y := if y > height then 0 else y
  { p with pos := ⟨x, y⟩ }

/-! ## JavaScript arrays with holes -/

/-- The element read `a[i]` of a JavaScript array: `undefined` (here `none`)
for a negative index, an index past the end, or an unfilled slot. -/
def arrayGet {β : Type} (a : List (Option β)) (i : ℤ) : Option β :=
  if i < 0 then none else (a.get? i.toNat).join

/-- The element write `a[i] = v` of a JavaScript array: a write past the end
lengthens the array, the slots in between staying unfilled; a negative index
is no element of the array. -/
def arraySet {β : Type} (a : List (Option β)) (i : ℤ) (v : β) : List (Option β) :=
  if i < 0 then a
  else if i.toNat < a.length then a.set i.toNat (some v)
  else a ++ List.replicate (i.toNat - a.length) none ++ [some v]

/-- `new Array(n)`: `n` unfilled slots. -/
def newArray {β : Type} (n : ℤ) : List (Option β) := List.replicate n.toNat none

/-- The loop `for (let x = 0; x < bound; x++)`: the body runs for
`x = 0, 1, 2, …` as long as `x < bound`, that is for the `⌈bound⌉₊` naturals
below `bound` (`forLoop_mem`). -/
def forLoop {σ : Type} (bound : α) (body : σ → ℕ → σ) (init : σ) : σ :=
  (List.range ⌈bound⌉₊).foldl body init

/-! ## Flow field -/

/-- `follow(vectors)`: the force of the grid cell under the particle, when
the slot holds a vector. -/
def Particle.follow (width : α) (vectors : List (Option (Vec α))) (p : Particle α) :
    Particle α :=
  let x := floor (p.pos.x / resolution)
  let y := floor (p.pos.y / resolution)
  let index := x + y * floor (width / resolution)
  match arrayGet vectors index with
  | some force => p.applyForce force
  | none => p

/-- Lines 50-65 of `draw()`: the vector computed for the grid cell `(x, y)`
at noise offsets `(xoff, yoff, zoff)` with the pointer at `(mouseX, mouseY)`. -/
def cellVector (E : P5 α) (mouseX mouseY xoff yoff zoff : α) (x y : ℕ) : Vec α :=
  let angle := E.noise xoff yoff zoff * E.TWO_PI * 4
  let v := (Vec.fromAngle E angle).setMag E 1
  let distToMouse := dist E ((x : α) * resolution) ((y : α) * resolution) mouseX mouseY
  if distToMouse < 150 then
    let mouseVector : Vec α :=
      Vec.normalize E ⟨mouseX - (x : α) * resolution, mouseY - (y : α) * resolution⟩
    let influence := map distToMouse 0 150 1 0
    let v := v.sub (mouseVector.mult (influence * (8 / 10)))
    let v := v.normalize E
    v.setMag E (3 / 2)
  else v

/-- The inner loop of the rebuild (lines 45-70): row `y`, the columns
`x = 0, 1, …` while `x < width / resolution`; the state is the field and
`xoff`. -/
def rebuildRow (E : P5 α) (width mouseX mouseY yoff zoff : α) (y : ℕ)
    (field : List (Option (Vec α))) : List (Option (Vec α)) :=
  (forLoop (width / resolution)
    (fun (st : List (Option (Vec α)) × α) (x : ℕ) =>
      let index : ℤ := (x : ℤ) + (y : ℤ) * floor (width / resolution)
      (arraySet st.1 index (cellVector E mouseX mouseY st.2 yoff zoff x y), st.2 + 1 / 10))
    (field, 0)).1

/-- The flow-field rebuild (lines 43-72): the rows `y = 0, 1, …` while
`y < height / resolution`; the state is the field and `yoff`. -/
def rebuildFlowField (E : P5 α) (width height mouseX mouseY zoff : α)
    (field : List (Option (Vec α))) : List (Option (Vec α)) :=
  (forLoop (height / resolution)
    (fun (st : List (Option (Vec α)) × α) (y : ℕ) =>
      (rebuildRow E width mouseX mouseY st.2 zoff y st.1, st.2 + 1 / 10))
    (field, 0)).1

/-! ## Colour injections and the global state -/

/-- An entry of `injectedColors`. -/
structure Injection (α : Type) where
  pos : Vec α
  hue : α
  radius : α
deriving DecidableEq

/-- The mutable globals of the sketch together with the canvas size. -/
structure State (α : Type) where
  width : α
  height : α
  flowField : List (Option (Vec α))
  particles : List (Particle α)
  hueShift : α
  injectedColors : List (Injection α)
  zoff : α

/-- The pointer globals the host sets before a frame. -/
structure Pointer (α : Type) where
  mouseX : α
  mouseY : α
  pmouseX : α
  pmouseY : α

/-- `setup()` on a `width × height` canvas; `u k` is the variate of the
`k`-th call of the random generator. -/
def setup (width height : α) (u : ℕ → α) : State α :=
  { width := width
    height := height
    flowField := newArray (floor (width / resolution) * floor (height / resolution))
    particles := (List.range numParticles).map
      (fun i => Particle.constructor (randomTo (u (2 * i)) width) (randomTo (u (2 * i + 1)) height))
    hueShift := 0
    injectedColors := []
    zoff := 0 }

/-- Line 81 of `draw()`: the hue of particle `i` before the injections. -/
def particleBaseHue (hueShift : α) (i : ℕ) : α :=
  jsMod (baseHue + hueShift + (i : α) * (1 / 10)) 360

/-- Lines 81-89 of `draw()`: the hue particle `i` at `pos` is displayed
with, computed in the ordered field; `Rounded.particleHue` is the same
computation with every operation rounded. -/
def particleHue (E : P5 α) (hueShift : α) (injectedColors : List (Injection α))
    (i : ℕ) (pos : Vec α) : α :=
  injectedColors.foldl
    (fun particleHue inj =>
      let d := dist E pos.x pos.y inj.pos.x inj.pos.y
      if d < inj.radius then
        let influence := map d 0 inj.radius 1 0
        lerp particleHue inj.hue (influence * (7 / 10))
      else particleHue)
    (particleBaseHue hueShift i)

/-- Lines 97-100 of `draw()`: the hue drift of one frame. -/
def hueShiftStep (ptr : Pointer α) (u hueShift : α) : α :=
  if ptr.pmouseX ≠ ptr.mouseX ∨ ptr.pmouseY ≠ ptr.mouseY then
    jsMod (hueShift + random u (-5) 5) 360
  else hueShift

/-- The state change of one `draw()` frame; `u` is the variate the random
generator returns if it is called. -/
def draw (E : P5 α) (ptr : Pointer α) (u : α) (s : State α) : State α :=
  let flowField :=
    rebuildFlowField E s.width s.height ptr.mouseX ptr.mouseY s.zoff s.flowField
  let particles := s.particles.map
    (fun p => ((p.follow s.width flowField).update E).edges s.width s.height)
  { s with
    flowField := flowField
    particles := particles
    zoff := s.zoff + zoffSpeed
    hueShift := hueShiftStep ptr u s.hueShift }

/-- `windowResized()` to a `width × height` window. -/
def windowResized (width height : α) (s : State α) : State α :=
  { s with
    width := width
    height := height
    flowField := newArray (floor (width / resolution) * floor (height / resolution)) }

/-- `mouseClicked()` with the pointer at `(mouseX, mouseY)`; `u` is the
variate the random generator returns. -/
def mouseClicked (mouseX mouseY u : α) (s : State α) : State α :=
  let injectedColors := s.injectedColors ++
    [{ pos := ⟨mouseX, mouseY⟩, hue := random u 0 360, radius := 100 }]
  let injectedColors :=
    if injectedColors.length > maxInjectedColors then injectedColors.drop 1 else injectedColors
  { s with injectedColors := injectedColors }

/-- What the host delivers to the sketch. -/
inductive Event (α : Type) where
  | frame (ptr : Pointer α) (u : α)
  | click (mouseX mouseY u : α)
  | resize (width height : α)

/-- The handler the host calls for an event. -/
def step (E : P5 α) (s : State α) : Event α → State α
  | .frame ptr u => draw E ptr u s
  | .click mouseX mouseY u => mouseClicked mouseX mouseY u s
  | .resize width height => windowResized width height s

/-- The state after a sequence of events. -/
def run (E : P5 α) (s : State α) (events : List (Event α)) : State α :=
  events.foldl (step E) s

/-! ## Histories of a particle and of the registry -/

/-- A call of a method of `Particle`. -/
inductive ParticleOp (α : Type) where
  | follow (width : α) (vectors : List (Option (Vec α)))
  | applyForce (force : Vec α)
  | update
  | edges (width height : α)

/-- Whether the call is `update()`. -/
def ParticleOp.isUpdate : ParticleOp α → Bool
  | .update => true
  | _ => false

/-- The particle after one method call. -/
def Particle.perform (E : P5 α) (p : Particle α) : ParticleOp α → Particle α
  | .follow width vectors => p.follow width vectors
  | .applyForce force => p.applyForce force
  | .update => p.update E
  | .edges width height => p.edges width height

/-- The particle after a sequence of method calls. -/
def Particle.runOps (E : P5 α) (p : Particle α) (ops : List (ParticleOp α)) : Particle α :=
  ops.foldl (Particle.perform E) p

/-- The positions the `update()` calls of a sequence of method calls leave,
in the order of the calls. -/
def Particle.produced (E : P5 α) : Particle α → List (ParticleOp α) → List (Vec α)
  | _, [] => []
  | p, .update :: ops => (p.update E).pos :: Particle.produced E (p.update E) ops
  | p, .follow width vectors :: ops => Particle.produced E (p.follow width vectors) ops
  | p, .applyForce force :: ops => Particle.produced E (p.applyForce force) ops
  | p, .edges width height :: ops => Particle.produced E (p.edges width height) ops

/-- The last `min n l.length` elements of `l`, in the order of `l`. -/
def lastN {β : Type} (n : ℕ) (l : List β) : List β := l.drop (l.length - n)

/-- The entries the clicks of a sequence of events inject, in the order of
the clicks: position of the pointer, hue drawn, radius `100`. -/
def created : List (Event α) → List (Injection α)
  | [] => []
  | .click mouseX mouseY u :: events =>
      { pos := ⟨mouseX, mouseY⟩, hue := random u 0 360, radius := 100 } :: created events
  | .frame _ _ :: events => created events
  | .resize _ _ :: events => created events

/-! ## Display -/

/-- The quotient `a / b` of two JavaScript numbers when it is a number of the
field: a division by `0` gives `NaN` or an infinity, here `none`. -/
def jsDiv (a b : α) : Option α := if b = 0 then none else some (a / b)

/-- Modelled from the spec: `map` is library code absent from src/ ("linear
ramp"): the re-mapping `map` with the division made explicit, `none` when
`stop1 = start1` divides by `0`. -/
def mapChecked (n start1 stop1 start2 stop2 : α) : Option α :=
  (jsDiv (n - start1) (stop1 - start1)).map (fun q => q * (stop2 - start2) + start2)

/-- The loop of lines 82-89 of `draw()` from the hue `hue`: the blend of the
injections into the hue of a particle at `pos`. -/
def blendHue (E : P5 α) (injectedColors : List (Injection α)) (pos : Vec α) (hue : α) : α :=
  injectedColors.foldl
    (fun particleHue inj =>
      let d := dist E pos.x pos.y inj.pos.x inj.pos.y
      if d < inj.radius then
        let influence := map d 0 inj.radius 1 0
        lerp particleHue inj.hue (influence * (7 / 10))
      else particleHue)
    hue

/-- Lines 171-179 of `display()`: the hue of the trail point `p` for the hue
`currentHue` of the particle. -/
def brushHue (E : P5 α) (injectedColors : List (Injection α)) (currentHue : α) (p : Vec α) :
    α :=
  injectedColors.foldl
    (fun brushHue inj =>
      let d := dist E p.x p.y inj.pos.x inj.pos.y
      if d < inj.radius then
        let influence := map d 0 inj.radius 1 0
        lerp brushHue inj.hue (influence * (5 / 10))
      else brushHue)
    currentHue

/-- A point drawn by `display()`: `stroke(hue, 80, 90, alpha)` and
`point(x, y)`; the alpha is `none` when it is not a number. -/
structure Stroke (α : Type) where
  x : α
  y : α
  hue : α
  alpha : Option α
deriving DecidableEq

/-- `display(currentHue)`: the points drawn, in the order they are drawn. -/
def Particle.display (E : P5 α) (injectedColors : List (Injection α)) (p : Particle α)
    (currentHue : α) : List (Stroke α) :=
  p.history.mapIdx (fun i pt =>
    { x := pt.x
      y := pt.y
      hue := brushHue E injectedColors currentHue pt
      alpha := mapChecked (i : α) 0 ((p.history.length : α) - 1) 0 (5 / 10) })

/-- The points one `draw()` frame draws, particle by particle (lines 75-92). -/
def drawStrokes (E : P5 α) (ptr : Pointer α) (s : State α) : List (List (Stroke α)) :=
  let flowField :=
    rebuildFlowField E s.width s.height ptr.mouseX ptr.mouseY s.zoff s.flowField
  s.particles.mapIdx (fun i p =>
    let q := ((p.follow s.width flowField).update E).edges s.width s.height
    q.display E s.injectedColors (particleHue E s.hueShift s.injectedColors i q.pos))

/-- The blend of the spec with the weight `w`: "for each injection within
radius, linearly interpolate current hue toward the injection's hue,
weighted by `w * influence` (influence decays linearly with distance, 1 at
center to 0 at radius edge); injections apply cumulatively in registry
order". -/
def specBlend (E : P5 α) (w : α) : List (Injection α) → Vec α → α → α
  | [], _, hue => hue
  | inj :: rest, p, hue =>
      let d := dist E p.x p.y inj.pos.x inj.pos.y
      specBlend E w rest p
        (if d < inj.radius then hue + (inj.hue - hue) * (w * (1 - d / inj.radius)) else hue)

/-! ## Arithmetic on doubles

The definitions above compute in an ordered field.  The definitions of this
section compute as the runtime does: the result of every arithmetic
operation is rounded to the number set of the runtime, decimal constants
that are no doubles are rounded when they are read, and a division by `0`
gives no number.  For the doubles the rounding is `round53`; the exponent
range is not bounded, so that overflow and underflow are left out. -/

/-- The integer nearest to `t`, the even one of the two when `t` lies half
way between two integers. -/
def roundHalfEven (t : α) : ℤ :=
  let f := ⌊t⌋
  if t - (f : α) < 1 / 2 then f
  else if 1 / 2 < t - (f : α) then f + 1
  else if f % 2 = 0 then f else f + 1

/-- The double nearest to `x`: the multiple of `2 ^ e` nearest to `x`, ties
to even, where `2 ^ (e + 52) ≤ |x| < 2 ^ (e + 53)`. -/
def round53 (x : α) : α :=
  if x = 0 then 0
  else (roundHalfEven (x / (2 : α) ^ (Int.log 2 |x| - 52)) : α) * (2 : α) ^ (Int.log 2 |x| - 52)

/-- The arithmetic of the runtime: `rnd` rounds an exact result to the
number set, the other fields are the library functions `Math.sqrt`,
`Math.hypot`, `Math.cos`, `Math.sin`, the constant `TWO_PI` and `noise`. -/
structure FP (α : Type) where
  rnd : α → α
  sqrt : α → α
  hypot : α → α → α
  cos : α → α
  sin : α → α
  TWO_PI : α
  noise : α → α → α → α

/-- The doubles: every operation is the real operation rounded by `round53`;
`realSqrt`, `realCos` and `realSin` are the real functions, so that
`Math.sqrt`, `Math.hypot`, `Math.cos` and `Math.sin` are taken correctly
rounded. -/
def doubles (realSqrt realCos realSin : α → α) (twoPi : α) (noise : α → α → α → α) : FP α :=
  { rnd := round53
    sqrt := fun x => round53 (realSqrt x)
    hypot := fun x y => round53 (realSqrt (x * x + y * y))
    cos := fun a => round53 (realCos a)
    sin := fun a => round53 (realSin a)
    TWO_PI := round53 twoPi
    noise := noise }

/-- The sum `a + b` of the runtime. -/
def FP.add (R : FP α) (a b : α) : α := R.rnd (a + b)

/-- The difference `a - b` of the runtime. -/
def FP.sub (R : FP α) (a b : α) : α := R.rnd (a - b)

/-- The product `a * b` of the runtime. -/
def FP.mul (R : FP α) (a b : α) : α := R.rnd (a * b)

/-- The quotient `a / b` of the runtime; a division by `0` gives `NaN` or an
infinity, here `none`. -/
def FP.div (R : FP α) (a b : α) : Option α := if b = 0 then none else some (R.rnd (a / b))

/-- A decimal constant of the source that is no double, as the runtime reads
it. -/
def FP.lit (R : FP α) (q : α) : α := R.rnd q

/-- Modelled from the spec: `p5.Vector.add` is library code absent from src/
(Vector2 "add"), on the numbers of the runtime. -/
def Rounded.add (R : FP α) (v w : Vec α) : Vec α := ⟨R.add v.x w.x, R.add v.y w.y⟩

/-- Modelled from the spec: `p5.Vector.sub` is library code absent from src/
(Vector2 "subtract"), on the numbers of the runtime. -/
def Rounded.sub (R : FP α) (v w : Vec α) : Vec α := ⟨R.sub v.x w.x, R.sub v.y w.y⟩

/-- Modelled from the spec: `p5.Vector.mult` is library code absent from src/
(Vector2 "scale"), on the numbers of the runtime. -/
def Rounded.mult (R : FP α) (v : Vec α) (n : α) : Vec α := ⟨R.mul v.x n, R.mul v.y n⟩

/-- Modelled from the spec: `p5.Vector.div` is library code absent from src/,
on the numbers of the runtime; a division by `0` leaves the vector as it
is. -/
def Rounded.div (R : FP α) (v : Vec α) (n : α) : Option (Vec α) :=
  if n = 0 then some v
  else (R.div v.x n).bind (fun x => (R.div v.y n).map (fun y => ⟨x, y⟩))

/-- Modelled from the spec: `p5.Vector.magSq` is library code absent from
src/, on the numbers of the runtime: `x * x + y * y` (the term of `z = 0`
adds `0`). -/
def Rounded.magSq (R : FP α) (v : Vec α) : α := R.add (R.mul v.x v.x) (R.mul v.y v.y)

/-- Modelled from the spec: `p5.Vector.mag` is library code absent from src/
("magnitude"), on the numbers of the runtime: `Math.sqrt(magSq())`. -/
def Rounded.mag (R : FP α) (v : Vec α) : α := R.sqrt (Rounded.magSq R v)

/-- Modelled from the spec: `p5.Vector.normalize` is library code absent from
src/ ("Normalizing a zero-length vector yields a zero vector rather than
failing or producing NaN"), on the numbers of the runtime: `mult(1 / len)`
unless `len` is `0`. -/
def Rounded.normalize (R : FP α) (v : Vec α) : Option (Vec α) :=
  let len := Rounded.mag R v
  if len ≠ 0 then (R.div 1 len).map (fun inv => Rounded.mult R v inv) else some v

/-- Modelled from the spec: `p5.Vector.setMag` is library code absent from
src/ ("rescale to magnitude"), on the numbers of the runtime. -/
def Rounded.setMag (R : FP α) (v : Vec α) (n : α) : Option (Vec α) :=
  (Rounded.normalize R v).map (fun w => Rounded.mult R w n)

/-- Modelled from the spec: `p5.Vector.limit` is library code absent from
src/ ("clamp velocity magnitude to maxSpeed"), on the numbers of the
runtime: `if (mSq > max * max) div(Math.sqrt(mSq)).mult(max)`. -/
def Rounded.limit (R : FP α) (v : Vec α) (max : α) : Option (Vec α) :=
  let mSq := Rounded.magSq R v
  if mSq > R.mul max max then
    (Rounded.div R v (R.sqrt mSq)).map (fun w => Rounded.mult R w max)
  else some v

/-- Modelled from the spec: `p5.Vector.fromAngle` is library code absent from
src/ ("produce a unit vector at that angle"), on the numbers of the runtime:
`(1 * cos(angle), 1 * sin(angle))`. -/
def Rounded.fromAngle (R : FP α) (angle : α) : Vec α :=
  ⟨R.mul 1 (R.cos angle), R.mul 1 (R.sin angle)⟩

/-- Modelled from the spec: `dist` is library code absent from src/, on the
numbers of the runtime: `Math.hypot(x2 - x1, y2 - y1)`. -/
def Rounded.dist (R : FP α) (x1 y1 x2 y2 : α) : α := R.hypot (R.sub x2 x1) (R.sub y2 y1)

/-- Modelled from the spec: `map` is library code absent from src/, on the
numbers of the runtime. -/
def Rounded.map (R : FP α) (n start1 stop1 start2 stop2 : α) : Option α :=
  (R.div (R.sub n start1) (R.sub stop1 start1)).map
    (fun q => R.add (R.mul q (R.sub stop2 start2)) start2)

/-- Modelled from the spec: `lerp` is library code absent from src/, on the
numbers of the runtime. -/
def Rounded.lerp (R : FP α) (start stop amt : α) : α :=
  R.add (R.mul amt (R.sub stop start)) start

/-- `update()` on the numbers of the runtime. -/
def Rounded.update (R : FP α) (p : Particle α) : Option (Particle α) :=
  (Rounded.limit R (Rounded.add R p.vel p.acc) p.maxspeed).map (fun vel =>
    let pos := Rounded.add R p.pos vel
    let acc := Rounded.mult R p.acc 0
    let history := p.history ++ [pos]
    let history := if history.length > p.maxHistory then history.drop 1 else history
    { p with pos := pos, vel := vel, acc := acc, history := history })

/-- Lines 50-65 of `draw()` on the numbers of the runtime: the vector
computed for the grid cell `(x, y)`. -/
def Rounded.cellVector (R : FP α) (mouseX mouseY xoff yoff zoff : α) (x y : ℕ) :
    Option (Vec α) :=
  let angle := R.mul (R.mul (R.noise xoff yoff zoff) R.TWO_PI) 4
  (Rounded.setMag R (Rounded.fromAngle R angle) 1).bind (fun v =>
    let distToMouse :=
      Rounded.dist R (R.mul (x : α) resolution) (R.mul (y : α) resolution) mouseX mouseY
    if distToMouse < 150 then
      (Rounded.normalize R
        ⟨R.sub mouseX (R.mul (x : α) resolution),
         R.sub mouseY (R.mul (y : α) resolution)⟩).bind (fun mouseVector =>
      (Rounded.map R distToMouse 0 150 1 0).bind (fun influence =>
      (Rounded.normalize R
        (Rounded.sub R v
          (Rounded.mult R mouseVector (R.mul influence (R.lit (8 / 10)))))).bind (fun v =>
      Rounded.setMag R v (3 / 2))))
    else some v)

/-- Line 81 of `draw()` on the numbers of the runtime; the remainder `%` of
two doubles is exact. -/
def Rounded.particleBaseHue (R : FP α) (hueShift : α) (i : ℕ) : α :=
  jsMod (R.add (R.add baseHue hueShift) (R.mul (i : α) (R.lit (1 / 10)))) 360

/-- Lines 82-89 of `draw()` on the numbers of the runtime, from the hue
`hue`. -/
def Rounded.blendHue (R : FP α) (injectedColors : List (Injection α)) (pos : Vec α)
    (hue : α) : Option α :=
  injectedColors.foldlM
    (fun particleHue inj =>
      let d := Rounded.dist R pos.x pos.y inj.pos.x inj.pos.y
      if d < inj.radius then
        (Rounded.map R d 0 inj.radius 1 0).map (fun influence =>
          Rounded.lerp R particleHue inj.hue (R.mul influence (R.lit (7 / 10))))
      else some particleHue)
    hue

/-- Lines 81-89 of `draw()` on the numbers of the runtime: the hue particle
`i` at `pos` is displayed with. -/
def Rounded.particleHue (R : FP α) (hueShift : α) (injectedColors : List (Injection α))
    (i : ℕ) (pos : Vec α) : Option α :=
  Rounded.blendHue R injectedColors pos (Rounded.particleBaseHue R hueShift i)


/-! ## Error bounds asked of the runtime -/

/-- What the error bounds ask of the arithmetic of the runtime: the relative
error of the rounding is at most `u`, and `Math.sqrt` returns a non-negative
number whose square has a relative error of at most `(1 ± u)²`. -/
structure FP.Accurate (R : FP α) (u : α) : Prop where
  u_nonneg : 0 ≤ u
  u_le : u ≤ 1 / 1024
  rnd_err : ∀ x, |R.rnd x - x| ≤ u * |x|
  sqrt_nonneg : ∀ x, 0 ≤ R.sqrt x
  sqrt_lo : ∀ x, 0 ≤ x → (1 - u) ^ 2 * x ≤ R.sqrt x * R.sqrt x
  sqrt_hi : ∀ x, 0 ≤ x → R.sqrt x * R.sqrt x ≤ (1 + u) ^ 2 * x

/-- What the flow field asks of `Math.hypot`, `Math.cos` and `Math.sin`: a
distance is not negative, the distance of a point to itself is `0`, and the
cosine and the sine of an angle are not both `0`. -/
structure FP.Sound (R : FP α) : Prop where
  hypot_nonneg : ∀ x y, 0 ≤ R.hypot x y
  hypot_zero : R.hypot 0 0 = 0
  cos_sin_ne : ∀ a, R.cos a ≠ 0 ∨ R.sin a ≠ 0

/-- The number `y` is the number `t` with `k` roundings of relative error
`u`: `|y - t| ≤ ((1 + u) ^ k - 1) * |t|`. -/
def FP.Near (u : α) (k : ℕ) (y t : α) : Prop := |y - t| ≤ ((1 + u) ^ k - 1) * |t|

/-- The number `y` is the number `t`, of absolute value at most `S`, with `k`
roundings of relative error `u` on numbers of absolute value at most `S`:
`|y - t| ≤ ((1 + u) ^ k - 1) * S`. -/
def FP.Within (u : α) (k : ℕ) (S y t : α) : Prop := |t| ≤ S ∧ |y - t| ≤ ((1 + u) ^ k - 1) * S

/-! ## The flow-field rebuild on the numbers of the runtime -/

/-- The value of `xoff` (and of `yoff`) after `n` increments `xoff += 0.1`
from `0`, each sum rounded. -/
def Rounded.offset (R : FP α) : ℕ → α
  | 0 => 0
  | n + 1 => R.add (Rounded.offset R n) (R.lit (1 / 10))

/-- The inner loop of the rebuild (lines 45-70) on the numbers of the
runtime: row `y`, the columns `x = 0, 1, …` while `x < width / resolution`;
the state is the field and `xoff`. A slot holds `none` for a vector with a
coordinate that is not a number. The quotient `width / resolution` is
rounded and `resolution` is not `0`; the index is a sum of integers, exact
on the doubles below `2⁵³`. -/
def Rounded.rebuildRow (R : FP α) (width mouseX mouseY yoff zoff : α) (y : ℕ)
    (field : List (Option (Option (Vec α)))) : List (Option (Option (Vec α))) :=
  (forLoop (R.rnd (width / resolution))
    (fun (st : List (Option (Option (Vec α))) × α) (x : ℕ) =>
      let index : ℤ := (x : ℤ) + (y : ℤ) * floor (R.rnd (width / resolution))
      (arraySet st.1 index (Rounded.cellVector R mouseX mouseY st.2 yoff zoff x y),
        R.add st.2 (R.lit (1 / 10))))
    (field, 0)).1

/-- The flow-field rebuild (lines 43-72) on the numbers of the runtime: the
rows `y = 0, 1, …` while `y < height / resolution`; the state is the field
and `yoff`. -/
def Rounded.rebuildFlowField (R : FP α) (width height mouseX mouseY zoff : α)
    (field : List (Option (Option (Vec α)))) : List (Option (Option (Vec α))) :=
  (forLoop (R.rnd (height / resolution))
    (fun (st : List (Option (Option (Vec α))) × α) (y : ℕ) =>
      (Rounded.rebuildRow R width mouseX mouseY st.2 zoff y st.1, R.add st.2 (R.lit (1 / 10))))
    (field, 0)).1

end Defs

/-! ## Lemmas on the runtime primitives -/

section Lemmas

variable {α : Type} [LinearOrderedField α]

theorem Vec.magSq_nonneg (v : Vec α) : 0 ≤ v.magSq := by
  unfold Vec.magSq
  nlinarith [mul_self_nonneg v.x, mul_self_nonneg v.y]

theorem P5.Exact.sqrt_mul_self_eq {E : P5 α} (hE : E.Exact) {y : α} (hy : 0 ≤ y) :
    E.sqrt (y * y) = y := by
  have h1 := hE.sqrt_nonneg (y * y)
  have h2 := hE.sqrt_mul_self (y * y) (mul_self_nonneg y)
  exact (mul_self_inj h1 hy).1 h2

theorem P5.Exact.sqrt_pos {E : P5 α} (hE : E.Exact) {x : α} (hx : 0 < x) : 0 < E.sqrt x := by
  have h1 := hE.sqrt_nonneg x
  have h2 := hE.sqrt_mul_self x hx.le
  rcases h1.lt_or_eq with h | h
  · exact h
  · rw [← h] at h2
    simp at h2
    exact absurd h2.symm (ne_of_gt hx)

theorem Vec.magSq_mult (v : Vec α) (n : α) : (v.mult n).magSq = v.magSq * (n * n) := by
  simp only [Vec.magSq, Vec.mult]
  ring

/-- The primitives of the real numbers are exact. -/
theorem real_exact (noise : ℝ → ℝ → ℝ → ℝ) :
    P5.Exact (⟨Real.sqrt, Real.cos, Real.sin, 2 * Real.pi, noise⟩ : P5 ℝ) where
  sqrt_nonneg := Real.sqrt_nonneg
  sqrt_mul_self := fun _ hx => Real.mul_self_sqrt hx
  cos_sq_add_sin_sq := fun a => by
    have := Real.cos_sq_add_sin_sq a
    nlinarith

end Lemmas

/-! ## Particle integration and wrap -/

section ParticleTheorems

variable {α : Type} [LinearOrderedField α]

/-- C6: on a canvas with `width ≥ 0` and `height ≥ 0`, after `edges()` the
position satisfies `0 ≤ pos.x ≤ width` and `0 ≤ pos.y ≤ height`, whatever
the position was. -/
theorem edges_pos_in_canvas (width height : α) (hw : 0 ≤ width) (hh : 0 ≤ height)
    (p : Particle α) :
    0 ≤ (p.edges width height).pos.x ∧ (p.edges width height).pos.x ≤ width ∧
    0 ≤ (p.edges width height).pos.y ∧ (p.edges width height).pos.y ≤ height := by
  simp only [Particle.edges]
  refine ⟨?_, ?_, ?_, ?_⟩ <;> split_ifs <;> linarith

/-- Witness of C6: the position `(-5, 120)` on a `100 × 100` canvas. -/
theorem edges_pos_in_canvas_witness :
    (0 : ℚ) ≤ ((⟨⟨-5, 120⟩, ⟨0, 0⟩, ⟨0, 0⟩, 2, [], 20⟩ : Particle ℚ).edges 100 100).pos.x ∧
    ((⟨⟨-5, 120⟩, ⟨0, 0⟩, ⟨0, 0⟩, 2, [], 20⟩ : Particle ℚ).edges 100 100).pos.x ≤ 100 ∧
    (0 : ℚ) ≤ ((⟨⟨-5, 120⟩, ⟨0, 0⟩, ⟨0, 0⟩, 2, [], 20⟩ : Particle ℚ).edges 100 100).pos.y ∧
    ((⟨⟨-5, 120⟩, ⟨0, 0⟩, ⟨0, 0⟩, 2, [], 20⟩ : Particle ℚ).edges 100 100).pos.y ≤ 100 :=
  edges_pos_in_canvas 100 100 (by norm_num) (by norm_num) _

/-- C7: `edges()` is a toroidal wrap, coordinate by coordinate: on a canvas
with `width, height ≥ 0` a coordinate below `0` becomes the canvas dimension,
a coordinate above the canvas dimension becomes `0`, a coordinate within
`[0, dimension]` is unchanged; velocity, acceleration, trail and the two
limits are unchanged. -/
theorem edges_toroidal_wrap (width height : α) (hw : 0 ≤ width) (hh : 0 ≤ height)
    (p : Particle α) :
    (p.pos.x < 0 → (p.edges width height).pos.x = width) ∧
    (width < p.pos.x → (p.edges width height).pos.x = 0) ∧
    (0 ≤ p.pos.x → p.pos.x ≤ width → (p.edges width height).pos.x = p.pos.x) ∧
    (p.pos.y < 0 → (p.edges width height).pos.y = height) ∧
    (height < p.pos.y → (p.edges width height).pos.y = 0) ∧
    (0 ≤ p.pos.y → p.pos.y ≤ height → (p.edges width height).pos.y = p.pos.y) ∧
    (p.edges width height).vel = p.vel ∧ (p.edges width height).acc = p.acc ∧
    (p.edges width height).history = p.history ∧
    (p.edges width height).maxspeed = p.maxspeed ∧
    (p.edges width height).maxHistory = p.maxHistory := by
  simp only [Particle.edges]
  refine ⟨?_, ?_, ?_, ?_, ?_, ?_, trivial, trivial, trivial, trivial, trivial⟩
  · intro h
    rw [if_pos h, if_neg (lt_irrefl _)]
  · intro h
    rw [if_neg (not_lt.2 (hw.trans h.le)), if_pos h]
  · intro h0 h1
    rw [if_neg (not_lt.2 h0), if_neg (not_lt.2 h1)]
  · intro h
    rw [if_pos h, if_neg (lt_irrefl _)]
  · intro h
    rw [if_neg (not_lt.2 (hh.trans h.le)), if_pos h]
  · intro h0 h1
    rw [if_neg (not_lt.2 h0), if_neg (not_lt.2 h1)]

/-- Witness of C7: the position `(-5, 120)` on a `100 × 100` canvas wraps to
`(100, 0)`. -/
theorem edges_toroidal_wrap_witness :
    ((⟨⟨-5, 120⟩, ⟨1, 1⟩, ⟨0, 0⟩, 2, [], 20⟩ : Particle ℚ).edges 100 100).pos.x = 100 ∧
    ((⟨⟨-5, 120⟩, ⟨1, 1⟩, ⟨0, 0⟩, 2, [], 20⟩ : Particle ℚ).edges 100 100).pos.y = 0 :=
  ⟨(edges_toroidal_wrap (100 : ℚ) 100 (by norm_num) (by norm_num)
      ⟨⟨-5, 120⟩, ⟨1, 1⟩, ⟨0, 0⟩, 2, [], 20⟩).1 (by norm_num),
   (edges_toroidal_wrap (100 : ℚ) 100 (by norm_num) (by norm_num)
      ⟨⟨-5, 120⟩, ⟨1, 1⟩, ⟨0, 0⟩, 2, [], 20⟩).2.2.2.2.1 (by norm_num)⟩

end ParticleTheorems

/-! ## Bounded first-in first-out sequences -/

section Fifo

variable {β : Type}

theorem lastN_length (n : ℕ) (l : List β) : (lastN n l).length = min l.length n := by
  simp only [lastN, List.length_drop]
  omega

theorem lastN_nil (n : ℕ) : lastN n ([] : List β) = [] := by
  simp [lastN]

/-- Appending an element and evicting the first one when the bound is
exceeded keeps the last `n` elements. -/
theorem push_evict_lastN (n : ℕ) (all : List β) (a : β) :
    (if (lastN n all ++ [a]).length > n then (lastN n all ++ [a]).drop 1
      else lastN n all ++ [a]) = lastN n (all ++ [a]) := by
  have hlen : (lastN n all ++ [a]).length = min all.length n + 1 := by
    rw [List.length_append, lastN_length]
    rfl
  rw [hlen]
  by_cases h : all.length < n
  · have h1 : ¬ (min all.length n + 1 > n) := by omega
    rw [if_neg h1]
    simp only [lastN, List.length_append, List.length_singleton]
    have e1 : all.length - n = 0 := by omega
    have e2 : all.length + 1 - n = 0 := by omega
    rw [e1, e2]
    rfl
  · have h1 : min all.length n + 1 > n := by omega
    rw [if_pos h1]
    simp only [lastN, List.length_append, List.length_singleton]
    have e2 : all.length + 1 - n = (all.length - n) + 1 := by omega
    rw [e2, ← List.drop_append_of_le_length (Nat.sub_le _ _), List.drop_drop]

/-- A sequence within the bound stays within it under append-and-evict. -/
theorem push_evict_length_le (n : ℕ) (l : List β) (a : β) (h : l.length ≤ n) :
    (if (l ++ [a]).length > n then (l ++ [a]).drop 1 else l ++ [a]).length ≤ n := by
  split_ifs with h1
  · simp only [List.length_drop, List.length_append, List.length_singleton]
    omega
  · omega

end Fifo

/-! ## The trail of a particle -/

section Trail

variable {α : Type} [LinearOrderedField α] [FloorRing α]

theorem Particle.follow_history (width : α) (vectors : List (Option (Vec α)))
    (p : Particle α) :
    (p.follow width vectors).history = p.history ∧
    (p.follow width vectors).maxHistory = p.maxHistory := by
  unfold Particle.follow
  dsimp only
  split <;> exact ⟨rfl, rfl⟩

omit [FloorRing α] in
theorem Particle.update_history (E : P5 α) (p : Particle α) :
    (p.update E).history =
      (if (p.history ++ [(p.update E).pos]).length > p.maxHistory
        then (p.history ++ [(p.update E).pos]).drop 1
        else p.history ++ [(p.update E).pos]) ∧
    (p.update E).maxHistory = p.maxHistory :=
  ⟨rfl, rfl⟩

theorem Particle.perform_history_length (E : P5 α) (p : Particle α) (op : ParticleOp α)
    (h : p.history.length ≤ p.maxHistory) :
    (p.perform E op).history.length ≤ (p.perform E op).maxHistory ∧
    (p.perform E op).maxHistory = p.maxHistory := by
  cases op with
  | follow width vectors =>
    have := p.follow_history width vectors
    simp only [Particle.perform, this.1, this.2, h, and_self]
  | applyForce force => exact ⟨h, rfl⟩
  | update =>
    have := p.update_history E
    simp only [Particle.perform, this.1, this.2, and_true]
    exact push_evict_length_le _ _ _ h
  | edges width height => exact ⟨h, rfl⟩

/-- The trail after a sequence of method calls, from any state whose trail
is the last `maxHistory` points of a record `all`. -/
theorem Particle.runOps_history (E : P5 α) (ops : List (ParticleOp α)) :
    ∀ (p : Particle α) (all : List (Vec α)), p.history = lastN p.maxHistory all →
      (p.runOps E ops).history = lastN p.maxHistory (all ++ p.produced E ops) ∧
      (p.runOps E ops).maxHistory = p.maxHistory := by
  induction ops with
  | nil =>
    intro p all h
    simpa [Particle.runOps, Particle.produced] using h
  | cons op ops ih =>
    intro p all h
    cases op with
    | follow width vectors =>
      have hf := p.follow_history width vectors
      have := ih (p.follow width vectors) all (by rw [hf.1, hf.2]; exact h)
      rw [hf.2] at this
      simpa [Particle.runOps, Particle.produced, Particle.perform] using this
    | applyForce force =>
      have := ih (p.applyForce force) all h
      simpa [Particle.runOps, Particle.produced, Particle.perform] using this
    | update =>
      have hu := p.update_history E
      have hk : (p.update E).history =
          lastN (p.update E).maxHistory (all ++ [(p.update E).pos]) := by
        rw [hu.1, hu.2, h]
        exact push_evict_lastN _ _ _
      have := ih (p.update E) (all ++ [(p.update E).pos]) hk
      rw [hu.2] at this
      simpa [Particle.runOps, Particle.produced, Particle.perform] using this
    | edges width height =>
      have := ih (p.edges width height) all h
      simpa [Particle.runOps, Particle.produced, Particle.perform] using this

theorem Particle.produced_length (E : P5 α) (ops : List (ParticleOp α)) :
    ∀ p : Particle α, (p.produced E ops).length = ops.countP ParticleOp.isUpdate := by
  induction ops with
  | nil => intro p; rfl
  | cons op ops ih =>
    intro p
    cases op <;> simp [Particle.produced, ParticleOp.isUpdate, ih]

/-- The invariant of the particle list: every trail is within the bound `20`. -/
theorem draw_particles_bounded (E : P5 α) (ptr : Pointer α) (u : α) (s : State α)
    (h : ∀ p ∈ s.particles, p.maxHistory = 20 ∧ p.history.length ≤ 20) :
    ∀ p ∈ (draw E ptr u s).particles, p.maxHistory = 20 ∧ p.history.length ≤ 20 := by
  intro q hq
  simp only [draw, List.mem_map] at hq
  obtain ⟨p, hp, rfl⟩ := hq
  obtain ⟨hm, hl⟩ := h p hp
  have h1 := Particle.perform_history_length E p (.follow s.width
    (rebuildFlowField E s.width s.height ptr.mouseX ptr.mouseY s.zoff s.flowField))
    (by rw [hm]; exact hl)
  have h2 := Particle.perform_history_length E _ .update h1.1
  have h3 := Particle.perform_history_length E _ (.edges s.width s.height) h2.1
  simp only [Particle.perform] at h1 h2 h3
  have e : (((p.follow s.width (rebuildFlowField E s.width s.height ptr.mouseX ptr.mouseY
      s.zoff s.flowField)).update E).edges s.width s.height).maxHistory = 20 := by
    rw [h3.2, h2.2, h1.2, hm]
  exact ⟨e, e ▸ h3.1⟩

theorem run_particles_bounded (E : P5 α) (events : List (Event α)) :
    ∀ s : State α, (∀ p ∈ s.particles, p.maxHistory = 20 ∧ p.history.length ≤ 20) →
      ∀ p ∈ (run E s events).particles, p.maxHistory = 20 ∧ p.history.length ≤ 20 := by
  induction events with
  | nil => intro s h; exact h
  | cons e events ih =>
    intro s h
    have : run E s (e :: events) = run E (step E s e) events := rfl
    rw [this]
    apply ih
    cases e with
    | frame ptr u => exact draw_particles_bounded E ptr u s h
    | click mouseX mouseY u => exact h
    | resize width height => exact h

theorem setup_particles_bounded (width height : α) (u : ℕ → α) :
    ∀ p ∈ (setup width height u).particles, p.maxHistory = 20 ∧ p.history.length ≤ 20 := by
  intro p hp
  unfold setup at hp
  dsimp only at hp
  rw [List.mem_map] at hp
  obtain ⟨i, _, rfl⟩ := hp
  exact ⟨rfl, Nat.zero_le _⟩

/-- C2: an `update()` of a particle whose trail has at most `maxHistory`
points leaves a trail of at most `maxHistory` points (and `maxHistory` as it
was); hence every particle of every state reached from `setup()` by frames,
clicks and resizes has `maxHistory = 20` and a trail of at most 20 points. -/
theorem trail_length_le_maxHistory (E : P5 α) :
    (∀ p : Particle α, p.history.length ≤ p.maxHistory →
      (p.update E).history.length ≤ p.maxHistory ∧
      (p.update E).maxHistory = p.maxHistory) ∧
    (∀ (width height : α) (u : ℕ → α) (events : List (Event α)),
      ∀ p ∈ (run E (setup width height u) events).particles,
        p.maxHistory = 20 ∧ p.history.length ≤ p.maxHistory) := by
  constructor
  · intro p h
    have := Particle.perform_history_length E p .update h
    simp only [Particle.perform] at this
    exact ⟨this.2 ▸ this.1, this.2⟩
  · intro width height u events p hp
    have := run_particles_bounded E events _ (setup_particles_bounded width height u) p hp
    exact ⟨this.1, this.1 ▸ this.2⟩

/-- C3: from a freshly constructed particle, after any sequence of method
calls with `n` calls of `update()` the trail is exactly the last
`min n 20` positions the updates left, oldest first; after 21 updates it has
20 points and its first point is the position of the 2nd update. -/
theorem trail_is_last_positions (E : P5 α) (x y : α) (ops : List (ParticleOp α)) :
    ((Particle.constructor x y).produced E ops).length = ops.countP ParticleOp.isUpdate ∧
    ((Particle.constructor x y).runOps E ops).history =
      lastN 20 ((Particle.constructor x y).produced E ops) ∧
    ((Particle.constructor x y).runOps E ops).history.length =
      min (ops.countP ParticleOp.isUpdate) 20 ∧
    (ops.countP ParticleOp.isUpdate = 21 →
      ((Particle.constructor x y).runOps E ops).history.length = 20 ∧
      ((Particle.constructor x y).runOps E ops).history.head? =
        ((Particle.constructor x y).produced E ops).get? 1) := by
  have hlen := Particle.produced_length E ops (Particle.constructor x y)
  have hh := (Particle.runOps_history E ops (Particle.constructor x y) [] rfl).1
  rw [List.nil_append] at hh
  have hh20 : ((Particle.constructor x y).runOps E ops).history =
      lastN 20 ((Particle.constructor x y).produced E ops) := hh
  refine ⟨hlen, hh20, ?_, ?_⟩
  · rw [hh20, lastN_length, hlen]
  · intro h21
    rw [hh20, lastN_length, hlen, h21]
    refine ⟨rfl, ?_⟩
    simp only [lastN, hlen, h21]
    rw [List.head?_drop]
    simp

/-- Witness of C2: the first `update()` of a fresh particle at `(1, 2)`. -/
theorem trail_length_le_maxHistory_witness :
    (Particle.constructor (1 : ℚ) 2).history.length ≤ (Particle.constructor (1 : ℚ) 2).maxHistory ∧
    ((Particle.constructor (1 : ℚ) 2).update
      ⟨fun x => x, fun _ => 1, fun _ => 0, 6, fun _ _ _ => 0⟩).history.length ≤ 20 :=
  ⟨Nat.zero_le _,
   ((trail_length_le_maxHistory
      (⟨fun x => x, fun _ => 1, fun _ => 0, 6, fun _ _ _ => 0⟩ : P5 ℚ)).1
      (Particle.constructor 1 2) (Nat.zero_le _)).1⟩

/-- Witness of C3: 21 calls of `update()` on a fresh particle at `(1, 2)`. -/
theorem trail_is_last_positions_witness :
    (List.replicate 21 (ParticleOp.update : ParticleOp ℚ)).countP ParticleOp.isUpdate = 21 ∧
    ((Particle.constructor (1 : ℚ) 2).runOps
      ⟨fun x => x, fun _ => 1, fun _ => 0, 6, fun _ _ _ => 0⟩
      (List.replicate 21 .update)).history.length = 20 ∧
    ((Particle.constructor (1 : ℚ) 2).runOps
      ⟨fun x => x, fun _ => 1, fun _ => 0, 6, fun _ _ _ => 0⟩
      (List.replicate 21 .update)).history.head? =
    ((Particle.constructor (1 : ℚ) 2).produced
      ⟨fun x => x, fun _ => 1, fun _ => 0, 6, fun _ _ _ => 0⟩
      (List.replicate 21 .update)).get? 1 :=
  ⟨by decide,
   (trail_is_last_positions
      (⟨fun x => x, fun _ => 1, fun _ => 0, 6, fun _ _ _ => 0⟩ : P5 ℚ) 1 2
      (List.replicate 21 .update)).2.2.2 (by decide)⟩

end Trail

/-! ## The colour-injection registry -/

section Registry

variable {α : Type} [LinearOrderedField α] [FloorRing α]

omit [FloorRing α] in
theorem mouseClicked_injectedColors (mouseX mouseY u : α) (s : State α) :
    (mouseClicked mouseX mouseY u s).injectedColors =
      (if (s.injectedColors ++ [(⟨⟨mouseX, mouseY⟩, random u 0 360, 100⟩ : Injection α)]).length > 5
        then (s.injectedColors ++ [(⟨⟨mouseX, mouseY⟩, random u 0 360, 100⟩ : Injection α)]).drop 1
        else s.injectedColors ++ [(⟨⟨mouseX, mouseY⟩, random u 0 360, 100⟩ : Injection α)]) :=
  rfl

/-- The registry after a sequence of events, from any state whose registry
is the last 5 entries of a record `all`. -/
theorem run_injectedColors (E : P5 α) (events : List (Event α)) :
    ∀ (s : State α) (all : List (Injection α)), s.injectedColors = lastN 5 all →
      (run E s events).injectedColors = lastN 5 (all ++ created events) := by
  induction events with
  | nil =>
    intro s all h
    simpa [run, created] using h
  | cons e events ih =>
    intro s all h
    have hrun : run E s (e :: events) = run E (step E s e) events := rfl
    rw [hrun]
    cases e with
    | frame ptr u =>
      have := ih (draw E ptr u s) all h
      simpa [step, created] using this
    | click mouseX mouseY u =>
      have hk : (mouseClicked mouseX mouseY u s).injectedColors =
          lastN 5 (all ++ [(⟨⟨mouseX, mouseY⟩, random u 0 360, 100⟩ : Injection α)]) := by
        rw [mouseClicked_injectedColors, h]
        exact push_evict_lastN _ _ _
      have := ih (mouseClicked mouseX mouseY u s) _ hk
      simpa [step, created] using this
    | resize width height =>
      have := ih (windowResized width height s) all h
      simpa [step, created] using this

omit [FloorRing α] in
theorem created_radius (events : List (Event α)) :
    ∀ inj ∈ created events, inj.radius = 100 := by
  induction events with
  | nil => intro inj h; simp [created] at h
  | cons e events ih =>
    intro inj h
    cases e with
    | frame ptr u => exact ih inj (by simpa [created] using h)
    | click mouseX mouseY u =>
      simp only [created, List.mem_cons] at h
      rcases h with rfl | h
      · rfl
      · exact ih inj h
    | resize width height => exact ih inj (by simpa [created] using h)

/-- C4: a `mouseClicked()` on a registry of at most `maxInjectedColors`
entries leaves at most `maxInjectedColors` entries; hence the registry of
every state reached from `setup()` by frames, clicks and resizes holds at
most `maxInjectedColors = 5` entries. -/
theorem registry_length_le_max (E : P5 α) :
    (∀ (mouseX mouseY u : α) (s : State α),
      s.injectedColors.length ≤ maxInjectedColors →
      (mouseClicked mouseX mouseY u s).injectedColors.length ≤ maxInjectedColors) ∧
    (∀ (width height : α) (u : ℕ → α) (events : List (Event α)),
      (run E (setup width height u) events).injectedColors.length ≤ maxInjectedColors) ∧
    maxInjectedColors = 5 := by
  refine ⟨?_, ?_, rfl⟩
  · intro mouseX mouseY u s h
    rw [mouseClicked_injectedColors]
    exact push_evict_length_le 5 _ _ h
  · intro width height u events
    rw [run_injectedColors E events (setup width height u) [] rfl, lastN_length]
    exact Nat.min_le_right _ _

/-- Witness of C4: a click at `(3, 4)` on the empty registry of `setup()`. -/
theorem registry_length_le_max_witness :
    (setup (100 : ℚ) 100 (fun _ => 0)).injectedColors.length ≤ maxInjectedColors ∧
    (mouseClicked 3 4 (1 / 2) (setup (100 : ℚ) 100 (fun _ => 0))).injectedColors.length
      ≤ maxInjectedColors :=
  ⟨Nat.zero_le _,
   (registry_length_le_max
      (⟨fun x => x, fun _ => 1, fun _ => 0, 6, fun _ _ _ => 0⟩ : P5 ℚ)).1
      3 4 (1 / 2) (setup 100 100 (fun _ => 0)) (Nat.zero_le _)⟩

/-- C5: from the empty registry of `setup()`, after any sequence of events
the registry is exactly the last `min n 5` of the `n` entries the clicks
injected, in insertion order, each as it was created (pointer position, hue
drawn, radius `100`); after 6 injections the 1st is absent and the other 5
remain in insertion order. -/
theorem registry_is_last_injections (E : P5 α) (width height : α) (u : ℕ → α)
    (events : List (Event α)) :
    (run E (setup width height u) events).injectedColors = lastN 5 (created events) ∧
    (run E (setup width height u) events).injectedColors.length =
      min (created events).length 5 ∧
    (∀ inj ∈ (run E (setup width height u) events).injectedColors, inj.radius = 100) ∧
    ((created events).length = 6 →
      (run E (setup width height u) events).injectedColors = (created events).drop 1) := by
  have h := run_injectedColors E events (setup width height u) [] rfl
  rw [List.nil_append] at h
  refine ⟨h, ?_, ?_, ?_⟩
  · rw [h, lastN_length]
  · intro inj hinj
    rw [h] at hinj
    exact created_radius events inj (List.mem_of_mem_drop hinj)
  · intro h6
    rw [h]
    simp only [lastN, h6]

/-- Witness of C5: six clicks, at `(1, 1)`, …, `(6, 6)`, with a frame in
between. -/
theorem registry_is_last_injections_witness :
    (created [Event.click (1 : ℚ) 1 0, .click 2 2 (1 / 2), .click 3 3 (1 / 4),
      .frame ⟨3, 3, 3, 3⟩ 0, .click 4 4 (1 / 8), .click 5 5 0, .click 6 6 (1 / 3)]).length = 6 ∧
    (run ⟨fun x => x, fun _ => 1, fun _ => 0, 6, fun _ _ _ => 0⟩ (setup 100 100 (fun _ => 0))
      [Event.click (1 : ℚ) 1 0, .click 2 2 (1 / 2), .click 3 3 (1 / 4),
      .frame ⟨3, 3, 3, 3⟩ 0, .click 4 4 (1 / 8), .click 5 5 0, .click 6 6 (1 / 3)]).injectedColors =
    (created [Event.click (1 : ℚ) 1 0, .click 2 2 (1 / 2), .click 3 3 (1 / 4),
      .frame ⟨3, 3, 3, 3⟩ 0, .click 4 4 (1 / 8), .click 5 5 0, .click 6 6 (1 / 3)]).drop 1 :=
  ⟨rfl,
   (registry_is_last_injections
      (⟨fun x => x, fun _ => 1, fun _ => 0, 6, fun _ _ _ => 0⟩ : P5 ℚ) 100 100 (fun _ => 0)
      [Event.click (1 : ℚ) 1 0, .click 2 2 (1 / 2), .click 3 3 (1 / 4),
      .frame ⟨3, 3, 3, 3⟩ 0, .click 4 4 (1 / 8), .click 5 5 0, .click 6 6 (1 / 3)]).2.2.2 rfl⟩

end Registry

/-! ## The hue drift -/

section Hue

variable {α : Type} [LinearOrderedField α] [FloorRing α]

/-- The JavaScript remainder leaves a dividend in `(-360, 0]` as it is. -/
theorem jsMod_of_nonpos {a : α} (h1 : -360 < a) (h2 : a ≤ 0) : jsMod a 360 = a := by
  unfold jsMod
  dsimp only
  by_cases hq : 0 ≤ a / 360
  · have ha : a = 0 := by
      have : 0 ≤ a := by
        have := mul_nonneg hq (by norm_num : (0 : α) ≤ 360)
        rwa [div_mul_cancel₀ a (by norm_num : (360 : α) ≠ 0)] at this
      exact le_antisymm h2 this
    rw [if_pos hq, ha]
    simp
  · rw [if_neg hq]
    have hc : ⌈a / 360⌉ = 0 := by
      rw [Int.ceil_eq_iff]
      constructor
      · rw [lt_div_iff₀ (by norm_num : (0 : α) < 360)]
        push_cast
        linarith
      · push_cast
        exact le_of_lt (not_le.1 hq)
    rw [hc]
    simp

theorem draw_hueShift (E : P5 α) (ptr : Pointer α) (u : α) (s : State α) :
    (draw E ptr u s).hueShift = hueShiftStep ptr u s.hueShift := rfl

/-- A frame with a moved pointer and the variate `0` lowers a hue shift in
`(-355, 0]` by `5`. -/
theorem hueShiftStep_down (ptr : Pointer α) (hmove : ptr.pmouseX ≠ ptr.mouseX) {h : α}
    (h1 : -355 < h) (h2 : h ≤ 0) : hueShiftStep ptr 0 h = h - 5 := by
  unfold hueShiftStep
  rw [if_pos (Or.inl hmove)]
  have e : h + random 0 (-5) 5 = h - 5 := by
    unfold random
    ring
  rw [e]
  exact jsMod_of_nonpos (by linarith) (by linarith)

theorem run_frames_down (E : P5 α) (ptr : Pointer α) (hmove : ptr.pmouseX ≠ ptr.mouseX)
    (n : ℕ) : ∀ s : State α, s.hueShift ≤ 0 → -360 < s.hueShift - 5 * (n : α) →
      (run E s (List.replicate n (.frame ptr 0))).hueShift = s.hueShift - 5 * (n : α) := by
  induction n with
  | zero => intro s _ _; simp [run]
  | succ n ih =>
    intro s h0 h1
    have hrun : run E s (List.replicate (n + 1) (.frame ptr 0)) =
        run E (draw E ptr 0 s) (List.replicate n (.frame ptr 0)) := rfl
    push_cast at h1
    have hn : (0 : α) ≤ (n : α) := Nat.cast_nonneg n
    have hs : (draw E ptr 0 s).hueShift = s.hueShift - 5 := by
      rw [draw_hueShift]
      exact hueShiftStep_down ptr hmove (by linarith) h0
    rw [hrun, ih (draw E ptr 0 s) (by rw [hs]; linarith) (by rw [hs]; linarith), hs]
    push_cast
    ring

/-- C10 (the code at the failing inputs): from `setup()`, one frame with a
moved pointer and the random delta `-3` leaves `hueShift = -3`, outside
`[0, 360)`; after 41 frames with a moved pointer and the delta `-5`,
`hueShift = -205` and the base hue of particle `0` is `-5`, outside
`[0, 360)`. -/
theorem hueShift_leaves_range (E : P5 α) (width height : α) (u : ℕ → α) :
    random (1 / 5 : α) (-5) 5 = -3 ∧
    (run E (setup width height u) [.frame ⟨1, 0, 0, 0⟩ (1 / 5)]).hueShift = -3 ∧
    ¬ (0 ≤ (run E (setup width height u) [.frame ⟨1, 0, 0, 0⟩ (1 / 5)]).hueShift) ∧
    random (0 : α) (-5) 5 = -5 ∧
    (run E (setup width height u) (List.replicate 41 (.frame ⟨1, 0, 0, 0⟩ 0))).hueShift
      = -205 ∧
    particleBaseHue
      (run E (setup width height u) (List.replicate 41 (.frame ⟨1, 0, 0, 0⟩ 0))).hueShift 0
      = -5 ∧
    ¬ (0 ≤ particleBaseHue
      (run E (setup width height u) (List.replicate 41 (.frame ⟨1, 0, 0, 0⟩ 0))).hueShift 0) := by
  have hr : random (1 / 5 : α) (-5) 5 = -3 := by
    unfold random
    norm_num
  have h1 : (run E (setup width height u) [.frame ⟨1, 0, 0, 0⟩ (1 / 5)]).hueShift = -3 := by
    show hueShiftStep ⟨1, 0, 0, 0⟩ (1 / 5) (0 : α) = -3
    unfold hueShiftStep
    rw [if_pos (Or.inl (by norm_num : (0 : α) ≠ 1)), hr, zero_add]
    exact jsMod_of_nonpos (by norm_num) (by norm_num)
  have h41 : (run E (setup width height u)
      (List.replicate 41 (.frame ⟨1, 0, 0, 0⟩ 0))).hueShift = -205 := by
    have h0 : (setup width height u).hueShift = 0 := rfl
    rw [run_frames_down E ⟨1, 0, 0, 0⟩ (by norm_num : (0 : α) ≠ 1) 41 _
      (by rw [h0]) (by rw [h0]; norm_num), h0]
    norm_num
  have hp : particleBaseHue (-205 : α) 0 = -5 := by
    unfold particleBaseHue baseHue
    have e : (200 : α) + -205 + ((0 : ℕ) : α) * (1 / 10) = -5 := by norm_num
    rw [e]
    exact jsMod_of_nonpos (by norm_num) (by norm_num)
  refine ⟨hr, h1, ?_, ?_, h41, ?_, ?_⟩
  · rw [h1]; norm_num
  · unfold random; norm_num
  · rw [h41]; exact hp
  · rw [h41, hp]; norm_num

end Hue

/-! ## The length of the flow field -/

section FieldLength

variable {α : Type} [LinearOrderedField α] [FloorRing α]

omit [LinearOrderedField α] [FloorRing α] in
theorem arraySet_length {β : Type} (a : List (Option β)) (i : ℕ) (v : β) :
    (arraySet a (i : ℤ) v).length = max a.length (i + 1) := by
  unfold arraySet
  rw [if_neg (by omega), Int.toNat_ofNat]
  split_ifs with h
  · rw [List.length_set]
    omega
  · simp only [List.length_append, List.length_replicate, List.length_singleton]
    omega

/-- The loop variable of `forLoop` takes exactly the naturals below the
bound. -/
theorem forLoop_mem (bound : α) (x : ℕ) : x ∈ List.range ⌈bound⌉₊ ↔ (x : α) < bound := by
  rw [List.mem_range, Nat.lt_ceil]

omit [LinearOrderedField α] [FloorRing α] in
/-- The length of the first component of a fold whose steps lengthen it to
at least `m x`. -/
theorem foldl_fst_length {β σ : Type} (step : List (Option β) × σ → ℕ → List (Option β) × σ)
    (m : ℕ → ℕ) (l : List ℕ) :
    ∀ st : List (Option β) × σ,
      (∀ st, ∀ x ∈ l, (step st x).1.length = max st.1.length (m x)) →
      (l.foldl step st).1.length = l.foldl (fun L x => max L (m x)) st.1.length := by
  induction l with
  | nil => intro st _; rfl
  | cons x l ih =>
    intro st h
    rw [List.foldl_cons, List.foldl_cons,
      ih (step st x) (fun st y hy => h st y (List.mem_cons_of_mem _ hy)),
      h st x (List.mem_cons_self _ _)]

omit [LinearOrderedField α] [FloorRing α] in
theorem foldl_max_range (m : ℕ → ℕ) (hm : Monotone m) (L : ℕ) (n : ℕ) :
    (List.range n).foldl (fun L x => max L (m x)) L =
      if n = 0 then L else max L (m (n - 1)) := by
  induction n with
  | zero => rfl
  | succ n ih =>
    rw [List.range_succ, List.foldl_append, ih]
    simp only [List.foldl_cons, List.foldl_nil, Nat.add_sub_cancel, Nat.succ_ne_zero, if_false]
    split_ifs with h
    · rfl
    · have := hm (Nat.sub_le n 1)
      omega

/-- The length of the field after the inner loop for row `y`. -/
theorem rebuildRow_length (E : P5 α) (width mouseX mouseY yoff zoff : α) (y : ℕ)
    (field : List (Option (Vec α))) :
    (rebuildRow E width mouseX mouseY yoff zoff y field).length =
      if ⌈width / resolution⌉₊ = 0 then field.length
      else max field.length (⌈width / resolution⌉₊ + y * ⌊width / resolution⌋₊) := by
  unfold rebuildRow forLoop
  rw [foldl_fst_length _ (fun x => x + y * ⌊width / resolution⌋₊ + 1)]
  · rw [foldl_max_range _ (fun a b hab =>
      Nat.add_le_add_right (Nat.add_le_add_right hab _) _)]
    split_ifs with h
    · rfl
    · dsimp only
      congr 1
      omega
  · intro st x hx
    have hx' := (forLoop_mem _ _).1 hx
    have hpos : (0 : α) ≤ width / resolution := le_trans (Nat.cast_nonneg x) hx'.le
    have hfl : floor (width / resolution) = ((⌊width / resolution⌋₊ : ℕ) : ℤ) := by
      unfold floor
      rw [Int.natCast_floor_eq_floor hpos]
    dsimp only
    rw [hfl]
    have e : (x : ℤ) + (y : ℤ) * ((⌊width / resolution⌋₊ : ℕ) : ℤ) =
        ((x + y * ⌊width / resolution⌋₊ : ℕ) : ℤ) := by push_cast; ring
    rw [e, arraySet_length]

/-- The length of the field after the rebuild: the allocated length, or one
more than the last index written if that is larger. -/
theorem rebuildFlowField_length (E : P5 α) (width height mouseX mouseY zoff : α)
    (field : List (Option (Vec α))) :
    (rebuildFlowField E width height mouseX mouseY zoff field).length =
      if ⌈width / resolution⌉₊ = 0 ∨ ⌈height / resolution⌉₊ = 0 then field.length
      else max field.length
        (⌈width / resolution⌉₊ + (⌈height / resolution⌉₊ - 1) * ⌊width / resolution⌋₊) := by
  unfold rebuildFlowField forLoop
  rw [foldl_fst_length _ (fun y => if ⌈width / resolution⌉₊ = 0 then 0
      else ⌈width / resolution⌉₊ + y * ⌊width / resolution⌋₊)]
  · rw [foldl_max_range]
    · by_cases hw : ⌈width / resolution⌉₊ = 0
      · simp [hw]
      · by_cases hh : ⌈height / resolution⌉₊ = 0
        · simp [hh]
        · simp [hw, hh]
    · intro a b hab
      dsimp only
      split_ifs
      · exact le_refl _
      · exact Nat.add_le_add_left (Nat.mul_le_mul_right _ hab) _
  · intro st y _
    dsimp only
    rw [rebuildRow_length]
    split_ifs <;> simp

theorem newArray_length {β : Type} (n : ℕ) : (newArray (n : ℤ) : List (Option β)).length = n := by
  simp [newArray]

theorem draw_flowField (E : P5 α) (ptr : Pointer α) (u : α) (s : State α) :
    (draw E ptr u s).flowField =
      rebuildFlowField E s.width s.height ptr.mouseX ptr.mouseY s.zoff s.flowField := rfl

theorem setup_flowField (width height : α) (u : ℕ → α) :
    (setup width height u).flowField =
      newArray (floor (width / resolution) * floor (height / resolution)) := rfl

/-- On a canvas whose sides are multiples `20 * c` and `20 * r` of the grid
step, the field allocated by `setup()` and rebuilt by a frame has `c * r`
slots. -/
theorem flowField_length_of_multiples (E : P5 α) (ptr : Pointer α) (v : α) (u : ℕ → α)
    (c r : ℕ) :
    (draw E ptr v (setup (20 * (c : α)) (20 * (r : α)) u)).flowField.length = c * r := by
  have hc : (20 * (c : α)) / resolution = (c : α) := by
    unfold resolution
    field_simp
  have hr : (20 * (r : α)) / resolution = (r : α) := by
    unfold resolution
    field_simp
  rw [draw_flowField, rebuildFlowField_length, setup_flowField]
  have hw : (setup (20 * (c : α)) (20 * (r : α)) u).width = 20 * (c : α) := rfl
  have hh : (setup (20 * (c : α)) (20 * (r : α)) u).height = 20 * (r : α) := rfl
  rw [hw, hh, hc, hr]
  have e : floor (c : α) * floor (r : α) = ((c * r : ℕ) : ℤ) := by
    unfold floor
    simp
  rw [e, newArray_length, Nat.ceil_natCast, Nat.ceil_natCast, Nat.floor_natCast]
  split_ifs with h
  · rfl
  · push_neg at h
    obtain ⟨r', rfl⟩ := Nat.exists_eq_succ_of_ne_zero h.2
    have : c + (r' + 1 - 1) * c = c * (r' + 1) := by
      rw [Nat.add_sub_cancel]
      ring
    rw [this, max_self]

/-- C9 (the code at the failing input): on a `110 × 110` canvas the grid
cell count is `floor(110/20) * floor(110/20) = 25` and `setup()` allocates 25
slots, but the rebuild of one frame writes the slot of index 30 and leaves a
field of length 31. -/
theorem flowField_length_exceeds_cell_count (E : P5 α) (ptr : Pointer α) (v : α)
    (u : ℕ → α) :
    floor ((110 : α) / resolution) * floor ((110 : α) / resolution) = 25 ∧
    (setup (110 : α) 110 u).flowField.length = 25 ∧
    (draw E ptr v (setup (110 : α) 110 u)).flowField.length = 31 := by
  have hf : floor ((110 : α) / resolution) = 5 := by
    unfold floor resolution
    rw [Int.floor_eq_iff]
    constructor <;> norm_num
  have hfn : ⌊(110 : α) / resolution⌋₊ = 5 := by
    unfold resolution
    rw [Nat.floor_eq_iff (by norm_num)]
    constructor <;> norm_num
  have hcn : ⌈(110 : α) / resolution⌉₊ = 6 := by
    unfold resolution
    rw [Nat.ceil_eq_iff (by norm_num)]
    constructor <;> norm_num
  have hlen : (setup (110 : α) 110 u).flowField.length = 25 := by
    rw [setup_flowField, hf]
    exact newArray_length 25
  refine ⟨by rw [hf]; rfl, hlen, ?_⟩
  rw [draw_flowField, rebuildFlowField_length, hlen]
  have hw : (setup (110 : α) 110 u).width = 110 := rfl
  have hh : (setup (110 : α) 110 u).height = 110 := rfl
  rw [hw, hh, hcn, hfn]
  rfl

end FieldLength

/-! ## The content of the flow field -/

section FieldContent

variable {α : Type} [LinearOrderedField α] [FloorRing α]

omit [LinearOrderedField α] [FloorRing α] in
theorem arrayGet_natCast {β : Type} (a : List (Option β)) (i : ℕ) :
    arrayGet a (i : ℤ) = (a.get? i).join := by
  unfold arrayGet
  rw [if_neg (by omega), Int.toNat_ofNat]

omit [LinearOrderedField α] [FloorRing α] in
/-- A read after a write of the same index gives the value written. -/
theorem arrayGet_arraySet_eq {β : Type} (a : List (Option β)) (i : ℕ) (v : β) :
    arrayGet (arraySet a (i : ℤ) v) (i : ℤ) = some v := by
  rw [arrayGet_natCast]
  unfold arraySet
  rw [if_neg (by omega), Int.toNat_ofNat]
  split_ifs with h
  · simp [List.getElem?_set, h]
  · have hl : (a ++ List.replicate (i - a.length) none).length = i := by
      simp; omega
    rw [List.get?_eq_getElem?, List.getElem?_append_right (by omega), hl]
    simp

omit [LinearOrderedField α] [FloorRing α] in
/-- A write leaves the reads of the other indices as they were. -/
theorem arrayGet_arraySet_ne {β : Type} (a : List (Option β)) (i j : ℕ) (hij : j ≠ i)
    (v : β) : arrayGet (arraySet a (i : ℤ) v) (j : ℤ) = arrayGet a (j : ℤ) := by
  rw [arrayGet_natCast, arrayGet_natCast]
  unfold arraySet
  rw [if_neg (by omega), Int.toNat_ofNat]
  split_ifs with h
  · simp [List.getElem?_set, Ne.symm hij]
  · rw [List.get?_eq_getElem?, List.get?_eq_getElem?]
    push_neg at h
    by_cases hj : j < a.length
    · rw [List.append_assoc, List.getElem?_append_left hj]
    · push_neg at hj
      rw [List.getElem?_eq_none hj]
      by_cases hji : j < i
      · rw [List.getElem?_append_left (by simp; omega), List.getElem?_append_right hj]
        rw [List.getElem?_replicate]
        simp
      · rw [List.getElem?_eq_none (by simp; omega)]

/-- The state of the inner loop after the columns `0, …, n - 1` of row `y`,
the index stride being the natural `c`. -/
theorem rebuildRow_fold (E : P5 α) (width mouseX mouseY yoff zoff : α) (c : ℕ)
    (hc : floor (width / resolution) = (c : ℤ)) (y : ℕ) (field : List (Option (Vec α)))
    (n : ℕ) :
    ((List.range n).foldl
      (fun (st : List (Option (Vec α)) × α) (x : ℕ) =>
        (arraySet st.1 ((x : ℤ) + (y : ℤ) * floor (width / resolution))
          (cellVector E mouseX mouseY st.2 yoff zoff x y), st.2 + 1 / 10))
      (field, 0)).2 = (n : α) * (1 / 10) ∧
    (∀ col < n, arrayGet ((List.range n).foldl
      (fun (st : List (Option (Vec α)) × α) (x : ℕ) =>
        (arraySet st.1 ((x : ℤ) + (y : ℤ) * floor (width / resolution))
          (cellVector E mouseX mouseY st.2 yoff zoff x y), st.2 + 1 / 10))
      (field, 0)).1 ((col + y * c : ℕ) : ℤ) =
        some (cellVector E mouseX mouseY ((col : α) * (1 / 10)) yoff zoff col y)) ∧
    (∀ j : ℕ, (∀ x < n, j ≠ x + y * c) → arrayGet ((List.range n).foldl
      (fun (st : List (Option (Vec α)) × α) (x : ℕ) =>
        (arraySet st.1 ((x : ℤ) + (y : ℤ) * floor (width / resolution))
          (cellVector E mouseX mouseY st.2 yoff zoff x y), st.2 + 1 / 10))
      (field, 0)).1 (j : ℤ) = arrayGet field (j : ℤ)) := by
  induction n with
  | zero =>
    refine ⟨by simp, fun col h => absurd h (Nat.not_lt_zero _), fun j _ => rfl⟩
  | succ n ih =>
    obtain ⟨ih1, ih2, ih3⟩ := ih
    have hidx : (n : ℤ) + (y : ℤ) * floor (width / resolution) = ((n + y * c : ℕ) : ℤ) := by
      rw [hc]; push_cast; ring
    rw [List.range_succ, List.foldl_append]
    simp only [List.foldl_cons, List.foldl_nil]
    rw [hidx, ih1]
    refine ⟨by push_cast; ring, ?_, ?_⟩
    · intro col hcol
      by_cases h : col = n
      · rw [h]
        exact arrayGet_arraySet_eq _ _ _
      · rw [arrayGet_arraySet_ne _ _ _ (by omega)]
        exact ih2 col (by omega)
    · intro j hj
      rw [arrayGet_arraySet_ne _ _ _ (hj n (Nat.lt_succ_self n))]
      exact ih3 j (fun x hx => hj x (Nat.lt_succ_of_lt hx))

theorem floor_eq_natFloor {a : α} (h : 0 ≤ a) : floor a = ((⌊a⌋₊ : ℕ) : ℤ) := by
  unfold floor
  rw [Int.natCast_floor_eq_floor h]

/-- After the inner loop for row `y`, the slot of each visited cell holds the
vector of that cell. -/
theorem rebuildRow_get (E : P5 α) (width mouseX mouseY yoff zoff : α) (y : ℕ)
    (field : List (Option (Vec α))) (col : ℕ) (hcol : (col : α) < width / resolution) :
    arrayGet (rebuildRow E width mouseX mouseY yoff zoff y field)
      ((col + y * ⌊width / resolution⌋₊ : ℕ) : ℤ) =
      some (cellVector E mouseX mouseY ((col : α) * (1 / 10)) yoff zoff col y) := by
  have hpos : (0 : α) ≤ width / resolution := le_trans (Nat.cast_nonneg col) hcol.le
  exact (rebuildRow_fold E width mouseX mouseY yoff zoff _ (floor_eq_natFloor hpos) y field
    ⌈width / resolution⌉₊).2.1 col (Nat.lt_ceil.2 hcol)

/-- The inner loop for row `y` leaves the slots below `y * stride` as they
were. -/
theorem rebuildRow_get_below (E : P5 α) (width mouseX mouseY yoff zoff : α) (y : ℕ)
    (field : List (Option (Vec α))) (j : ℕ) (hj : j < y * ⌊width / resolution⌋₊) :
    arrayGet (rebuildRow E width mouseX mouseY yoff zoff y field) (j : ℤ) =
      arrayGet field (j : ℤ) := by
  by_cases hpos : (0 : α) ≤ width / resolution
  · exact (rebuildRow_fold E width mouseX mouseY yoff zoff _ (floor_eq_natFloor hpos) y field
      ⌈width / resolution⌉₊).2.2 j (fun x _ => by omega)
  · have : ⌊width / resolution⌋₊ = 0 := Nat.floor_of_nonpos (le_of_lt (not_le.1 hpos))
    rw [this] at hj
    omega

/-- The state of the rebuild after the rows `0, …, R - 1`: the slot of each
cell `(col, row)` with `col` below the stride holds the vector of that
cell. -/
theorem rebuildFlowField_fold (E : P5 α) (width mouseX mouseY zoff : α)
    (field : List (Option (Vec α))) (R : ℕ) :
    ((List.range R).foldl
      (fun (st : List (Option (Vec α)) × α) (y : ℕ) =>
        (rebuildRow E width mouseX mouseY st.2 zoff y st.1, st.2 + 1 / 10))
      (field, 0)).2 = (R : α) * (1 / 10) ∧
    (∀ row < R, ∀ col < ⌊width / resolution⌋₊, arrayGet ((List.range R).foldl
      (fun (st : List (Option (Vec α)) × α) (y : ℕ) =>
        (rebuildRow E width mouseX mouseY st.2 zoff y st.1, st.2 + 1 / 10))
      (field, 0)).1 ((col + row * ⌊width / resolution⌋₊ : ℕ) : ℤ) =
        some (cellVector E mouseX mouseY ((col : α) * (1 / 10)) ((row : α) * (1 / 10))
          zoff col row)) := by
  induction R with
  | zero => exact ⟨by simp, fun row h => absurd h (Nat.not_lt_zero _)⟩
  | succ R ih =>
    obtain ⟨ih1, ih2⟩ := ih
    rw [List.range_succ, List.foldl_append]
    simp only [List.foldl_cons, List.foldl_nil]
    rw [ih1]
    refine ⟨by push_cast; ring, ?_⟩
    intro row hrow col hcol
    by_cases h : row = R
    · rw [h]
      apply rebuildRow_get
      have h1 : ((col + 1 : ℕ) : α) ≤ width / resolution :=
        (Nat.le_floor_iff' (Nat.succ_ne_zero col)).1 hcol
      push_cast at h1
      linarith
    · have hlt : row + 1 ≤ R := by omega
      have hmul := Nat.mul_le_mul_right ⌊width / resolution⌋₊ hlt
      rw [rebuildRow_get_below _ _ _ _ _ _ _ _ _ (by
        rw [Nat.add_mul, Nat.one_mul] at hmul; omega)]
      exact ih2 row (by omega) col hcol

/-- After the rebuild, the slot `col + row * floor(width / 20)` of a cell with
`col < floor(width / 20)` in a visited row holds the vector computed for
that cell, at the noise offsets `(col * 0.1, row * 0.1, zoff)`. -/
theorem rebuildFlowField_get (E : P5 α) (width height mouseX mouseY zoff : α)
    (field : List (Option (Vec α))) (col row : ℕ) (hcol : col < ⌊width / resolution⌋₊)
    (hrow : (row : α) < height / resolution) :
    arrayGet (rebuildFlowField E width height mouseX mouseY zoff field)
      ((col : ℤ) + (row : ℤ) * floor (width / resolution)) =
      some (cellVector E mouseX mouseY ((col : α) * (1 / 10)) ((row : α) * (1 / 10))
        zoff col row) := by
  have hpos : (0 : α) ≤ width / resolution := by
    by_contra hneg
    rw [Nat.floor_of_nonpos (le_of_lt (not_le.1 hneg))] at hcol
    exact Nat.not_lt_zero _ hcol
  have hidx : (col : ℤ) + (row : ℤ) * floor (width / resolution) =
      ((col + row * ⌊width / resolution⌋₊ : ℕ) : ℤ) := by
    rw [floor_eq_natFloor hpos]; push_cast; ring
  rw [hidx]
  exact (rebuildFlowField_fold E width mouseX mouseY zoff field ⌈height / resolution⌉₊).2
    row (Nat.lt_ceil.2 hrow) col hcol

end FieldContent

/-! ## The magnitude of the flow-field vectors -/

section FieldMagnitude

variable {α : Type} [LinearOrderedField α]

theorem P5.Exact.sqrt_zero {E : P5 α} (hE : E.Exact) : E.sqrt 0 = 0 := by
  have := hE.sqrt_mul_self_eq (le_refl (0 : α))
  rwa [mul_zero] at this

/-- Normalising leaves the zero vector and makes every other vector a unit
vector. -/
theorem Vec.magSq_normalize {E : P5 α} (hE : E.Exact) (v : Vec α) :
    (v.normalize E).magSq = if v.magSq = 0 then 0 else 1 := by
  unfold Vec.normalize Vec.mag
  dsimp only
  by_cases h0 : v.magSq = 0
  · rw [if_pos h0, h0, hE.sqrt_zero, if_neg (by simp)]
    exact h0
  · have hpos : 0 < v.magSq := lt_of_le_of_ne v.magSq_nonneg (Ne.symm h0)
    have hs := hE.sqrt_pos hpos
    have hss := hE.sqrt_mul_self v.magSq hpos.le
    rw [if_neg h0, if_pos (ne_of_gt hs), Vec.magSq_mult]
    have e : (1 / E.sqrt v.magSq) * (1 / E.sqrt v.magSq) =
        1 / (E.sqrt v.magSq * E.sqrt v.magSq) := by
      field_simp
    rw [e, hss, mul_one_div, div_self h0]

theorem Vec.mag_setMag {E : P5 α} (hE : E.Exact) (v : Vec α) (hv : v.magSq ≠ 0) {n : α}
    (hn : 0 ≤ n) : (v.setMag E n).mag E = n := by
  unfold Vec.setMag Vec.mag
  rw [Vec.magSq_mult, Vec.magSq_normalize hE, if_neg hv, one_mul]
  exact hE.sqrt_mul_self_eq hn

theorem Vec.magSq_setMag_one {E : P5 α} (hE : E.Exact) (v : Vec α) (hv : v.magSq ≠ 0) :
    (v.setMag E 1).magSq = 1 := by
  unfold Vec.setMag
  rw [Vec.magSq_mult, Vec.magSq_normalize hE, if_neg hv]
  norm_num

theorem Vec.magSq_fromAngle {E : P5 α} (hE : E.Exact) (angle : α) :
    (Vec.fromAngle E angle).magSq = 1 :=
  hE.cos_sq_add_sin_sq angle

/-- A unit vector minus a vector of squared length below `1` is not zero. -/
theorem Vec.magSq_sub_ne_zero (v w : Vec α) (hv : v.magSq = 1) (hw : w.magSq < 1) :
    (v.sub w).magSq ≠ 0 := by
  intro h
  simp only [Vec.magSq, Vec.sub] at h hv hw
  have hx : v.x - w.x = 0 := by
    by_contra hne
    have := mul_self_pos.2 hne
    nlinarith [mul_self_nonneg (v.y - w.y)]
  have hy : v.y - w.y = 0 := by
    by_contra hne
    have := mul_self_pos.2 hne
    nlinarith [mul_self_nonneg (v.x - w.x)]
  have ex : v.x = w.x := sub_eq_zero.1 hx
  have ey : v.y = w.y := sub_eq_zero.1 hy
  rw [ex, ey] at hv
  linarith

/-- The vector of a cell is the plain noise direction when the pointer is at
distance `≥ 150`. -/
theorem cellVector_far (E : P5 α) (mouseX mouseY xoff yoff zoff : α) (x y : ℕ)
    (h : 150 ≤ dist E ((x : α) * resolution) ((y : α) * resolution) mouseX mouseY) :
    cellVector E mouseX mouseY xoff yoff zoff x y =
      (Vec.fromAngle E (E.noise xoff yoff zoff * E.TWO_PI * 4)).setMag E 1 := by
  unfold cellVector
  dsimp only
  rw [if_neg (not_lt.2 h)]

/-- The vector of a cell when the pointer is at distance `< 150`. -/
theorem cellVector_near (E : P5 α) (mouseX mouseY xoff yoff zoff : α) (x y : ℕ)
    (h : dist E ((x : α) * resolution) ((y : α) * resolution) mouseX mouseY < 150) :
    cellVector E mouseX mouseY xoff yoff zoff x y =
      (Vec.normalize E
        (((Vec.fromAngle E (E.noise xoff yoff zoff * E.TWO_PI * 4)).setMag E 1).sub
          ((Vec.normalize E
              ⟨mouseX - (x : α) * resolution, mouseY - (y : α) * resolution⟩).mult
            (map (dist E ((x : α) * resolution) ((y : α) * resolution) mouseX mouseY)
              0 150 1 0 * (8 / 10))))).setMag E (3 / 2) := by
  unfold cellVector
  dsimp only
  rw [if_pos h]

/-- The perturbed vector of a cell near the pointer is not zero before it is
renormalised. -/
theorem cellVector_perturbed_ne_zero {E : P5 α} (hE : E.Exact)
    (mouseX mouseY xoff yoff zoff : α) (x y : ℕ)
    (h : dist E ((x : α) * resolution) ((y : α) * resolution) mouseX mouseY < 150) :
    (((Vec.fromAngle E (E.noise xoff yoff zoff * E.TWO_PI * 4)).setMag E 1).sub
      ((Vec.normalize E
          ⟨mouseX - (x : α) * resolution, mouseY - (y : α) * resolution⟩).mult
        (map (dist E ((x : α) * resolution) ((y : α) * resolution) mouseX mouseY)
          0 150 1 0 * (8 / 10)))).magSq ≠ 0 := by
  have hd0 : 0 ≤ dist E ((x : α) * resolution) ((y : α) * resolution) mouseX mouseY :=
    hE.sqrt_nonneg _
  generalize dist E ((x : α) * resolution) ((y : α) * resolution) mouseX mouseY = d at h hd0
  have hv : ((Vec.fromAngle E (E.noise xoff yoff zoff * E.TWO_PI * 4)).setMag E 1).magSq = 1 :=
    Vec.magSq_setMag_one hE _ (by rw [Vec.magSq_fromAngle hE]; exact one_ne_zero)
  apply Vec.magSq_sub_ne_zero _ _ hv
  rw [Vec.magSq_mult, Vec.magSq_normalize hE]
  have hm : map d 0 150 1 0 = 1 - d / 150 := by
    unfold map
    ring
  rw [hm]
  have h1 : 0 < 1 - d / 150 := by
    have : d / 150 < 1 := by rw [div_lt_one (by norm_num)]; exact h
    linarith
  have h2 : 1 - d / 150 ≤ 1 := by
    have : 0 ≤ d / 150 := div_nonneg hd0 (by norm_num)
    linarith
  have hk : (1 - d / 150) * (8 / 10) * ((1 - d / 150) * (8 / 10)) < 1 := by nlinarith
  split_ifs
  · rw [zero_mul]; exact zero_lt_one
  · rw [one_mul]; exact hk

/-- The magnitude of the vector computed for a cell (lines 50-67). -/
theorem cellVector_mag_cases {E : P5 α} (hE : E.Exact) (mouseX mouseY xoff yoff zoff : α)
    (x y : ℕ) :
    (150 ≤ dist E ((x : α) * 20) ((y : α) * 20) mouseX mouseY →
      (cellVector E mouseX mouseY xoff yoff zoff x y).mag E = 1) ∧
    (dist E ((x : α) * 20) ((y : α) * 20) mouseX mouseY < 150 →
      (cellVector E mouseX mouseY xoff yoff zoff x y).mag E = 3 / 2) := by
  constructor
  · intro h
    rw [cellVector_far E mouseX mouseY xoff yoff zoff x y h]
    exact Vec.mag_setMag hE _ (by rw [Vec.magSq_fromAngle hE]; exact one_ne_zero) zero_le_one
  · intro h
    have hne := cellVector_perturbed_ne_zero hE mouseX mouseY xoff yoff zoff x y h
    rw [cellVector_near E mouseX mouseY xoff yoff zoff x y h]
    apply Vec.mag_setMag hE _ _ (by norm_num)
    rw [Vec.magSq_normalize hE, if_neg hne]
    exact one_ne_zero

variable [FloorRing α]

end FieldMagnitude

/-! ## The hue drift of a frame with a stationary pointer -/

section HueDrift

variable {α : Type} [LinearOrderedField α] [FloorRing α]

/-- C11: a `draw()` frame whose pointer position equals the previous one
(`pmouseX = mouseX` and `pmouseY = mouseY`) leaves `hueShift` as it was,
whatever the random source returns; a frame changes `hueShift` only if the
pointer position differs from the previous one. -/
theorem hueShift_unchanged_of_stationary (E : P5 α) (ptr : Pointer α) (u : α) (s : State α) :
    (ptr.pmouseX = ptr.mouseX → ptr.pmouseY = ptr.mouseY →
      (draw E ptr u s).hueShift = s.hueShift) ∧
    ((draw E ptr u s).hueShift ≠ s.hueShift →
      ptr.pmouseX ≠ ptr.mouseX ∨ ptr.pmouseY ≠ ptr.mouseY) := by
  have key : ¬ (ptr.pmouseX ≠ ptr.mouseX ∨ ptr.pmouseY ≠ ptr.mouseY) →
      (draw E ptr u s).hueShift = s.hueShift := by
    intro h
    rw [draw_hueShift]
    unfold hueShiftStep
    rw [if_neg h]
  constructor
  · intro hx hy
    exact key (by rintro (h | h); exact h hx; exact h hy)
  · intro hne
    by_contra h
    exact hne (key h)

/-- Witness of C11: a frame with the pointer resting at `(3, 4)`. -/
theorem hueShift_unchanged_of_stationary_witness :
    (draw ⟨fun x => x, fun _ => 1, fun _ => 0, 6, fun _ _ _ => 0⟩ ⟨3, 4, 3, 4⟩ (1 / 5)
      (setup (100 : ℚ) 100 (fun _ => 0))).hueShift =
    (setup (100 : ℚ) 100 (fun _ => 0)).hueShift :=
  (hueShift_unchanged_of_stationary
    (⟨fun x => x, fun _ => 1, fun _ => 0, 6, fun _ _ _ => 0⟩ : P5 ℚ) ⟨3, 4, 3, 4⟩ (1 / 5)
    (setup (100 : ℚ) 100 (fun _ => 0))).1 rfl rfl

end HueDrift

/-! ## The blend of the injected colours -/

section Blend

variable {α : Type} [LinearOrderedField α]

theorem map_influence (d r : α) : map d 0 r 1 0 = 1 - d / r := by
  unfold map
  simp only [sub_zero]
  ring

theorem dist_self (E : P5 α) (x y : α) : dist E x y x y = E.sqrt 0 := by
  unfold dist
  simp only [sub_self, mul_zero, add_zero]

theorem blendHue_nil (E : P5 α) (pos : Vec α) (hue : α) : blendHue E [] pos hue = hue := rfl

theorem blendHue_cons (E : P5 α) (inj : Injection α) (rest : List (Injection α))
    (pos : Vec α) (hue : α) :
    blendHue E (inj :: rest) pos hue =
      blendHue E rest pos
        (if dist E pos.x pos.y inj.pos.x inj.pos.y < inj.radius then
          lerp hue inj.hue (map (dist E pos.x pos.y inj.pos.x inj.pos.y) 0 inj.radius 1 0
            * (7 / 10))
        else hue) := rfl

theorem brushHue_nil (E : P5 α) (currentHue : α) (p : Vec α) :
    brushHue E [] currentHue p = currentHue := rfl

theorem brushHue_cons (E : P5 α) (inj : Injection α) (rest : List (Injection α))
    (currentHue : α) (p : Vec α) :
    brushHue E (inj :: rest) currentHue p =
      brushHue E rest
        (if dist E p.x p.y inj.pos.x inj.pos.y < inj.radius then
          lerp currentHue inj.hue (map (dist E p.x p.y inj.pos.x inj.pos.y) 0 inj.radius 1 0
            * (5 / 10))
        else currentHue) p := rfl

theorem specBlend_cons (E : P5 α) (w : α) (inj : Injection α) (rest : List (Injection α))
    (p : Vec α) (hue : α) :
    specBlend E w (inj :: rest) p hue =
      specBlend E w rest p
        (if dist E p.x p.y inj.pos.x inj.pos.y < inj.radius then
          hue + (inj.hue - hue) * (w * (1 - dist E p.x p.y inj.pos.x inj.pos.y / inj.radius))
        else hue) := rfl

/-- The loop of `draw()` is the blend of the spec with the weight `0.7`. -/
theorem blendHue_eq_specBlend (E : P5 α) (injectedColors : List (Injection α)) (pos : Vec α) :
    ∀ hue : α, blendHue E injectedColors pos hue = specBlend E (7 / 10) injectedColors pos hue := by
  induction injectedColors with
  | nil => intro hue; rfl
  | cons inj rest ih =>
    intro hue
    rw [blendHue_cons, ih, specBlend_cons]
    congr 1
    split_ifs
    · rw [map_influence]
      unfold lerp
      ring
    · rfl

/-- The loop of `display()` is the blend of the spec with the weight `0.5`. -/
theorem brushHue_eq_specBlend (E : P5 α) (injectedColors : List (Injection α)) (p : Vec α) :
    ∀ hue : α, brushHue E injectedColors hue p = specBlend E (1 / 2) injectedColors p hue := by
  induction injectedColors with
  | nil => intro hue; rfl
  | cons inj rest ih =>
    intro hue
    rw [brushHue_cons, ih, specBlend_cons]
    congr 1
    split_ifs
    · rw [map_influence]
      unfold lerp
      ring
    · rfl

/-- At the centre of a single injection of radius `100` the loop of `draw()`
moves the hue `0.7` of the way to the hue of the injection. -/
theorem blendHue_centre {E : P5 α} (hE : E.Exact) (x y hue injHue : α) :
    blendHue E [⟨⟨x, y⟩, injHue, 100⟩] ⟨x, y⟩ hue = hue + (injHue - hue) * (7 / 10) := by
  rw [blendHue_cons, blendHue_nil]
  dsimp only
  rw [dist_self, hE.sqrt_zero, if_pos (by norm_num), map_influence]
  unfold lerp
  ring

/-- At the centre of a single injection of radius `100` the loop of
`display()` moves the hue `0.5` of the way to the hue of the injection. -/
theorem brushHue_centre {E : P5 α} (hE : E.Exact) (x y hue injHue : α) :
    brushHue E [⟨⟨x, y⟩, injHue, 100⟩] hue ⟨x, y⟩ = hue + (injHue - hue) * (1 / 2) := by
  rw [brushHue_cons, brushHue_nil]
  dsimp only
  rw [dist_self, hE.sqrt_zero, if_pos (by norm_num), map_influence]
  unfold lerp
  ring

/-- C13 (counterexample): for the trail point `(50, 50)`, the input hue `0`
and the registry of one injection at `(50, 50)` with hue `180` and radius
`100`, `display()` draws the point with the hue `90`, while the blend of the
particle level applied to the same hue and point gives `126`. -/
theorem display_hue_ne_particle_blend :
    (Particle.display ⟨Real.sqrt, Real.cos, Real.sin, 2 * Real.pi, fun _ _ _ => 0⟩
      [⟨⟨50, 50⟩, 180, 100⟩]
      (⟨⟨50, 50⟩, ⟨0, 0⟩, ⟨0, 0⟩, 2, [⟨50, 50⟩], 20⟩ : Particle ℝ) 0).map Stroke.hue = [90] ∧
    brushHue ⟨Real.sqrt, Real.cos, Real.sin, 2 * Real.pi, fun _ _ _ => 0⟩
      [⟨⟨50, 50⟩, 180, 100⟩] (0 : ℝ) ⟨50, 50⟩ = 90 ∧
    blendHue ⟨Real.sqrt, Real.cos, Real.sin, 2 * Real.pi, fun _ _ _ => 0⟩
      [⟨⟨50, 50⟩, 180, 100⟩] ⟨50, 50⟩ (0 : ℝ) = 126 ∧
    brushHue ⟨Real.sqrt, Real.cos, Real.sin, 2 * Real.pi, fun _ _ _ => 0⟩
      [⟨⟨50, 50⟩, 180, 100⟩] (0 : ℝ) ⟨50, 50⟩ ≠
    blendHue ⟨Real.sqrt, Real.cos, Real.sin, 2 * Real.pi, fun _ _ _ => 0⟩
      [⟨⟨50, 50⟩, 180, 100⟩] ⟨50, 50⟩ (0 : ℝ) := by
  have hb : brushHue ⟨Real.sqrt, Real.cos, Real.sin, 2 * Real.pi, fun _ _ _ => 0⟩
      [⟨⟨50, 50⟩, 180, 100⟩] (0 : ℝ) ⟨50, 50⟩ = 90 := by
    rw [brushHue_centre (real_exact _)]
    norm_num
  have hp : blendHue ⟨Real.sqrt, Real.cos, Real.sin, 2 * Real.pi, fun _ _ _ => 0⟩
      [⟨⟨50, 50⟩, 180, 100⟩] ⟨50, 50⟩ (0 : ℝ) = 126 := by
    rw [blendHue_centre (real_exact _)]
    norm_num
  refine ⟨?_, hb, hp, ?_⟩
  · show [brushHue ⟨Real.sqrt, Real.cos, Real.sin, 2 * Real.pi, fun _ _ _ => 0⟩
      [⟨⟨50, 50⟩, 180, 100⟩] (0 : ℝ) ⟨50, 50⟩] = [90]
    rw [hb]
  · rw [hb, hp]
    norm_num

/-- C13 (amended): for every trail, input hue and registry, the hue
`display()` draws a trail point with is the blend of the spec with the
weight `0.5 × influence` applied to the input hue at that point, where the
blend of the particle level is the same blend with the weight `0.7 ×
influence`. -/
theorem display_hue_is_half_weight_blend (E : P5 α) (injectedColors : List (Injection α))
    (p : Particle α) (currentHue : α) :
    (p.display E injectedColors currentHue).map Stroke.hue =
      p.history.map (fun pt => specBlend E (1 / 2) injectedColors pt currentHue) ∧
    (∀ (pt : Vec α) (hue : α),
      brushHue E injectedColors hue pt = specBlend E (1 / 2) injectedColors pt hue) ∧
    (∀ (pt : Vec α) (hue : α),
      blendHue E injectedColors pt hue = specBlend E (7 / 10) injectedColors pt hue) := by
  refine ⟨?_, fun pt hue => brushHue_eq_specBlend E injectedColors pt hue,
    fun pt hue => blendHue_eq_specBlend E injectedColors pt hue⟩
  apply List.ext_getElem?
  intro n
  unfold Particle.display
  simp only [List.getElem?_map, List.getElem?_mapIdx]
  cases p.history[n]? with
  | none => rfl
  | some pt =>
    simp only [Option.map_some']
    rw [brushHue_eq_specBlend]

/-- C18: the blend over the registry depends on the order: at the centre of
two injections `A` (hue `0`) and `B` (hue `100`) and from the hue `200` the
order `[A, B]` gives `88` and the order `[B, A]` gives `39`; for two
injections containing the point the result for `[A, B]` is
`lerp(lerp(base, A.hue, wA), B.hue, wB)` with the weights `0.7 × influence`. -/
theorem blend_order_dependent (E : P5 α) (hE : E.Exact) :
    (∃ (hue : α) (pos : Vec α) (A B : Injection α),
      dist E pos.x pos.y A.pos.x A.pos.y < A.radius ∧
      dist E pos.x pos.y B.pos.x B.pos.y < B.radius ∧
      blendHue E [A, B] pos hue ≠ blendHue E [B, A] pos hue) ∧
    blendHue E [⟨⟨0, 0⟩, 0, 100⟩, ⟨⟨0, 0⟩, 100, 100⟩] ⟨0, 0⟩ 200 = 88 ∧
    blendHue E [⟨⟨0, 0⟩, 100, 100⟩, ⟨⟨0, 0⟩, 0, 100⟩] ⟨0, 0⟩ 200 = 39 ∧
    (∀ (hue : α) (pos : Vec α) (A B : Injection α),
      dist E pos.x pos.y A.pos.x A.pos.y < A.radius →
      dist E pos.x pos.y B.pos.x B.pos.y < B.radius →
      blendHue E [A, B] pos hue =
        lerp (lerp hue A.hue (map (dist E pos.x pos.y A.pos.x A.pos.y) 0 A.radius 1 0 * (7 / 10)))
          B.hue (map (dist E pos.x pos.y B.pos.x B.pos.y) 0 B.radius 1 0 * (7 / 10))) := by
  have h0 : dist E (0 : α) 0 0 0 < 100 := by
    rw [dist_self, hE.sqrt_zero]
    norm_num
  have hm : map (dist E (0 : α) 0 0 0) 0 100 1 0 = 1 := by
    rw [map_influence, dist_self, hE.sqrt_zero]
    norm_num
  have hAB : blendHue E [⟨⟨0, 0⟩, 0, 100⟩, ⟨⟨0, 0⟩, 100, 100⟩] ⟨0, 0⟩ (200 : α) = 88 := by
    rw [blendHue_cons, blendHue_cons, blendHue_nil]
    dsimp only
    simp only [if_pos h0, hm]
    unfold lerp
    norm_num
  have hBA : blendHue E [⟨⟨0, 0⟩, 100, 100⟩, ⟨⟨0, 0⟩, 0, 100⟩] ⟨0, 0⟩ (200 : α) = 39 := by
    rw [blendHue_cons, blendHue_cons, blendHue_nil]
    dsimp only
    simp only [if_pos h0, hm]
    unfold lerp
    norm_num
  refine ⟨?_, hAB, hBA, ?_⟩
  · refine ⟨200, ⟨0, 0⟩, ⟨⟨0, 0⟩, 0, 100⟩, ⟨⟨0, 0⟩, 100, 100⟩, ?_, ?_, ?_⟩
    · show dist E 0 0 0 0 < 100
      rw [dist_self, hE.sqrt_zero]
      norm_num
    · show dist E 0 0 0 0 < 100
      rw [dist_self, hE.sqrt_zero]
      norm_num
    · rw [hAB, hBA]
      norm_num
  · intro hue pos A B hA hB
    rw [blendHue_cons, blendHue_cons, blendHue_nil, if_pos hA, if_pos hB]

/-- Witness of C18 on the reals: the hue `200` at the centre of the
injections `A` (hue `0`) and `B` (hue `100`) of radius `100`. -/
theorem blend_order_dependent_witness :
    blendHue ⟨Real.sqrt, Real.cos, Real.sin, 2 * Real.pi, fun _ _ _ => 0⟩
      [⟨⟨0, 0⟩, 0, 100⟩, ⟨⟨0, 0⟩, 100, 100⟩] ⟨0, 0⟩ (200 : ℝ) =
    lerp (lerp 200 0 (map (dist ⟨Real.sqrt, Real.cos, Real.sin, 2 * Real.pi, fun _ _ _ => 0⟩
        (0 : ℝ) 0 0 0) 0 100 1 0 * (7 / 10)))
      100 (map (dist ⟨Real.sqrt, Real.cos, Real.sin, 2 * Real.pi, fun _ _ _ => 0⟩
        (0 : ℝ) 0 0 0) 0 100 1 0 * (7 / 10)) :=
  (blend_order_dependent ⟨Real.sqrt, Real.cos, Real.sin, 2 * Real.pi, fun _ _ _ => 0⟩
    (real_exact _)).2.2.2 200 ⟨0, 0⟩ ⟨⟨0, 0⟩, 0, 100⟩ ⟨⟨0, 0⟩, 100, 100⟩
    (by
      show Real.sqrt _ < (100 : ℝ)
      norm_num)
    (by
      show Real.sqrt _ < (100 : ℝ)
      norm_num)

end Blend

/-! ## The alpha ramp of the trail -/

section Alpha

variable {α : Type} [LinearOrderedField α]

theorem mapChecked_of_ne (n start1 stop1 start2 stop2 : α) (h : stop1 - start1 ≠ 0) :
    mapChecked n start1 stop1 start2 stop2 = some (map n start1 stop1 start2 stop2) := by
  unfold mapChecked jsDiv map
  rw [if_neg h]
  rfl

theorem mapChecked_of_eq (n start1 stop1 start2 stop2 : α) (h : stop1 - start1 = 0) :
    mapChecked n start1 stop1 start2 stop2 = none := by
  unfold mapChecked jsDiv
  rw [if_pos h]
  rfl

theorem Particle.display_length (E : P5 α) (injectedColors : List (Injection α))
    (p : Particle α) (currentHue : α) :
    (p.display E injectedColors currentHue).length = p.history.length := by
  unfold Particle.display
  rw [List.length_mapIdx]

theorem Particle.display_getElem? (E : P5 α) (injectedColors : List (Injection α))
    (p : Particle α) (currentHue : α) (i : ℕ) :
    (p.display E injectedColors currentHue)[i]? =
      p.history[i]?.map (fun pt =>
        { x := pt.x
          y := pt.y
          hue := brushHue E injectedColors currentHue pt
          alpha := mapChecked (i : α) 0 ((p.history.length : α) - 1) 0 (5 / 10) }) := by
  unfold Particle.display
  rw [List.getElem?_mapIdx]

/-- The points `display()` draws are the points of the trail, in the order
of the trail. -/
theorem Particle.display_points (E : P5 α) (injectedColors : List (Injection α))
    (p : Particle α) (currentHue : α) :
    (p.display E injectedColors currentHue).map (fun s => (⟨s.x, s.y⟩ : Vec α)) = p.history := by
  apply List.ext_getElem?
  intro n
  rw [List.getElem?_map, Particle.display_getElem?]
  cases p.history[n]? with
  | none => rfl
  | some pt => rfl

/-- The alphas `display()` draws a trail of at least two points with. -/
theorem Particle.display_alpha (E : P5 α) (injectedColors : List (Injection α))
    (p : Particle α) (currentHue : α) (hn : 2 ≤ p.history.length) :
    (p.display E injectedColors currentHue).map Stroke.alpha =
      (List.range p.history.length).map
        (fun (i : ℕ) => some (5 / 10 * (i : α) / ((p.history.length : α) - 1))) := by
  have hne : ((p.history.length : α) - 1) - 0 ≠ 0 := by
    have : (2 : α) ≤ (p.history.length : α) := by exact_mod_cast hn
    rw [sub_zero]
    linarith
  apply List.ext_getElem?
  intro n
  rw [List.getElem?_map, List.getElem?_map, Particle.display_getElem?]
  by_cases h : n < p.history.length
  · rw [List.getElem?_range h, List.getElem?_eq_getElem h]
    simp only [Option.map_some']
    rw [mapChecked_of_ne _ _ _ _ _ hne]
    unfold map
    simp only [sub_zero, add_zero]
    exact congrArg some (congrArg some (by ring))
  · rw [List.getElem?_eq_none (not_lt.1 h),
      List.getElem?_eq_none (by rw [List.length_range]; exact not_lt.1 h)]
    rfl

/-- C14: for a trail of `n ≥ 2` points `display()` draws the points of the
trail in trail order (oldest first) and gives the point at index `i` the
alpha `0.5 * i / (n - 1)`: the oldest point gets `0`, the newest `0.5`, and
the alpha is strictly increasing in `i`. -/
theorem display_alpha_ramp (E : P5 α) (injectedColors : List (Injection α))
    (p : Particle α) (currentHue : α) (hn : 2 ≤ p.history.length) :
    (p.display E injectedColors currentHue).map (fun s => (⟨s.x, s.y⟩ : Vec α)) = p.history ∧
    (p.display E injectedColors currentHue).map Stroke.alpha =
      (List.range p.history.length).map
        (fun (i : ℕ) => some (5 / 10 * (i : α) / ((p.history.length : α) - 1))) ∧
    ((p.display E injectedColors currentHue).map Stroke.alpha).head? = some (some 0) ∧
    ((p.display E injectedColors currentHue).map Stroke.alpha).getLast? = some (some (5 / 10)) ∧
    (∀ (i j : ℕ) (a b : α), i < j →
      ((p.display E injectedColors currentHue).map Stroke.alpha)[i]? = some (some a) →
      ((p.display E injectedColors currentHue).map Stroke.alpha)[j]? = some (some b) →
      a < b) := by
  have hα := Particle.display_alpha E injectedColors p currentHue hn
  have hpos : (0 : α) < (p.history.length : α) - 1 := by
    have : (2 : α) ≤ (p.history.length : α) := by exact_mod_cast hn
    linarith
  have hget : ∀ (i : ℕ) (a : α),
      ((p.display E injectedColors currentHue).map Stroke.alpha)[i]? = some (some a) →
      a = 5 / 10 * (i : α) / ((p.history.length : α) - 1) := by
    intro i a h
    rw [hα, List.getElem?_map] at h
    by_cases hi : i < p.history.length
    · rw [List.getElem?_range hi] at h
      simp only [Option.map_some', Option.some.injEq] at h
      exact h.symm
    · rw [List.getElem?_eq_none (by rw [List.length_range]; exact not_lt.1 hi)] at h
      simp at h
  refine ⟨Particle.display_points E injectedColors p currentHue, hα, ?_, ?_, ?_⟩
  · rw [hα, List.head?_eq_getElem?, List.getElem?_map,
      List.getElem?_range (by omega : 0 < p.history.length)]
    simp
  · rw [hα, List.getLast?_eq_getElem?, List.length_map, List.length_range, List.getElem?_map,
      List.getElem?_range (by omega : p.history.length - 1 < p.history.length)]
    simp only [Option.map_some', Option.some.injEq]
    have e : ((p.history.length - 1 : ℕ) : α) = (p.history.length : α) - 1 := by
      rw [Nat.cast_sub (by omega)]
      simp
    rw [e, mul_div_assoc, div_self (ne_of_gt hpos), mul_one]
  · intro i j a b hij ha hb
    rw [hget i a ha, hget j b hb]
    have hc : (i : α) < (j : α) := by exact_mod_cast hij
    apply div_lt_div_of_pos_right _ hpos
    linarith

/-- Witness of C14: a trail of the three points `(0, 0)`, `(1, 1)`, `(2, 2)`. -/
theorem display_alpha_ramp_witness :
    ((Particle.display ⟨fun x => x, fun _ => 1, fun _ => 0, 6, fun _ _ _ => 0⟩ []
      (⟨⟨2, 2⟩, ⟨1, 1⟩, ⟨0, 0⟩, 2, [⟨0, 0⟩, ⟨1, 1⟩, ⟨2, 2⟩], 20⟩ : Particle ℚ) 0).map
        Stroke.alpha).getLast? = some (some (5 / 10)) :=
  (display_alpha_ramp (⟨fun x => x, fun _ => 1, fun _ => 0, 6, fun _ _ _ => 0⟩ : P5 ℚ) []
    ⟨⟨2, 2⟩, ⟨1, 1⟩, ⟨0, 0⟩, 2, [⟨0, 0⟩, ⟨1, 1⟩, ⟨2, 2⟩], 20⟩ 0 (by decide)).2.2.2.1

theorem setup_particles_fresh [FloorRing α] (width height : α) (u : ℕ → α) :
    ∀ p ∈ (setup width height u).particles, ∃ x y, p = Particle.constructor x y := by
  intro p hp
  unfold setup at hp
  dsimp only at hp
  rw [List.mem_map] at hp
  obtain ⟨i, _, rfl⟩ := hp
  exact ⟨_, _, rfl⟩

/-- The alpha of a trail of one point is not a number. -/
theorem Particle.display_alpha_single (E : P5 α) (injectedColors : List (Injection α))
    (p : Particle α) (currentHue : α) (pt : Vec α) (h : p.history = [pt]) :
    (p.display E injectedColors currentHue).map Stroke.alpha = [none] := by
  unfold Particle.display
  rw [h, List.mapIdx_singleton]
  simp only [List.map_cons, List.map_nil, List.length_singleton, Nat.cast_one, Nat.cast_zero]
  rw [mapChecked_of_eq _ _ _ _ _ (by norm_num)]

/-- C19 (the code at the failing input): for a trail of one point
`display()` computes the alpha `map(0, 0, 0, 0, 0.5)`, a division of `0` by
`0`, which is not a number; that is the trail of every particle in the first
frame after `setup()`, where every point is drawn with such an alpha. -/
theorem display_alpha_not_a_number [FloorRing α] (E : P5 α) (ptr : Pointer α)
    (width height : α) (u : ℕ → α) :
    mapChecked (0 : α) 0 (((1 : ℕ) : α) - 1) 0 (5 / 10) = none ∧
    (∀ (injectedColors : List (Injection α)) (pos vel acc pt : Vec α) (currentHue : α),
      (Particle.display E injectedColors ⟨pos, vel, acc, 2, [pt], 20⟩ currentHue).map
        Stroke.alpha = [none]) ∧
    (∀ strokes ∈ drawStrokes E ptr (setup width height u),
      strokes.map Stroke.alpha = [none]) := by
  refine ⟨mapChecked_of_eq _ _ _ _ _ (by norm_num), ?_, ?_⟩
  · intro injectedColors pos vel acc pt currentHue
    exact Particle.display_alpha_single E injectedColors _ currentHue pt rfl
  · intro strokes hs
    unfold drawStrokes at hs
    dsimp only at hs
    rw [List.mem_mapIdx] at hs
    obtain ⟨i, hi, rfl⟩ := hs
    obtain ⟨x, y, hp⟩ := setup_particles_fresh width height u _ (List.getElem_mem hi)
    rw [hp]
    apply Particle.display_alpha_single E _ _ _
      (((Particle.constructor x y).follow (setup width height u).width
        (rebuildFlowField E (setup width height u).width (setup width height u).height
          ptr.mouseX ptr.mouseY (setup width height u).zoff
          (setup width height u).flowField)).update E).pos
    have hf := Particle.follow_history (setup width height u).width
      (rebuildFlowField E (setup width height u).width (setup width height u).height
        ptr.mouseX ptr.mouseY (setup width height u).zoff (setup width height u).flowField)
      (Particle.constructor x y)
    show (Particle.update E _).history = _
    rw [(Particle.update_history E _).1, hf.1, hf.2]
    rfl

end Alpha

/-! ## The force of the flow field on a particle -/

section Follow

variable {α : Type} [LinearOrderedField α] [FloorRing α]

theorem Particle.follow_of_none (width : α) (vectors : List (Option (Vec α)))
    (p : Particle α)
    (h : arrayGet vectors (floor (p.pos.x / resolution) +
      floor (p.pos.y / resolution) * floor (width / resolution)) = none) :
    p.follow width vectors = p := by
  unfold Particle.follow
  dsimp only
  rw [h]

theorem Particle.follow_of_some (width : α) (vectors : List (Option (Vec α)))
    (p : Particle α) (v : Vec α)
    (h : arrayGet vectors (floor (p.pos.x / resolution) +
      floor (p.pos.y / resolution) * floor (width / resolution)) = some v) :
    p.follow width vectors = p.applyForce v := by
  unfold Particle.follow
  dsimp only
  rw [h]

omit [LinearOrderedField α] [FloorRing α] in
theorem arrayGet_of_neg {β : Type} (a : List (Option β)) (i : ℤ) (h : i < 0) :
    arrayGet a i = none := by
  unfold arrayGet
  rw [if_pos h]

omit [LinearOrderedField α] [FloorRing α] in
theorem arrayGet_of_length_le {β : Type} (a : List (Option β)) (i : ℤ)
    (h : (a.length : ℤ) ≤ i) : arrayGet a i = none := by
  unfold arrayGet
  rw [if_neg (by omega), List.get?_eq_none.2 (by omega)]
  rfl

omit [LinearOrderedField α] [FloorRing α] in
theorem arrayGet_of_slot {β : Type} (a : List (Option β)) (i : ℤ) (h : 0 ≤ i)
    (slot : Option β) (hs : a.get? i.toNat = some slot) : arrayGet a i = slot := by
  unfold arrayGet
  rw [if_neg (by omega), hs]
  rfl

/-- C15: when the index
`floor(pos.x/20) + floor(pos.y/20) * floor(width/20)` lies outside the field
(negative, at or past the length, or an unfilled slot), `follow()` leaves the
particle as it is; when the slot of the index holds a vector, the
acceleration after `follow()` is the acceleration before plus that vector,
the other fields being unchanged. -/
theorem follow_outside_or_inside (width : α) (vectors : List (Option (Vec α)))
    (p : Particle α) :
    (floor (p.pos.x / resolution) + floor (p.pos.y / resolution) * floor (width / resolution)
        < 0 → p.follow width vectors = p) ∧
    ((vectors.length : ℤ) ≤ floor (p.pos.x / resolution) +
        floor (p.pos.y / resolution) * floor (width / resolution) →
      p.follow width vectors = p) ∧
    (0 ≤ floor (p.pos.x / resolution) + floor (p.pos.y / resolution) * floor (width / resolution) →
      vectors.get? (floor (p.pos.x / resolution) +
        floor (p.pos.y / resolution) * floor (width / resolution)).toNat = some none →
      p.follow width vectors = p) ∧
    (∀ v : Vec α,
      0 ≤ floor (p.pos.x / resolution) +
        floor (p.pos.y / resolution) * floor (width / resolution) →
      vectors.get? (floor (p.pos.x / resolution) +
        floor (p.pos.y / resolution) * floor (width / resolution)).toNat = some (some v) →
      (p.follow width vectors).acc = ⟨p.acc.x + v.x, p.acc.y + v.y⟩ ∧
      (p.follow width vectors).pos = p.pos ∧ (p.follow width vectors).vel = p.vel ∧
      (p.follow width vectors).maxspeed = p.maxspeed ∧
      (p.follow width vectors).history = p.history ∧
      (p.follow width vectors).maxHistory = p.maxHistory) := by
  refine ⟨?_, ?_, ?_, ?_⟩
  · intro h
    exact p.follow_of_none width vectors (arrayGet_of_neg _ _ h)
  · intro h
    exact p.follow_of_none width vectors (arrayGet_of_length_le _ _ h)
  · intro h0 hs
    exact p.follow_of_none width vectors (arrayGet_of_slot _ _ h0 none hs)
  · intro v h0 hs
    rw [p.follow_of_some width vectors v (arrayGet_of_slot _ _ h0 (some v) hs)]
    exact ⟨rfl, rfl, rfl, rfl, rfl, rfl⟩

/-- Witness of C15: a particle at `(25, 0)` on a canvas of width `100`, over
the slot `1` of a field of three slots, and over an unfilled slot. -/
theorem follow_outside_or_inside_witness :
    ((⟨⟨25, 0⟩, ⟨0, 0⟩, ⟨1, 2⟩, 2, [], 20⟩ : Particle ℚ).follow 100
      [none, some ⟨3, 4⟩, none]).acc = ⟨1 + 3, 2 + 4⟩ ∧
    (⟨⟨45, 0⟩, ⟨0, 0⟩, ⟨1, 2⟩, 2, [], 20⟩ : Particle ℚ).follow 100
      [none, some ⟨3, 4⟩, none] = ⟨⟨45, 0⟩, ⟨0, 0⟩, ⟨1, 2⟩, 2, [], 20⟩ := by
  have h25 : floor ((25 : ℚ) / resolution) = 1 := by
    unfold floor resolution
    rw [Int.floor_eq_iff]
    constructor <;> norm_num
  have h45 : floor ((45 : ℚ) / resolution) = 2 := by
    unfold floor resolution
    rw [Int.floor_eq_iff]
    constructor <;> norm_num
  have h0 : floor ((0 : ℚ) / resolution) = 0 := by
    unfold floor resolution
    simp
  constructor
  · exact ((follow_outside_or_inside (100 : ℚ) [none, some ⟨3, 4⟩, none]
      ⟨⟨25, 0⟩, ⟨0, 0⟩, ⟨1, 2⟩, 2, [], 20⟩).2.2.2 ⟨3, 4⟩
      (by show (0 : ℤ) ≤ floor ((25 : ℚ) / resolution) + floor ((0 : ℚ) / resolution) * _
          rw [h25, h0]; norm_num)
      (by show List.get? _ (floor ((25 : ℚ) / resolution) +
            floor ((0 : ℚ) / resolution) * _).toNat = _
          rw [h25, h0, zero_mul, add_zero]; rfl)).1
  · exact (follow_outside_or_inside (100 : ℚ) [none, some ⟨3, 4⟩, none]
      ⟨⟨45, 0⟩, ⟨0, 0⟩, ⟨1, 2⟩, 2, [], 20⟩).2.2.1
      (by show (0 : ℤ) ≤ floor ((45 : ℚ) / resolution) + floor ((0 : ℚ) / resolution) * _
          rw [h45, h0]; norm_num)
      (by show List.get? _ (floor ((45 : ℚ) / resolution) +
            floor ((0 : ℚ) / resolution) * _).toNat = _
          rw [h45, h0, zero_mul, add_zero]; rfl)

end Follow

/-! ## The integration step -/

section Integration

variable {α : Type} [LinearOrderedField α]

theorem P5.Exact.lt_sqrt {E : P5 α} (hE : E.Exact) {x m : α} (hx : 0 ≤ x) (hm : 0 ≤ m)
    (h : m * m < x) : m < E.sqrt x := by
  have h1 := hE.sqrt_nonneg x
  have h2 := hE.sqrt_mul_self x hx
  by_contra hle
  push_neg at hle
  nlinarith

end Integration

/-! ## The cell whose vector a particle follows -/

section FollowCell

variable {α : Type} [LinearOrderedField α] [FloorRing α]

/-- A particle over a cell `(col, row)` with `col < floor(width / 20)` in a
visited row follows the vector rebuilt for that cell. -/
theorem follow_adds_own_cell (E : P5 α) (width height mouseX mouseY zoff : α)
    (field : List (Option (Vec α))) (p : Particle α) (col row : ℕ)
    (hx : floor (p.pos.x / resolution) = (col : ℤ))
    (hy : floor (p.pos.y / resolution) = (row : ℤ))
    (hcol : col < ⌊width / resolution⌋₊) (hrow : (row : α) < height / resolution) :
    (p.follow width (rebuildFlowField E width height mouseX mouseY zoff field)).acc =
      p.acc.add (cellVector E mouseX mouseY ((col : α) * (1 / 10)) ((row : α) * (1 / 10))
        zoff col row) := by
  rw [p.follow_of_some width _ _ (by
    rw [hx, hy]
    exact rebuildFlowField_get E width height mouseX mouseY zoff field col row hcol hrow)]
  rfl

theorem floor_hundred : floor ((100 : α) / resolution) = 5 := by
  unfold floor resolution
  rw [Int.floor_eq_iff]
  constructor <;> norm_num

theorem natFloor_hundred : ⌊(100 : α) / resolution⌋₊ = 5 := by
  unfold resolution
  rw [Nat.floor_eq_iff (by norm_num)]
  constructor <;> norm_num

/-- C20 (the code at the failing input): on a `100 × 100` canvas a particle
that left through the left edge is put at `pos.x = 100 = width` by
`edges()`; at `pos = (100, 0)` its column is `floor(100/20) = 5 = gridCols`,
the index is `5 + 0 * 5 = 5`, the slot of the cell `(0, 1)`, and `follow()`
adds to the acceleration the vector rebuilt for the cell `(0, 1)`, the first
cell of the next row. -/
theorem follow_applies_next_row_cell (E : P5 α) (ptr : Pointer α) (v : α) (u : ℕ → α)
    (vel acc : Vec α) (history : List (Vec α)) :
    (Particle.edges 100 100 (⟨⟨-1, 0⟩, vel, acc, 2, history, 20⟩ : Particle α)).pos
      = ⟨100, 0⟩ ∧
    floor ((100 : α) / resolution) = 5 ∧
    floor ((100 : α) / resolution) + floor ((0 : α) / resolution) * floor ((100 : α) / resolution)
      = (0 : ℤ) + (1 : ℤ) * floor ((100 : α) / resolution) ∧
    arrayGet (draw E ptr v (setup 100 100 u)).flowField 5 =
      some (cellVector E ptr.mouseX ptr.mouseY (((0 : ℕ) : α) * (1 / 10))
        (((1 : ℕ) : α) * (1 / 10)) 0 0 1) ∧
    ((⟨⟨100, 0⟩, vel, acc, 2, history, 20⟩ : Particle α).follow 100
      (draw E ptr v (setup 100 100 u)).flowField).acc =
      acc.add (cellVector E ptr.mouseX ptr.mouseY (((0 : ℕ) : α) * (1 / 10))
        (((1 : ℕ) : α) * (1 / 10)) 0 0 1) := by
  have h0 : floor ((0 : α) / resolution) = 0 := by
    unfold floor
    simp
  have hget : arrayGet (draw E ptr v (setup 100 100 u)).flowField 5 =
      some (cellVector E ptr.mouseX ptr.mouseY (((0 : ℕ) : α) * (1 / 10))
        (((1 : ℕ) : α) * (1 / 10)) 0 0 1) := by
    have h := rebuildFlowField_get E (100 : α) 100 ptr.mouseX ptr.mouseY 0
      (setup (100 : α) 100 u).flowField 0 1 (by rw [natFloor_hundred]; norm_num)
      (by unfold resolution; norm_num)
    rw [floor_hundred] at h
    exact h
  refine ⟨?_, floor_hundred, ?_, hget, ?_⟩
  · unfold Particle.edges
    dsimp only
    rw [if_pos (by norm_num : (-1 : α) < 0), if_neg (lt_irrefl (100 : α)),
      if_neg (lt_irrefl (0 : α)), if_neg (by norm_num : ¬ (0 : α) > 100)]
  · rw [floor_hundred, h0]
    norm_num
  · rw [Particle.follow_of_some (100 : α) _ _ _ (by
      show arrayGet _ (floor ((100 : α) / resolution) +
        floor ((0 : α) / resolution) * floor ((100 : α) / resolution)) = _
      rw [floor_hundred, h0]
      exact hget)]
    rfl

omit [FloorRing α] in
/-- With the pointer at `(200, 0)` the vector of the cell `(0, 1)`, at
distance `> 150`, has magnitude `1`, while a cell at the position `(100, 0)`
of the particle, at distance `100`, gets a vector of magnitude `1.5`. -/
theorem next_row_cell_vector_differs {E : P5 α} (hE : E.Exact) (xoff yoff xoff' yoff' zoff : α) :
    (cellVector E 200 0 xoff yoff zoff 0 1).mag E = 1 ∧
    (cellVector E 200 0 xoff' yoff' zoff 5 0).mag E = 3 / 2 := by
  constructor
  · apply (cellVector_mag_cases hE 200 0 xoff yoff zoff 0 1).1
    apply le_of_lt
    apply hE.lt_sqrt _ (by norm_num)
    · norm_num
    · nlinarith [mul_self_nonneg ((200 : α) - ((0 : ℕ) : α) * 20),
        mul_self_nonneg ((0 : α) - ((1 : ℕ) : α) * 20)]
  · apply (cellVector_mag_cases hE 200 0 xoff' yoff' zoff 5 0).2
    have e : ((200 : α) - ((5 : ℕ) : α) * 20) * (200 - ((5 : ℕ) : α) * 20) +
        (0 - ((0 : ℕ) : α) * 20) * (0 - ((0 : ℕ) : α) * 20) = 100 * 100 := by norm_num
    show E.sqrt _ < 150
    rw [e, hE.sqrt_mul_self_eq (by norm_num)]
    norm_num

end FollowCell

/-! ## Rounding to the doubles -/

section Rounding

variable {α : Type} [LinearOrderedField α] [FloorRing α]

/-- The rounded integer is at most `1 / 2` away. -/
theorem roundHalfEven_abs_sub_le (t : α) : |((roundHalfEven t : ℤ) : α) - t| ≤ 1 / 2 := by
  have h1 : ((⌊t⌋ : ℤ) : α) ≤ t := Int.floor_le t
  have h2 : t < ((⌊t⌋ : ℤ) : α) + 1 := Int.lt_floor_add_one t
  unfold roundHalfEven
  dsimp only
  rw [abs_le]
  split_ifs with c1 c2 c3
  · constructor <;> linarith
  · push_cast
    constructor <;> linarith
  · constructor <;> linarith
  · push_cast
    push_neg at c1 c2
    constructor <;> linarith

/-- An integer less than `1 / 2` away is the rounded integer. -/
theorem roundHalfEven_eq_of_abs_lt (t : α) (k : ℤ) (h : |t - (k : α)| < 1 / 2) :
    roundHalfEven t = k := by
  have h1 := roundHalfEven_abs_sub_le t
  have h2 : |((roundHalfEven t - k : ℤ) : α)| < 1 := by
    have e : ((roundHalfEven t - k : ℤ) : α) =
        (((roundHalfEven t : ℤ) : α) - t) + (t - (k : α)) := by push_cast; ring
    rw [e]
    calc |(((roundHalfEven t : ℤ) : α) - t) + (t - (k : α))|
        ≤ |((roundHalfEven t : ℤ) : α) - t| + |t - (k : α)| := abs_add _ _
      _ < 1 / 2 + 1 / 2 := add_lt_add_of_le_of_lt h1 h
      _ = 1 := by norm_num
  rw [← Int.cast_abs] at h2
  have h3 : |roundHalfEven t - k| < 1 := by exact_mod_cast h2
  have h4 := Int.abs_lt_one_iff.1 h3
  omega

theorem round53_zero : round53 (0 : α) = 0 := by
  unfold round53
  rw [if_pos rfl]

/-- The relative error of the rounding to the doubles is at most `2⁻⁵³`. -/
theorem round53_abs_sub_le (x : α) : |round53 x - x| ≤ 1 / 2 ^ 53 * |x| := by
  by_cases hx : x = 0
  · rw [hx, round53_zero]
    simp
  · have hpos : 0 < |x| := abs_pos.2 hx
    have hp : (0 : α) < (2 : α) ^ (Int.log 2 |x| - 52) := zpow_pos (by norm_num) _
    have hlog : ((2 : ℕ) : α) ^ Int.log 2 |x| ≤ |x| := Int.zpow_log_le_self (by norm_num) hpos
    have hsplit : (2 : α) ^ (Int.log 2 |x| - 52) = (2 : α) ^ Int.log 2 |x| / 2 ^ 52 := by
      rw [zpow_sub₀ (by norm_num : (2 : α) ≠ 0)]
      norm_num
    unfold round53
    rw [if_neg hx]
    have e : ((roundHalfEven (x / (2 : α) ^ (Int.log 2 |x| - 52)) : ℤ) : α) *
        (2 : α) ^ (Int.log 2 |x| - 52) - x =
        (((roundHalfEven (x / (2 : α) ^ (Int.log 2 |x| - 52)) : ℤ) : α) -
          x / (2 : α) ^ (Int.log 2 |x| - 52)) * (2 : α) ^ (Int.log 2 |x| - 52) := by
      field_simp
    rw [e, abs_mul, abs_of_pos hp]
    have h1 := roundHalfEven_abs_sub_le (x / (2 : α) ^ (Int.log 2 |x| - 52))
    calc |((roundHalfEven (x / (2 : α) ^ (Int.log 2 |x| - 52)) : ℤ) : α) -
          x / (2 : α) ^ (Int.log 2 |x| - 52)| * (2 : α) ^ (Int.log 2 |x| - 52)
        ≤ 1 / 2 * (2 : α) ^ (Int.log 2 |x| - 52) := mul_le_mul_of_nonneg_right h1 hp.le
      _ = 1 / 2 ^ 53 * (2 : α) ^ Int.log 2 |x| := by rw [hsplit]; ring
      _ ≤ 1 / 2 ^ 53 * |x| := by
          apply mul_le_mul_of_nonneg_left _ (by positivity)
          exact_mod_cast hlog

/-- A number of the binade `2 ^ (e + 52) ≤ |x| < 2 ^ (e + 53)` rounds to the
multiple `k * 2 ^ e` less than half a step away. -/
theorem round53_eq (x r : α) (e k : ℤ) (hlo : (2 : α) ^ (e + 52) ≤ |x|)
    (hhi : |x| < (2 : α) ^ (e + 53)) (hr : r = (k : α) * (2 : α) ^ e)
    (hnear : |x - r| < (2 : α) ^ e / 2) : round53 x = r := by
  have hpos : 0 < |x| := lt_of_lt_of_le (zpow_pos (by norm_num) _) hlo
  have hx : x ≠ 0 := abs_pos.1 hpos
  have hlog : Int.log 2 |x| = e + 52 := by
    apply le_antisymm
    · have := (Int.lt_zpow_iff_log_lt (R := α) (b := 2) (by norm_num) hpos (x := e + 53)).1
        (by exact_mod_cast hhi)
      omega
    · exact (Int.zpow_le_iff_le_log (R := α) (b := 2) (by norm_num) hpos (x := e + 52)).1
        (by exact_mod_cast hlo)
  have hp : (0 : α) < (2 : α) ^ e := zpow_pos (by norm_num) _
  unfold round53
  rw [if_neg hx, hlog, add_sub_cancel_right, hr]
  congr 2
  apply roundHalfEven_eq_of_abs_lt
  have e1 : x / (2 : α) ^ e - (k : α) = (x - r) / (2 : α) ^ e := by
    rw [hr]
    field_simp
    ring
  rw [e1, abs_div, abs_of_pos hp, div_lt_iff₀ hp]
  calc |x - r| < (2 : α) ^ e / 2 := hnear
    _ = 1 / 2 * (2 : α) ^ e := by ring

/-- A number halfway between two integers rounds to the even one. -/
theorem roundHalfEven_tie (t : α) (m k : ℤ) (ht : t = (m : α) + 1 / 2) (hk : k % 2 = 0)
    (hmk : k = m ∨ k = m + 1) : roundHalfEven t = k := by
  have hf : ⌊t⌋ = m := by
    rw [Int.floor_eq_iff, ht]
    constructor <;> linarith
  have hd : t - ((m : ℤ) : α) = 1 / 2 := by rw [ht]; ring
  unfold roundHalfEven
  dsimp only
  rw [hf, hd, if_neg (lt_irrefl _), if_neg (lt_irrefl _)]
  split_ifs with c <;> omega

/-- A number of the binade `2 ^ (e + 52) ≤ |x| < 2 ^ (e + 53)` halfway
between two multiples of `2 ^ e` rounds to the one with the even factor. -/
theorem round53_tie (x r : α) (e k m : ℤ) (hlo : (2 : α) ^ (e + 52) ≤ |x|)
    (hhi : |x| < (2 : α) ^ (e + 53)) (hr : r = (k : α) * (2 : α) ^ e)
    (hx : x = ((m : α) + 1 / 2) * (2 : α) ^ e) (hk : k % 2 = 0)
    (hmk : k = m ∨ k = m + 1) : round53 x = r := by
  have hpos : 0 < |x| := lt_of_lt_of_le (zpow_pos (by norm_num) _) hlo
  have hx0 : x ≠ 0 := abs_pos.1 hpos
  have hlog : Int.log 2 |x| = e + 52 := by
    apply le_antisymm
    · have := (Int.lt_zpow_iff_log_lt (R := α) (b := 2) (by norm_num) hpos (x := e + 53)).1
        (by exact_mod_cast hhi)
      omega
    · exact (Int.zpow_le_iff_le_log (R := α) (b := 2) (by norm_num) hpos (x := e + 52)).1
        (by exact_mod_cast hlo)
  have hp : (0 : α) < (2 : α) ^ e := zpow_pos (by norm_num) _
  unfold round53
  rw [if_neg hx0, hlog, add_sub_cancel_right, hr]
  congr 2
  apply roundHalfEven_tie _ m k _ hk hmk
  rw [hx]
  field_simp
  ring

end Rounding

/-! ## Error bounds of the rounded operations -/

section ErrorBounds

variable {α : Type} [LinearOrderedField α] {R : FP α} {u : α}

theorem FP.Accurate.one_sub_pos (h : R.Accurate u) : 0 < 1 - u := by
  have := h.u_le
  linarith

theorem FP.Accurate.one_add_pos (h : R.Accurate u) : 0 < 1 + u := by
  have := h.u_nonneg
  linarith

theorem FP.Accurate.rnd_sq_le (h : R.Accurate u) (x : α) :
    R.rnd x * R.rnd x ≤ (1 + u) ^ 2 * (x * x) := by
  have h1 : |R.rnd x| ≤ (1 + u) * |x| := by
    have := abs_sub_abs_le_abs_sub (R.rnd x) x
    linarith [h.rnd_err x]
  have h2 := mul_le_mul h1 h1 (abs_nonneg _) (mul_nonneg h.one_add_pos.le (abs_nonneg _))
  rw [abs_mul_abs_self] at h2
  calc R.rnd x * R.rnd x ≤ (1 + u) * |x| * ((1 + u) * |x|) := h2
    _ = (1 + u) ^ 2 * (|x| * |x|) := by ring
    _ = (1 + u) ^ 2 * (x * x) := by rw [abs_mul_abs_self]

theorem FP.Accurate.rnd_sq_ge (h : R.Accurate u) (x : α) :
    (1 - u) ^ 2 * (x * x) ≤ R.rnd x * R.rnd x := by
  have h1 : (1 - u) * |x| ≤ |R.rnd x| := by
    have := abs_sub_abs_le_abs_sub x (R.rnd x)
    rw [abs_sub_comm x (R.rnd x)] at this
    linarith [h.rnd_err x]
  have h0 : 0 ≤ (1 - u) * |x| := mul_nonneg h.one_sub_pos.le (abs_nonneg _)
  have h2 := mul_le_mul h1 h1 h0 (abs_nonneg _)
  rw [abs_mul_abs_self] at h2
  calc (1 - u) ^ 2 * (x * x) = (1 - u) ^ 2 * (|x| * |x|) := by rw [abs_mul_abs_self]
    _ = (1 - u) * |x| * ((1 - u) * |x|) := by ring
    _ ≤ R.rnd x * R.rnd x := h2

theorem FP.Accurate.rnd_ge (h : R.Accurate u) {x : α} (hx : 0 ≤ x) : (1 - u) * x ≤ R.rnd x := by
  have := (abs_le.1 (h.rnd_err x)).1
  rw [abs_of_nonneg hx] at this
  linarith

theorem FP.Accurate.rnd_le (h : R.Accurate u) {x : α} (hx : 0 ≤ x) : R.rnd x ≤ (1 + u) * x := by
  have := (abs_le.1 (h.rnd_err x)).2
  rw [abs_of_nonneg hx] at this
  linarith

theorem FP.Accurate.rnd_nonneg (h : R.Accurate u) {x : α} (hx : 0 ≤ x) : 0 ≤ R.rnd x :=
  le_trans (mul_nonneg h.one_sub_pos.le hx) (h.rnd_ge hx)

theorem FP.Accurate.rnd_zero (h : R.Accurate u) : R.rnd 0 = 0 := by
  have := h.rnd_err 0
  simpa using this

theorem FP.Accurate.rnd_eq_zero (h : R.Accurate u) {x : α} (hx : R.rnd x = 0) : x = 0 := by
  have h1 := h.rnd_sq_ge x
  rw [hx, mul_zero] at h1
  have h2 : 0 < (1 - u) ^ 2 := pow_pos h.one_sub_pos 2
  have h3 : x * x ≤ 0 := by
    by_contra hc
    push_neg at hc
    have := mul_pos h2 hc
    linarith
  have h4 : x * x = 0 := le_antisymm h3 (mul_self_nonneg x)
  exact mul_self_eq_zero.1 h4

/-- The computed squared length against the exact one. -/
theorem FP.Accurate.magSq_ge (h : R.Accurate u) (v : Vec α) :
    (1 - u) ^ 2 * v.magSq ≤ Rounded.magSq R v := by
  have hx := h.rnd_ge (mul_self_nonneg v.x)
  have hy := h.rnd_ge (mul_self_nonneg v.y)
  have hxn := h.rnd_nonneg (mul_self_nonneg v.x)
  have hyn := h.rnd_nonneg (mul_self_nonneg v.y)
  have hs := h.rnd_ge (add_nonneg hxn hyn)
  have h1 := h.one_sub_pos
  unfold Rounded.magSq FP.add FP.mul Vec.magSq
  calc (1 - u) ^ 2 * (v.x * v.x + v.y * v.y)
      = (1 - u) * ((1 - u) * (v.x * v.x) + (1 - u) * (v.y * v.y)) := by ring
    _ ≤ (1 - u) * (R.rnd (v.x * v.x) + R.rnd (v.y * v.y)) :=
        mul_le_mul_of_nonneg_left (add_le_add hx hy) h1.le
    _ ≤ R.rnd (R.rnd (v.x * v.x) + R.rnd (v.y * v.y)) := hs

theorem FP.Accurate.magSq_le (h : R.Accurate u) (v : Vec α) :
    Rounded.magSq R v ≤ (1 + u) ^ 2 * v.magSq := by
  have hx := h.rnd_le (mul_self_nonneg v.x)
  have hy := h.rnd_le (mul_self_nonneg v.y)
  have hxn := h.rnd_nonneg (mul_self_nonneg v.x)
  have hyn := h.rnd_nonneg (mul_self_nonneg v.y)
  have hs := h.rnd_le (add_nonneg hxn hyn)
  have h1 := h.one_add_pos
  unfold Rounded.magSq FP.add FP.mul Vec.magSq
  calc R.rnd (R.rnd (v.x * v.x) + R.rnd (v.y * v.y))
      ≤ (1 + u) * (R.rnd (v.x * v.x) + R.rnd (v.y * v.y)) := hs
    _ ≤ (1 + u) * ((1 + u) * (v.x * v.x) + (1 + u) * (v.y * v.y)) :=
        mul_le_mul_of_nonneg_left (add_le_add hx hy) h1.le
    _ = (1 + u) ^ 2 * (v.x * v.x + v.y * v.y) := by ring

theorem FP.Accurate.computed_magSq_nonneg (h : R.Accurate u) (v : Vec α) : 0 ≤ Rounded.magSq R v :=
  le_trans (mul_nonneg (pow_pos h.one_sub_pos 2).le v.magSq_nonneg) (h.magSq_ge v)

/-- The square of the computed length against the exact squared length. -/
theorem FP.Accurate.mag_sq_ge (h : R.Accurate u) (v : Vec α) :
    (1 - u) ^ 4 * v.magSq ≤ Rounded.mag R v * Rounded.mag R v := by
  have h1 := h.sqrt_lo _ (h.computed_magSq_nonneg v)
  have h2 := h.magSq_ge v
  unfold Rounded.mag
  calc (1 - u) ^ 4 * v.magSq = (1 - u) ^ 2 * ((1 - u) ^ 2 * v.magSq) := by ring
    _ ≤ (1 - u) ^ 2 * Rounded.magSq R v :=
        mul_le_mul_of_nonneg_left h2 (pow_pos h.one_sub_pos 2).le
    _ ≤ _ := h1

theorem FP.Accurate.mag_sq_le (h : R.Accurate u) (v : Vec α) :
    Rounded.mag R v * Rounded.mag R v ≤ (1 + u) ^ 4 * v.magSq := by
  have h1 := h.sqrt_hi _ (h.computed_magSq_nonneg v)
  have h2 := h.magSq_le v
  unfold Rounded.mag
  calc R.sqrt (Rounded.magSq R v) * R.sqrt (Rounded.magSq R v)
      ≤ (1 + u) ^ 2 * Rounded.magSq R v := h1
    _ ≤ (1 + u) ^ 2 * ((1 + u) ^ 2 * v.magSq) :=
        mul_le_mul_of_nonneg_left h2 (pow_pos h.one_add_pos 2).le
    _ = (1 + u) ^ 4 * v.magSq := by ring

/-- The squared length after a scaling by `n`. -/
theorem FP.Accurate.magSq_mult_le (h : R.Accurate u) (v : Vec α) (n : α) :
    (Rounded.mult R v n).magSq ≤ (1 + u) ^ 2 * (v.magSq * (n * n)) := by
  have hx := h.rnd_sq_le (v.x * n)
  have hy := h.rnd_sq_le (v.y * n)
  unfold Rounded.mult FP.mul Vec.magSq
  dsimp only
  calc R.rnd (v.x * n) * R.rnd (v.x * n) + R.rnd (v.y * n) * R.rnd (v.y * n)
      ≤ (1 + u) ^ 2 * (v.x * n * (v.x * n)) + (1 + u) ^ 2 * (v.y * n * (v.y * n)) :=
        add_le_add hx hy
    _ = (1 + u) ^ 2 * ((v.x * v.x + v.y * v.y) * (n * n)) := by ring

theorem FP.Accurate.magSq_mult_ge (h : R.Accurate u) (v : Vec α) (n : α) :
    (1 - u) ^ 2 * (v.magSq * (n * n)) ≤ (Rounded.mult R v n).magSq := by
  have hx := h.rnd_sq_ge (v.x * n)
  have hy := h.rnd_sq_ge (v.y * n)
  unfold Rounded.mult FP.mul Vec.magSq
  dsimp only
  calc (1 - u) ^ 2 * ((v.x * v.x + v.y * v.y) * (n * n))
      = (1 - u) ^ 2 * (v.x * n * (v.x * n)) + (1 - u) ^ 2 * (v.y * n * (v.y * n)) := by ring
    _ ≤ _ := add_le_add hx hy

theorem FP.div_of_ne (R : FP α) (a : α) {b : α} (hb : b ≠ 0) :
    R.div a b = some (R.rnd (a / b)) := by
  unfold FP.div
  rw [if_neg hb]

theorem Rounded.vdiv_of_ne (R : FP α) (v : Vec α) {n : α} (hn : n ≠ 0) :
    Rounded.div R v n = some ⟨R.rnd (v.x / n), R.rnd (v.y / n)⟩ := by
  unfold Rounded.div
  rw [if_neg hn, R.div_of_ne _ hn, R.div_of_ne _ hn]
  rfl

/-- A positive computed squared length has a positive computed length. -/
theorem FP.Accurate.sqrt_pos_of_pos (h : R.Accurate u) {x : α} (hx : 0 < x) : 0 < R.sqrt x := by
  have h1 := h.sqrt_lo x hx.le
  have h2 : 0 < (1 - u) ^ 2 * x := mul_pos (pow_pos h.one_sub_pos 2) hx
  rcases (h.sqrt_nonneg x).lt_or_eq with h3 | h3
  · exact h3
  · rw [← h3, mul_zero] at h1
    linarith

theorem FP.Accurate.magSq_pos_of (h : R.Accurate u) {v : Vec α} (hv : 0 < Rounded.magSq R v) :
    0 < v.magSq := by
  have h1 := h.magSq_le v
  by_contra hc
  have h0 : v.magSq = 0 := le_antisymm (not_lt.1 hc) v.magSq_nonneg
  rw [h0, mul_zero] at h1
  linarith

/-- The vector `limit` rescales: `div(Math.sqrt(mSq)).mult(max)`. -/
theorem Rounded.limit_of_gt (h : R.Accurate u) (v : Vec α) (M : α)
    (hgt : Rounded.magSq R v > R.mul M M) :
    Rounded.limit R v M =
      some (Rounded.mult R ⟨R.rnd (v.x / Rounded.mag R v), R.rnd (v.y / Rounded.mag R v)⟩ M) := by
  have h0 : 0 ≤ R.mul M M := h.rnd_nonneg (mul_self_nonneg M)
  have hs : Rounded.mag R v ≠ 0 := ne_of_gt (h.sqrt_pos_of_pos (lt_of_le_of_lt h0 hgt))
  unfold Rounded.limit
  dsimp only
  rw [if_pos hgt]
  have e : R.sqrt (Rounded.magSq R v) = Rounded.mag R v := rfl
  rw [e, Rounded.vdiv_of_ne R v hs]
  rfl

theorem Rounded.limit_of_le (R : FP α) (v : Vec α) (M : α)
    (hle : ¬ Rounded.magSq R v > R.mul M M) : Rounded.limit R v M = some v := by
  unfold Rounded.limit
  dsimp only
  rw [if_neg hle]

/-- The quotient vector `v / |v|` of `limit` and `normalize`, scaled back by
the computed length. -/
theorem FP.Accurate.quot_magSq_le (h : R.Accurate u) (v : Vec α) {s : α} (hs : 0 < s) :
    (⟨R.rnd (v.x / s), R.rnd (v.y / s)⟩ : Vec α).magSq * (s * s) ≤ (1 + u) ^ 2 * v.magSq := by
  have hx := h.rnd_sq_le (v.x / s)
  have hy := h.rnd_sq_le (v.y / s)
  have hss : 0 ≤ s * s := mul_self_nonneg s
  have e : (v.x / s * (v.x / s) + v.y / s * (v.y / s)) * (s * s) = v.x * v.x + v.y * v.y := by
    field_simp
  unfold Vec.magSq
  dsimp only
  calc (R.rnd (v.x / s) * R.rnd (v.x / s) + R.rnd (v.y / s) * R.rnd (v.y / s)) * (s * s)
      ≤ ((1 + u) ^ 2 * (v.x / s * (v.x / s)) + (1 + u) ^ 2 * (v.y / s * (v.y / s))) * (s * s) :=
        mul_le_mul_of_nonneg_right (add_le_add hx hy) hss
    _ = (1 + u) ^ 2 * ((v.x / s * (v.x / s) + v.y / s * (v.y / s)) * (s * s)) := by ring
    _ = (1 + u) ^ 2 * (v.x * v.x + v.y * v.y) := by rw [e]

theorem FP.Accurate.quot_magSq_ge (h : R.Accurate u) (v : Vec α) {s : α} (hs : 0 < s) :
    (1 - u) ^ 2 * v.magSq ≤ (⟨R.rnd (v.x / s), R.rnd (v.y / s)⟩ : Vec α).magSq * (s * s) := by
  have hx := h.rnd_sq_ge (v.x / s)
  have hy := h.rnd_sq_ge (v.y / s)
  have hss : 0 ≤ s * s := mul_self_nonneg s
  have e : (v.x / s * (v.x / s) + v.y / s * (v.y / s)) * (s * s) = v.x * v.x + v.y * v.y := by
    field_simp
  unfold Vec.magSq
  dsimp only
  calc (1 - u) ^ 2 * (v.x * v.x + v.y * v.y)
      = (1 - u) ^ 2 * ((v.x / s * (v.x / s) + v.y / s * (v.y / s)) * (s * s)) := by rw [e]
    _ = ((1 - u) ^ 2 * (v.x / s * (v.x / s)) + (1 - u) ^ 2 * (v.y / s * (v.y / s))) * (s * s) := by
        ring
    _ ≤ _ := mul_le_mul_of_nonneg_right (add_le_add hx hy) hss

/-- After a rescaling by `limit` the squared length is at most
`max² * ((1 + u) / (1 - u))⁴`. -/
theorem FP.Accurate.limit_rescaled_le (h : R.Accurate u) (v : Vec α) (M : α)
    (hgt : Rounded.magSq R v > R.mul M M) :
    (1 - u) ^ 4 *
      (Rounded.mult R ⟨R.rnd (v.x / Rounded.mag R v), R.rnd (v.y / Rounded.mag R v)⟩ M).magSq ≤
      (1 + u) ^ 4 * (M * M) := by
  have h0 : 0 ≤ R.mul M M := h.rnd_nonneg (mul_self_nonneg M)
  have hmpos : 0 < Rounded.magSq R v := lt_of_le_of_lt h0 hgt
  have hs : 0 < Rounded.mag R v := h.sqrt_pos_of_pos hmpos
  have hA : 0 < v.magSq := h.magSq_pos_of hmpos
  have hq := h.quot_magSq_le v hs
  have hw := h.magSq_mult_le
    (⟨R.rnd (v.x / Rounded.mag R v), R.rnd (v.y / Rounded.mag R v)⟩ : Vec α) M
  have hlen := h.mag_sq_ge v
  have hMM : 0 ≤ M * M := mul_self_nonneg M
  have hp2 : 0 ≤ (1 + u) ^ 2 := (pow_pos h.one_add_pos 2).le
  have hwn := Vec.magSq_nonneg
    (Rounded.mult R ⟨R.rnd (v.x / Rounded.mag R v), R.rnd (v.y / Rounded.mag R v)⟩ M)
  have key : (1 - u) ^ 4 *
      (Rounded.mult R ⟨R.rnd (v.x / Rounded.mag R v), R.rnd (v.y / Rounded.mag R v)⟩ M).magSq *
      v.magSq ≤ (1 + u) ^ 4 * (M * M) * v.magSq := by
    calc (1 - u) ^ 4 *
          (Rounded.mult R ⟨R.rnd (v.x / Rounded.mag R v), R.rnd (v.y / Rounded.mag R v)⟩ M).magSq *
          v.magSq
        = (Rounded.mult R ⟨R.rnd (v.x / Rounded.mag R v),
            R.rnd (v.y / Rounded.mag R v)⟩ M).magSq * ((1 - u) ^ 4 * v.magSq) := by ring
      _ ≤ (Rounded.mult R ⟨R.rnd (v.x / Rounded.mag R v),
            R.rnd (v.y / Rounded.mag R v)⟩ M).magSq * (Rounded.mag R v * Rounded.mag R v) :=
          mul_le_mul_of_nonneg_left hlen hwn
      _ ≤ (1 + u) ^ 2 * ((⟨R.rnd (v.x / Rounded.mag R v),
            R.rnd (v.y / Rounded.mag R v)⟩ : Vec α).magSq * (M * M)) *
            (Rounded.mag R v * Rounded.mag R v) :=
          mul_le_mul_of_nonneg_right hw (mul_self_nonneg _)
      _ = (1 + u) ^ 2 * (M * M) * ((⟨R.rnd (v.x / Rounded.mag R v),
            R.rnd (v.y / Rounded.mag R v)⟩ : Vec α).magSq *
            (Rounded.mag R v * Rounded.mag R v)) := by ring
      _ ≤ (1 + u) ^ 2 * (M * M) * ((1 + u) ^ 2 * v.magSq) :=
          mul_le_mul_of_nonneg_left hq (mul_nonneg hp2 hMM)
      _ = (1 + u) ^ 4 * (M * M) * v.magSq := by ring
  exact le_of_mul_le_mul_right key hA

/-- After a rescaling by `limit` the squared length is at least
`max² * ((1 - u) / (1 + u))⁴`. -/
theorem FP.Accurate.limit_rescaled_ge (h : R.Accurate u) (v : Vec α) (M : α)
    (hgt : Rounded.magSq R v > R.mul M M) :
    (1 - u) ^ 4 * (M * M) ≤ (1 + u) ^ 4 *
      (Rounded.mult R ⟨R.rnd (v.x / Rounded.mag R v), R.rnd (v.y / Rounded.mag R v)⟩ M).magSq := by
  have h0 : 0 ≤ R.mul M M := h.rnd_nonneg (mul_self_nonneg M)
  have hmpos : 0 < Rounded.magSq R v := lt_of_le_of_lt h0 hgt
  have hs : 0 < Rounded.mag R v := h.sqrt_pos_of_pos hmpos
  have hA : 0 < v.magSq := h.magSq_pos_of hmpos
  have hq := h.quot_magSq_ge v hs
  have hw := h.magSq_mult_ge
    (⟨R.rnd (v.x / Rounded.mag R v), R.rnd (v.y / Rounded.mag R v)⟩ : Vec α) M
  have hlen := h.mag_sq_le v
  have hMM : 0 ≤ M * M := mul_self_nonneg M
  have hp2 : 0 ≤ (1 - u) ^ 2 := (pow_pos h.one_sub_pos 2).le
  have hwn := Vec.magSq_nonneg
    (Rounded.mult R ⟨R.rnd (v.x / Rounded.mag R v), R.rnd (v.y / Rounded.mag R v)⟩ M)
  have key : (1 - u) ^ 4 * (M * M) * v.magSq ≤ (1 + u) ^ 4 *
      (Rounded.mult R ⟨R.rnd (v.x / Rounded.mag R v), R.rnd (v.y / Rounded.mag R v)⟩ M).magSq *
      v.magSq := by
    calc (1 - u) ^ 4 * (M * M) * v.magSq
        = (1 - u) ^ 2 * (M * M) * ((1 - u) ^ 2 * v.magSq) := by ring
      _ ≤ (1 - u) ^ 2 * (M * M) * ((⟨R.rnd (v.x / Rounded.mag R v),
            R.rnd (v.y / Rounded.mag R v)⟩ : Vec α).magSq *
            (Rounded.mag R v * Rounded.mag R v)) :=
          mul_le_mul_of_nonneg_left hq (mul_nonneg hp2 hMM)
      _ = (1 - u) ^ 2 * ((⟨R.rnd (v.x / Rounded.mag R v),
            R.rnd (v.y / Rounded.mag R v)⟩ : Vec α).magSq * (M * M)) *
            (Rounded.mag R v * Rounded.mag R v) := by ring
      _ ≤ (Rounded.mult R ⟨R.rnd (v.x / Rounded.mag R v),
            R.rnd (v.y / Rounded.mag R v)⟩ M).magSq * (Rounded.mag R v * Rounded.mag R v) :=
          mul_le_mul_of_nonneg_right hw (mul_self_nonneg _)
      _ ≤ (Rounded.mult R ⟨R.rnd (v.x / Rounded.mag R v),
            R.rnd (v.y / Rounded.mag R v)⟩ M).magSq * ((1 + u) ^ 4 * v.magSq) :=
          mul_le_mul_of_nonneg_left hlen hwn
      _ = (1 + u) ^ 4 *
          (Rounded.mult R ⟨R.rnd (v.x / Rounded.mag R v),
            R.rnd (v.y / Rounded.mag R v)⟩ M).magSq * v.magSq := by ring
  exact le_of_mul_le_mul_right key hA

/-- The squared length of the vector `limit` returns is at most
`max² * ((1 + u) / (1 - u))⁴`, whether it rescales or not. -/
theorem FP.Accurate.limit_le (h : R.Accurate u) (v : Vec α) (M : α) :
    ∃ w, Rounded.limit R v M = some w ∧ (1 - u) ^ 4 * w.magSq ≤ (1 + u) ^ 4 * (M * M) := by
  by_cases hgt : Rounded.magSq R v > R.mul M M
  · exact ⟨_, Rounded.limit_of_gt h v M hgt, h.limit_rescaled_le v M hgt⟩
  · refine ⟨v, Rounded.limit_of_le R v M hgt, ?_⟩
    have h1 := h.magSq_ge v
    have h2 : R.mul M M ≤ (1 + u) * (M * M) := h.rnd_le (mul_self_nonneg M)
    have h3 : (1 - u) ^ 2 * v.magSq ≤ (1 + u) * (M * M) :=
      le_trans h1 (le_trans (not_lt.1 hgt) h2)
    have hu0 := h.u_nonneg
    have hu1 := h.u_le
    have hMM : 0 ≤ M * M := mul_self_nonneg M
    have hsub : (1 - u) ^ 2 ≤ 1 := by nlinarith
    have hadd : (1 + u) ≤ (1 + u) ^ 4 := by nlinarith [pow_pos h.one_add_pos 3]
    calc (1 - u) ^ 4 * v.magSq = (1 - u) ^ 2 * ((1 - u) ^ 2 * v.magSq) := by ring
      _ ≤ (1 - u) ^ 2 * ((1 + u) * (M * M)) :=
          mul_le_mul_of_nonneg_left h3 (pow_pos h.one_sub_pos 2).le
      _ ≤ 1 * ((1 + u) * (M * M)) :=
          mul_le_mul_of_nonneg_right hsub (mul_nonneg h.one_add_pos.le hMM)
      _ = (1 + u) * (M * M) := one_mul _
      _ ≤ (1 + u) ^ 4 * (M * M) := mul_le_mul_of_nonneg_right hadd hMM

/-- From the bound with the error factors to the bound with the tolerance
`2⁻⁴⁹` of the doubles. -/
theorem FP.Accurate.tolerance_le (h : R.Accurate u) (hu : u ≤ 1 / 2 ^ 53) {w B : α}
    (hB : 0 ≤ B) (hw : (1 - u) ^ 4 * w ≤ (1 + u) ^ 4 * B) : w ≤ (1 + 1 / 2 ^ 49) * B := by
  have h1 : (1 + u) ^ 4 ≤ (1 + 1 / 2 ^ 53 : α) ^ 4 :=
    pow_le_pow_left₀ h.one_add_pos.le (by linarith) 4
  have h2 : (1 - 1 / 2 ^ 53 : α) ^ 4 ≤ (1 - u) ^ 4 :=
    pow_le_pow_left₀ (by norm_num) (by linarith) 4
  have h3 : (1 + 1 / 2 ^ 53 : α) ^ 4 ≤ (1 + 1 / 2 ^ 49) * (1 - 1 / 2 ^ 53 : α) ^ 4 := by
    norm_num
  have hp : 0 < (1 - u) ^ 4 := pow_pos h.one_sub_pos 4
  have key : w * (1 - u) ^ 4 ≤ (1 + 1 / 2 ^ 49) * B * (1 - u) ^ 4 := by
    calc w * (1 - u) ^ 4 = (1 - u) ^ 4 * w := mul_comm _ _
      _ ≤ (1 + u) ^ 4 * B := hw
      _ ≤ (1 + 1 / 2 ^ 53 : α) ^ 4 * B := mul_le_mul_of_nonneg_right h1 hB
      _ ≤ (1 + 1 / 2 ^ 49) * (1 - 1 / 2 ^ 53 : α) ^ 4 * B := mul_le_mul_of_nonneg_right h3 hB
      _ = (1 + 1 / 2 ^ 49) * B * (1 - 1 / 2 ^ 53 : α) ^ 4 := by ring
      _ ≤ (1 + 1 / 2 ^ 49) * B * (1 - u) ^ 4 :=
          mul_le_mul_of_nonneg_left h2 (mul_nonneg (by norm_num) hB)
  exact le_of_mul_le_mul_right key hp

/-- From the bound with the error factors to the lower bound with the
tolerance `2⁻⁵⁰` of the doubles. -/
theorem FP.Accurate.tolerance_ge (h : R.Accurate u) (hu : u ≤ 1 / 2 ^ 53) {w B : α}
    (hw0 : 0 ≤ w) (hw : (1 - u) ^ 4 * B ≤ (1 + u) ^ 4 * w) : (1 - 1 / 2 ^ 50) * B ≤ w := by
  by_cases hB : B ≤ 0
  · have : (1 - 1 / 2 ^ 50 : α) * B ≤ 0 := mul_nonpos_of_nonneg_of_nonpos (by norm_num) hB
    linarith
  · push_neg at hB
    have h1 : (1 + u) ^ 4 ≤ (1 + 1 / 2 ^ 53 : α) ^ 4 :=
      pow_le_pow_left₀ h.one_add_pos.le (by linarith) 4
    have h2 : (1 - 1 / 2 ^ 53 : α) ^ 4 ≤ (1 - u) ^ 4 :=
      pow_le_pow_left₀ (by norm_num) (by linarith) 4
    have h3 : (1 - 1 / 2 ^ 50 : α) * (1 + 1 / 2 ^ 53 : α) ^ 4 ≤ (1 - 1 / 2 ^ 53 : α) ^ 4 := by
      norm_num
    have hp : 0 < (1 + 1 / 2 ^ 53 : α) ^ 4 := by positivity
    have key : (1 - 1 / 2 ^ 50) * B * (1 + 1 / 2 ^ 53 : α) ^ 4 ≤ w * (1 + 1 / 2 ^ 53 : α) ^ 4 := by
      calc (1 - 1 / 2 ^ 50) * B * (1 + 1 / 2 ^ 53 : α) ^ 4
          = (1 - 1 / 2 ^ 50 : α) * (1 + 1 / 2 ^ 53 : α) ^ 4 * B := by ring
        _ ≤ (1 - 1 / 2 ^ 53 : α) ^ 4 * B := mul_le_mul_of_nonneg_right h3 hB.le
        _ ≤ (1 - u) ^ 4 * B := mul_le_mul_of_nonneg_right h2 hB.le
        _ ≤ (1 + u) ^ 4 * w := hw
        _ ≤ (1 + 1 / 2 ^ 53 : α) ^ 4 * w := mul_le_mul_of_nonneg_right h1 hw0
        _ = w * (1 + 1 / 2 ^ 53 : α) ^ 4 := mul_comm _ _
    exact le_of_mul_le_mul_right key hp

end ErrorBounds

/-! ## The doubles -/

section Doubles

/-- The doubles with the correctly rounded square root meet the error
bounds with `u = 2⁻⁵³`. -/
theorem doubles_accurate (realCos realSin : ℝ → ℝ) (twoPi : ℝ) (noise : ℝ → ℝ → ℝ → ℝ) :
    (doubles Real.sqrt realCos realSin twoPi noise).Accurate (1 / 2 ^ 53) where
  u_nonneg := by norm_num
  u_le := by norm_num
  rnd_err := round53_abs_sub_le
  sqrt_nonneg := fun x => by
    show 0 ≤ round53 (Real.sqrt x)
    have h := (abs_le.1 (round53_abs_sub_le (Real.sqrt x))).1
    rw [abs_of_nonneg (Real.sqrt_nonneg x)] at h
    have := Real.sqrt_nonneg x
    nlinarith
  sqrt_lo := fun x hx => by
    show (1 - 1 / 2 ^ 53) ^ 2 * x ≤ round53 (Real.sqrt x) * round53 (Real.sqrt x)
    have h := (abs_le.1 (round53_abs_sub_le (Real.sqrt x))).1
    rw [abs_of_nonneg (Real.sqrt_nonneg x)] at h
    have h0 := Real.sqrt_nonneg x
    have hs := Real.mul_self_sqrt hx
    have h1 : (1 - 1 / 2 ^ 53) * Real.sqrt x ≤ round53 (Real.sqrt x) := by linarith
    have h2 : 0 ≤ (1 - 1 / 2 ^ 53) * Real.sqrt x := mul_nonneg (by norm_num) h0
    have h3 := mul_le_mul h1 h1 h2 (le_trans h2 h1)
    calc (1 - 1 / 2 ^ 53) ^ 2 * x
        = (1 - 1 / 2 ^ 53) ^ 2 * (Real.sqrt x * Real.sqrt x) := by rw [hs]
      _ = (1 - 1 / 2 ^ 53) * Real.sqrt x * ((1 - 1 / 2 ^ 53) * Real.sqrt x) := by ring
      _ ≤ _ := h3
  sqrt_hi := fun x hx => by
    show round53 (Real.sqrt x) * round53 (Real.sqrt x) ≤ (1 + 1 / 2 ^ 53) ^ 2 * x
    have hl := (abs_le.1 (round53_abs_sub_le (Real.sqrt x))).1
    have h := (abs_le.1 (round53_abs_sub_le (Real.sqrt x))).2
    rw [abs_of_nonneg (Real.sqrt_nonneg x)] at h hl
    have h0 := Real.sqrt_nonneg x
    have hs := Real.mul_self_sqrt hx
    have h1 : round53 (Real.sqrt x) ≤ (1 + 1 / 2 ^ 53) * Real.sqrt x := by linarith
    have hr0 : 0 ≤ round53 (Real.sqrt x) := by nlinarith
    have h3 := mul_le_mul h1 h1 hr0 (le_trans hr0 h1)
    calc round53 (Real.sqrt x) * round53 (Real.sqrt x)
        ≤ (1 + 1 / 2 ^ 53) * Real.sqrt x * ((1 + 1 / 2 ^ 53) * Real.sqrt x) := h3
      _ = (1 + 1 / 2 ^ 53) ^ 2 * (Real.sqrt x * Real.sqrt x) := by ring
      _ = (1 + 1 / 2 ^ 53) ^ 2 * x := by rw [hs]

/-- The correctly rounded square root of `q`: a multiple `k * 2 ^ e` of the
binade of the root whose half-step neighbourhood contains the root. -/
theorem round53_sqrt_eq (q r : ℝ) (e k : ℤ) (hlo : ((2 : ℝ) ^ (e + 52)) ^ 2 ≤ q)
    (hhi : q < ((2 : ℝ) ^ (e + 53)) ^ 2) (hr : r = (k : ℝ) * (2 : ℝ) ^ e)
    (hpos : 0 ≤ r - (2 : ℝ) ^ e / 2) (hnear1 : (r - (2 : ℝ) ^ e / 2) ^ 2 < q)
    (hnear2 : q < (r + (2 : ℝ) ^ e / 2) ^ 2) : round53 (Real.sqrt q) = r := by
  have hq : 0 ≤ q := le_trans (sq_nonneg _) hlo
  have hp1 : (0 : ℝ) < (2 : ℝ) ^ (e + 52) := zpow_pos (by norm_num) _
  have hp2 : (0 : ℝ) < (2 : ℝ) ^ (e + 53) := zpow_pos (by norm_num) _
  have hp : (0 : ℝ) < (2 : ℝ) ^ e := zpow_pos (by norm_num) _
  have h1 : (2 : ℝ) ^ (e + 52) ≤ Real.sqrt q := Real.le_sqrt_of_sq_le hlo
  have h2 : Real.sqrt q < (2 : ℝ) ^ (e + 53) := by
    rw [Real.sqrt_lt' hp2]
    exact hhi
  have h3 : r - (2 : ℝ) ^ e / 2 < Real.sqrt q := by
    rw [Real.lt_sqrt hpos]
    exact hnear1
  have h4 : Real.sqrt q < r + (2 : ℝ) ^ e / 2 := by
    rw [Real.sqrt_lt' (by linarith)]
    exact hnear2
  apply round53_eq _ _ e k _ _ hr
  · rw [abs_lt]
    constructor <;> linarith
  · rw [abs_of_nonneg (Real.sqrt_nonneg q)]
    exact h1
  · rw [abs_of_nonneg (Real.sqrt_nonneg q)]
    exact h2

end Doubles

/-! ## Relative error of a chain of rounded operations -/

section NearBounds

variable {α : Type} [LinearOrderedField α] {R : FP α} {u : α}

theorem FP.Near.refl (u : α) (t : α) : FP.Near u 0 t t := by
  unfold FP.Near
  simp

theorem FP.Near.abs_le {k : ℕ} {y t : α} (hy : FP.Near u k y t) :
    |y| ≤ (1 + u) ^ k * |t| := by
  unfold FP.Near at hy
  have h1 : |y| ≤ |y - t| + |t| := by
    have := abs_add (y - t) t
    rwa [sub_add_cancel] at this
  linarith

/-- One more rounding. -/
theorem FP.Accurate.near_rnd (h : R.Accurate u) {k : ℕ} {y t : α} (hy : FP.Near u k y t) :
    FP.Near u (k + 1) (R.rnd y) t := by
  have h1 := h.rnd_err y
  have h2 := hy.abs_le
  have h3 : |R.rnd y - t| ≤ |R.rnd y - y| + |y - t| := by
    have := abs_add (R.rnd y - y) (y - t)
    rwa [sub_add_sub_cancel] at this
  unfold FP.Near at hy ⊢
  have h4 : u * |y| ≤ u * ((1 + u) ^ k * |t|) := mul_le_mul_of_nonneg_left h2 h.u_nonneg
  calc |R.rnd y - t| ≤ |R.rnd y - y| + |y - t| := h3
    _ ≤ u * ((1 + u) ^ k * |t|) + ((1 + u) ^ k - 1) * |t| := by linarith
    _ = ((1 + u) ^ (k + 1) - 1) * |t| := by ring

/-- The product of two numbers with rounding errors. -/
theorem FP.Near.mul (hu : 0 ≤ u) {a b : ℕ} {y t z s : α} (hy : FP.Near u a y t)
    (hz : FP.Near u b z s) : FP.Near u (a + b) (y * z) (t * s) := by
  have hzabs := hz.abs_le
  unfold FP.Near at hy hz ⊢
  have e : y * z - t * s = (y - t) * z + t * (z - s) := by ring
  have ha : (0 : α) ≤ (1 + u) ^ a - 1 := by
    have : (1 : α) ≤ (1 + u) ^ a := one_le_pow₀ (by linarith)
    linarith
  have h1 : |(y - t) * z| ≤ ((1 + u) ^ a - 1) * |t| * ((1 + u) ^ b * |s|) := by
    rw [abs_mul]
    exact mul_le_mul hy hzabs (abs_nonneg _) (mul_nonneg ha (abs_nonneg _))
  have h2 : |t * (z - s)| ≤ |t| * (((1 + u) ^ b - 1) * |s|) := by
    rw [abs_mul]
    exact mul_le_mul_of_nonneg_left hz (abs_nonneg _)
  rw [e, abs_mul]
  calc |(y - t) * z + t * (z - s)| ≤ |(y - t) * z| + |t * (z - s)| := abs_add _ _
    _ ≤ ((1 + u) ^ a - 1) * |t| * ((1 + u) ^ b * |s|) + |t| * (((1 + u) ^ b - 1) * |s|) :=
        add_le_add h1 h2
    _ = ((1 + u) ^ (a + b) - 1) * (|t| * |s|) := by ring

/-- A number with a rounding error, times an exact factor. -/
theorem FP.Near.mul_right (hu : 0 ≤ u) {a : ℕ} {y t : α} (hy : FP.Near u a y t) (c : α) :
    FP.Near u a (y * c) (t * c) :=
  hy.mul hu (FP.Near.refl u c)

end NearBounds

/-! ## Absolute error of a chain of rounded operations -/

section WithinBounds

variable {α : Type} [LinearOrderedField α] {R : FP α} {u : α}

theorem FP.Within.exact (u : α) {t S : α} (ht : |t| ≤ S) : FP.Within u 0 S t t := by
  refine ⟨ht, ?_⟩
  simp

theorem FP.Near.within {k : ℕ} {y t : α} (hy : FP.Near u k y t) : FP.Within u k |t| y t :=
  ⟨le_rfl, hy⟩

theorem FP.Within.scale_nonneg {k : ℕ} {S y t : α} (hy : FP.Within u k S y t) : 0 ≤ S :=
  le_trans (abs_nonneg _) hy.1

theorem FP.Within.abs_le_scale {k : ℕ} {S y t : α} (hy : FP.Within u k S y t) :
    |y| ≤ (1 + u) ^ k * S := by
  have h1 : |y| ≤ |y - t| + |t| := by
    have := abs_add (y - t) t
    rwa [sub_add_cancel] at this
  have h2 := hy.1
  have h3 := hy.2
  linarith

theorem FP.Within.mono (hu : 0 ≤ u) {a b : ℕ} {S S' y t : α} (hab : a ≤ b) (hS : S ≤ S')
    (hy : FP.Within u a S y t) : FP.Within u b S' y t := by
  have h0 := hy.scale_nonneg
  have h1 : (1 + u) ^ a ≤ (1 + u) ^ b := pow_le_pow_right₀ (by linarith) hab
  have ha : (0 : α) ≤ (1 + u) ^ a - 1 := by
    have : (1 : α) ≤ (1 + u) ^ a := one_le_pow₀ (by linarith)
    linarith
  refine ⟨le_trans hy.1 hS, le_trans hy.2 ?_⟩
  exact mul_le_mul (by linarith) hS h0 (by linarith)

/-- One more rounding. -/
theorem FP.Accurate.within_rnd (h : R.Accurate u) {k : ℕ} {S y t : α}
    (hy : FP.Within u k S y t) : FP.Within u (k + 1) S (R.rnd y) t := by
  have h1 := h.rnd_err y
  have h2 := hy.abs_le_scale
  have h3 : |R.rnd y - t| ≤ |R.rnd y - y| + |y - t| := by
    have := abs_add (R.rnd y - y) (y - t)
    rwa [sub_add_sub_cancel] at this
  have h4 : u * |y| ≤ u * ((1 + u) ^ k * S) := mul_le_mul_of_nonneg_left h2 h.u_nonneg
  have h5 := hy.2
  refine ⟨hy.1, ?_⟩
  calc |R.rnd y - t| ≤ |R.rnd y - y| + |y - t| := h3
    _ ≤ u * ((1 + u) ^ k * S) + ((1 + u) ^ k - 1) * S := by linarith
    _ = ((1 + u) ^ (k + 1) - 1) * S := by ring

/-- The product of two numbers with rounding errors. -/
theorem FP.Within.prod (hu : 0 ≤ u) {a b : ℕ} {S S' y t z s : α} (hy : FP.Within u a S y t)
    (hz : FP.Within u b S' z s) : FP.Within u (a + b) (S * S') (y * z) (t * s) := by
  have hzabs := hz.abs_le_scale
  have hS := hy.scale_nonneg
  have hS' := hz.scale_nonneg
  have e : y * z - t * s = (y - t) * z + t * (z - s) := by ring
  have ha : (0 : α) ≤ (1 + u) ^ a - 1 := by
    have : (1 : α) ≤ (1 + u) ^ a := one_le_pow₀ (by linarith)
    linarith
  have hb : (0 : α) ≤ (1 + u) ^ b - 1 := by
    have : (1 : α) ≤ (1 + u) ^ b := one_le_pow₀ (by linarith)
    linarith
  have h1 : |(y - t) * z| ≤ ((1 + u) ^ a - 1) * S * ((1 + u) ^ b * S') := by
    rw [abs_mul]
    exact mul_le_mul hy.2 hzabs (abs_nonneg _) (mul_nonneg ha hS)
  have h2 : |t * (z - s)| ≤ S * (((1 + u) ^ b - 1) * S') := by
    rw [abs_mul]
    exact mul_le_mul hy.1 hz.2 (abs_nonneg _) hS
  refine ⟨?_, ?_⟩
  · rw [abs_mul]
    exact mul_le_mul hy.1 hz.1 (abs_nonneg _) hS
  · rw [e]
    calc |(y - t) * z + t * (z - s)| ≤ |(y - t) * z| + |t * (z - s)| := abs_add _ _
      _ ≤ ((1 + u) ^ a - 1) * S * ((1 + u) ^ b * S') + S * (((1 + u) ^ b - 1) * S') :=
          add_le_add h1 h2
      _ = ((1 + u) ^ (a + b) - 1) * (S * S') := by ring

/-- The sum of two numbers with rounding errors. -/
theorem FP.Within.add {k : ℕ} {S S' y t z s : α} (hy : FP.Within u k S y t)
    (hz : FP.Within u k S' z s) : FP.Within u k (S + S') (y + z) (t + s) := by
  refine ⟨le_trans (abs_add _ _) (add_le_add hy.1 hz.1), ?_⟩
  have e : y + z - (t + s) = (y - t) + (z - s) := by ring
  rw [e]
  calc |(y - t) + (z - s)| ≤ |y - t| + |z - s| := abs_add _ _
    _ ≤ ((1 + u) ^ k - 1) * S + ((1 + u) ^ k - 1) * S' := add_le_add hy.2 hz.2
    _ = ((1 + u) ^ k - 1) * (S + S') := by ring

/-- The inverse of a number with one rounding has at most two. -/
theorem FP.Accurate.near_inv (h : R.Accurate u) {y t : α} (ht : t ≠ 0)
    (hy : FP.Near u 1 y t) : FP.Near u 2 y⁻¹ t⁻¹ := by
  have hu0 := h.u_nonneg
  have hu1 := h.u_le
  have htpos : 0 < |t| := abs_pos.2 ht
  unfold FP.Near at hy ⊢
  rw [pow_one, add_sub_cancel_left] at hy
  have hylo : (1 - u) * |t| ≤ |y| := by
    have : |t| ≤ |t - y| + |y| := by
      have := abs_add (t - y) y
      rwa [sub_add_cancel] at this
    rw [abs_sub_comm] at this
    linarith
  have hypos : 0 < |y| := lt_of_lt_of_le (mul_pos h.one_sub_pos htpos) hylo
  have hy0 : y ≠ 0 := abs_pos.1 hypos
  have e : y⁻¹ - t⁻¹ = (t - y) / (y * t) := by
    field_simp
  rw [e, abs_div, abs_mul, abs_inv, div_le_iff₀ (mul_pos hypos htpos), abs_sub_comm]
  have h2 : u * |t| ≤ ((1 + u) ^ 2 - 1) * ((1 - u) * |t|) := by
    have k : ((1 + u) ^ 2 - 1) * (1 - u) - u = u * (1 - u - u ^ 2) := by ring
    have k2 : 0 ≤ 1 - u - u ^ 2 := by nlinarith
    have k3 : 0 ≤ u * (1 - u - u ^ 2) := mul_nonneg hu0 k2
    have k4 : u ≤ ((1 + u) ^ 2 - 1) * (1 - u) := by linarith
    calc u * |t| ≤ ((1 + u) ^ 2 - 1) * (1 - u) * |t| :=
          mul_le_mul_of_nonneg_right k4 htpos.le
      _ = ((1 + u) ^ 2 - 1) * ((1 - u) * |t|) := by ring
  calc |y - t| ≤ u * |t| := hy
    _ ≤ ((1 + u) ^ 2 - 1) * ((1 - u) * |t|) := h2
    _ ≤ ((1 + u) ^ 2 - 1) * |y| :=
        mul_le_mul_of_nonneg_left hylo (by nlinarith)
    _ = ((1 + u) ^ 2 - 1) * |t|⁻¹ * (|y| * |t|) := by
        field_simp
        ring

end WithinBounds

/-! ## `normalize` and `setMag` on the doubles -/

section RoundedNormalize

variable {α : Type} [LinearOrderedField α] {R : FP α} {u : α}

theorem FP.Accurate.magSq_pos (h : R.Accurate u) {v : Vec α} (hv : 0 < v.magSq) :
    0 < Rounded.magSq R v :=
  lt_of_lt_of_le (mul_pos (pow_pos h.one_sub_pos 2) hv) (h.magSq_ge v)

theorem FP.Accurate.mag_pos (h : R.Accurate u) {v : Vec α} (hv : 0 < v.magSq) :
    0 < Rounded.mag R v :=
  h.sqrt_pos_of_pos (h.magSq_pos hv)

theorem FP.Accurate.sqrt_of_zero (h : R.Accurate u) : R.sqrt 0 = 0 := by
  have h1 := h.sqrt_hi 0 le_rfl
  rw [mul_zero] at h1
  exact mul_self_eq_zero.1 (le_antisymm h1 (mul_self_nonneg _))

theorem Vec.eq_zero_of_magSq {v : Vec α} (hv : ¬ 0 < v.magSq) : v = ⟨0, 0⟩ := by
  have h0 : v.x * v.x + v.y * v.y = 0 := le_antisymm (not_lt.1 hv) v.magSq_nonneg
  have hx : v.x * v.x = 0 := by nlinarith [mul_self_nonneg v.x, mul_self_nonneg v.y]
  have hy : v.y * v.y = 0 := by nlinarith [mul_self_nonneg v.x, mul_self_nonneg v.y]
  cases v
  simp only [Vec.mk.injEq]
  exact ⟨mul_self_eq_zero.1 hx, mul_self_eq_zero.1 hy⟩

/-- The zero vector is normalised without a division: `len` is `0` and the
vector is returned as it is. -/
theorem FP.Accurate.normalize_zero_vec (h : R.Accurate u) :
    Rounded.normalize R (⟨0, 0⟩ : Vec α) = some ⟨0, 0⟩ := by
  have hm : Rounded.mag R (⟨0, 0⟩ : Vec α) = 0 := by
    unfold Rounded.mag Rounded.magSq FP.add FP.mul
    dsimp only
    rw [mul_zero, h.rnd_zero, add_zero, h.rnd_zero, h.sqrt_of_zero]
  unfold Rounded.normalize
  dsimp only
  rw [hm, if_neg (not_not.2 rfl)]

/-- A vector that is not zero is normalised with one division, by a length
that is not `0`. -/
theorem FP.Accurate.normalize_of_pos (h : R.Accurate u) {v : Vec α} (hv : 0 < v.magSq) :
    Rounded.normalize R v = some (Rounded.mult R v (R.rnd (1 / Rounded.mag R v))) := by
  unfold Rounded.normalize
  dsimp only
  rw [if_pos (h.mag_pos hv).ne', R.div_of_ne _ (h.mag_pos hv).ne']
  rfl

/-- The squared length of a normalised vector is at most
`((1 + u) / (1 - u))⁴`. -/
theorem FP.Accurate.normalize_magSq_le (h : R.Accurate u) {v : Vec α} (hv : 0 < v.magSq) :
    (1 - u) ^ 4 * (Rounded.mult R v (R.rnd (1 / Rounded.mag R v))).magSq ≤ (1 + u) ^ 4 := by
  have hs := h.mag_pos hv
  have hw := h.magSq_mult_le v (R.rnd (1 / Rounded.mag R v))
  have hi := h.rnd_sq_le (1 / Rounded.mag R v)
  have hlen := h.mag_sq_ge v
  have hwn := Vec.magSq_nonneg (Rounded.mult R v (R.rnd (1 / Rounded.mag R v)))
  have hp2 : 0 ≤ (1 + u) ^ 2 := (pow_pos h.one_add_pos 2).le
  have e : 1 / Rounded.mag R v * (1 / Rounded.mag R v) *
      (Rounded.mag R v * Rounded.mag R v) = 1 := by
    field_simp
  have key : (1 - u) ^ 4 * (Rounded.mult R v (R.rnd (1 / Rounded.mag R v))).magSq * v.magSq ≤
      (1 + u) ^ 4 * v.magSq := by
    calc (1 - u) ^ 4 * (Rounded.mult R v (R.rnd (1 / Rounded.mag R v))).magSq * v.magSq
        = (Rounded.mult R v (R.rnd (1 / Rounded.mag R v))).magSq * ((1 - u) ^ 4 * v.magSq) := by
          ring
      _ ≤ (Rounded.mult R v (R.rnd (1 / Rounded.mag R v))).magSq *
            (Rounded.mag R v * Rounded.mag R v) := mul_le_mul_of_nonneg_left hlen hwn
      _ ≤ (1 + u) ^ 2 * (v.magSq * (R.rnd (1 / Rounded.mag R v) * R.rnd (1 / Rounded.mag R v))) *
            (Rounded.mag R v * Rounded.mag R v) :=
          mul_le_mul_of_nonneg_right hw (mul_self_nonneg _)
      _ = (1 + u) ^ 2 * v.magSq * (Rounded.mag R v * Rounded.mag R v) *
            (R.rnd (1 / Rounded.mag R v) * R.rnd (1 / Rounded.mag R v)) := by ring
      _ ≤ (1 + u) ^ 2 * v.magSq * (Rounded.mag R v * Rounded.mag R v) *
            ((1 + u) ^ 2 * (1 / Rounded.mag R v * (1 / Rounded.mag R v))) :=
          mul_le_mul_of_nonneg_left hi
            (mul_nonneg (mul_nonneg hp2 hv.le) (mul_self_nonneg _))
      _ = (1 + u) ^ 4 * v.magSq * (1 / Rounded.mag R v * (1 / Rounded.mag R v) *
            (Rounded.mag R v * Rounded.mag R v)) := by ring
      _ = (1 + u) ^ 4 * v.magSq := by rw [e, mul_one]
  exact le_of_mul_le_mul_right key hv

/-- The squared length of a normalised vector is at least
`((1 - u) / (1 + u))⁴`. -/
theorem FP.Accurate.normalize_magSq_ge (h : R.Accurate u) {v : Vec α} (hv : 0 < v.magSq) :
    (1 - u) ^ 4 ≤ (1 + u) ^ 4 * (Rounded.mult R v (R.rnd (1 / Rounded.mag R v))).magSq := by
  have hs := h.mag_pos hv
  have hw := h.magSq_mult_ge v (R.rnd (1 / Rounded.mag R v))
  have hi := h.rnd_sq_ge (1 / Rounded.mag R v)
  have hlen := h.mag_sq_le v
  have hwn := Vec.magSq_nonneg (Rounded.mult R v (R.rnd (1 / Rounded.mag R v)))
  have hp2 : 0 ≤ (1 - u) ^ 2 := (pow_pos h.one_sub_pos 2).le
  have e : 1 / Rounded.mag R v * (1 / Rounded.mag R v) *
      (Rounded.mag R v * Rounded.mag R v) = 1 := by
    field_simp
  have key : (1 - u) ^ 4 * v.magSq ≤
      (1 + u) ^ 4 * (Rounded.mult R v (R.rnd (1 / Rounded.mag R v))).magSq * v.magSq := by
    calc (1 - u) ^ 4 * v.magSq
        = (1 - u) ^ 4 * v.magSq * (1 / Rounded.mag R v * (1 / Rounded.mag R v) *
            (Rounded.mag R v * Rounded.mag R v)) := by rw [e, mul_one]
      _ = (1 - u) ^ 2 * v.magSq * (Rounded.mag R v * Rounded.mag R v) *
            ((1 - u) ^ 2 * (1 / Rounded.mag R v * (1 / Rounded.mag R v))) := by ring
      _ ≤ (1 - u) ^ 2 * v.magSq * (Rounded.mag R v * Rounded.mag R v) *
            (R.rnd (1 / Rounded.mag R v) * R.rnd (1 / Rounded.mag R v)) :=
          mul_le_mul_of_nonneg_left hi
            (mul_nonneg (mul_nonneg hp2 hv.le) (mul_self_nonneg _))
      _ = (1 - u) ^ 2 * (v.magSq * (R.rnd (1 / Rounded.mag R v) * R.rnd (1 / Rounded.mag R v))) *
            (Rounded.mag R v * Rounded.mag R v) := by ring
      _ ≤ (Rounded.mult R v (R.rnd (1 / Rounded.mag R v))).magSq *
            (Rounded.mag R v * Rounded.mag R v) :=
          mul_le_mul_of_nonneg_right hw (mul_self_nonneg _)
      _ ≤ (Rounded.mult R v (R.rnd (1 / Rounded.mag R v))).magSq * ((1 + u) ^ 4 * v.magSq) :=
          mul_le_mul_of_nonneg_left hlen hwn
      _ = (1 + u) ^ 4 * (Rounded.mult R v (R.rnd (1 / Rounded.mag R v))).magSq * v.magSq := by
          ring
  exact le_of_mul_le_mul_right key hv

/-- A normalised vector is not zero. -/
theorem FP.Accurate.normalize_magSq_pos (h : R.Accurate u) {v : Vec α} (hv : 0 < v.magSq) :
    0 < (Rounded.mult R v (R.rnd (1 / Rounded.mag R v))).magSq := by
  have h1 := h.normalize_magSq_ge hv
  have h2 : 0 < (1 - u) ^ 4 := pow_pos h.one_sub_pos 4
  have h3 : 0 < (1 + u) ^ 4 := pow_pos h.one_add_pos 4
  by_contra hc
  have h0 : (Rounded.mult R v (R.rnd (1 / Rounded.mag R v))).magSq = 0 :=
    le_antisymm (not_lt.1 hc) (Vec.magSq_nonneg _)
  rw [h0, mul_zero] at h1
  linarith

/-- `setMag(n)` of a vector that is not zero: what it returns, and its squared
length against `n²`. -/
theorem FP.Accurate.setMag_of_pos (h : R.Accurate u) {v : Vec α} (hv : 0 < v.magSq) (n : α) :
    ∃ r, Rounded.setMag R v n = some r ∧
      r = Rounded.mult R (Rounded.mult R v (R.rnd (1 / Rounded.mag R v))) n ∧
      (1 - u) ^ 4 * r.magSq ≤ (1 + u) ^ 6 * (n * n) ∧
      (1 - u) ^ 6 * (n * n) ≤ (1 + u) ^ 4 * r.magSq := by
  refine ⟨_, ?_, rfl, ?_, ?_⟩
  · unfold Rounded.setMag
    rw [h.normalize_of_pos hv]
    rfl
  · have h1 := h.normalize_magSq_le hv
    have h2 := h.magSq_mult_le (Rounded.mult R v (R.rnd (1 / Rounded.mag R v))) n
    have hnn : 0 ≤ n * n := mul_self_nonneg n
    calc (1 - u) ^ 4 * (Rounded.mult R (Rounded.mult R v (R.rnd (1 / Rounded.mag R v))) n).magSq
        ≤ (1 - u) ^ 4 * ((1 + u) ^ 2 *
            ((Rounded.mult R v (R.rnd (1 / Rounded.mag R v))).magSq * (n * n))) :=
          mul_le_mul_of_nonneg_left h2 (pow_pos h.one_sub_pos 4).le
      _ = (1 + u) ^ 2 * (n * n) *
            ((1 - u) ^ 4 * (Rounded.mult R v (R.rnd (1 / Rounded.mag R v))).magSq) := by ring
      _ ≤ (1 + u) ^ 2 * (n * n) * (1 + u) ^ 4 :=
          mul_le_mul_of_nonneg_left h1 (mul_nonneg (pow_pos h.one_add_pos 2).le hnn)
      _ = (1 + u) ^ 6 * (n * n) := by ring
  · have h1 := h.normalize_magSq_ge hv
    have h2 := h.magSq_mult_ge (Rounded.mult R v (R.rnd (1 / Rounded.mag R v))) n
    have hnn : 0 ≤ n * n := mul_self_nonneg n
    calc (1 - u) ^ 6 * (n * n) = (1 - u) ^ 2 * (n * n) * (1 - u) ^ 4 := by ring
      _ ≤ (1 - u) ^ 2 * (n * n) *
            ((1 + u) ^ 4 * (Rounded.mult R v (R.rnd (1 / Rounded.mag R v))).magSq) :=
          mul_le_mul_of_nonneg_left h1 (mul_nonneg (pow_pos h.one_sub_pos 2).le hnn)
      _ = (1 + u) ^ 4 * ((1 - u) ^ 2 *
            ((Rounded.mult R v (R.rnd (1 / Rounded.mag R v))).magSq * (n * n))) := by ring
      _ ≤ (1 + u) ^ 4 *
            (Rounded.mult R (Rounded.mult R v (R.rnd (1 / Rounded.mag R v))) n).magSq :=
          mul_le_mul_of_nonneg_left h2 (pow_pos h.one_add_pos 4).le

/-- From the bound with the error factors of `setMag` to the bound with the
tolerance `2⁻⁴⁹` of the doubles. -/
theorem FP.Accurate.setMag_tolerance (h : R.Accurate u) (hu : u ≤ 1 / 2 ^ 53) {w B : α}
    (hB : 0 ≤ B) (hw0 : 0 ≤ w) (hle : (1 - u) ^ 4 * w ≤ (1 + u) ^ 6 * B)
    (hge : (1 - u) ^ 6 * B ≤ (1 + u) ^ 4 * w) :
    (1 - 1 / 2 ^ 49) * B ≤ w ∧ w ≤ (1 + 1 / 2 ^ 49) * B := by
  have hu0 := h.u_nonneg
  have a1 : (1 + u) ^ 6 ≤ (1 + 1 / 2 ^ 53 : α) ^ 6 :=
    pow_le_pow_left₀ h.one_add_pos.le (by linarith) 6
  have a2 : (1 + u) ^ 4 ≤ (1 + 1 / 2 ^ 53 : α) ^ 4 :=
    pow_le_pow_left₀ h.one_add_pos.le (by linarith) 4
  have b1 : (1 - 1 / 2 ^ 53 : α) ^ 6 ≤ (1 - u) ^ 6 :=
    pow_le_pow_left₀ (by norm_num) (by linarith) 6
  have b2 : (1 - 1 / 2 ^ 53 : α) ^ 4 ≤ (1 - u) ^ 4 :=
    pow_le_pow_left₀ (by norm_num) (by linarith) 4
  have n1 : (1 + 1 / 2 ^ 53 : α) ^ 6 ≤ (1 + 1 / 2 ^ 49) * (1 - 1 / 2 ^ 53 : α) ^ 4 := by
    norm_num
  have n2 : (1 - 1 / 2 ^ 49 : α) * (1 + 1 / 2 ^ 53 : α) ^ 4 ≤ (1 - 1 / 2 ^ 53 : α) ^ 6 := by
    norm_num
  constructor
  · have hp : 0 < (1 + 1 / 2 ^ 53 : α) ^ 4 := by positivity
    have key : (1 - 1 / 2 ^ 49) * B * (1 + 1 / 2 ^ 53 : α) ^ 4 ≤ w * (1 + 1 / 2 ^ 53 : α) ^ 4 := by
      calc (1 - 1 / 2 ^ 49) * B * (1 + 1 / 2 ^ 53 : α) ^ 4
          = (1 - 1 / 2 ^ 49 : α) * (1 + 1 / 2 ^ 53 : α) ^ 4 * B := by ring
        _ ≤ (1 - 1 / 2 ^ 53 : α) ^ 6 * B := mul_le_mul_of_nonneg_right n2 hB
        _ ≤ (1 - u) ^ 6 * B := mul_le_mul_of_nonneg_right b1 hB
        _ ≤ (1 + u) ^ 4 * w := hge
        _ ≤ (1 + 1 / 2 ^ 53 : α) ^ 4 * w := mul_le_mul_of_nonneg_right a2 hw0
        _ = w * (1 + 1 / 2 ^ 53 : α) ^ 4 := mul_comm _ _
    exact le_of_mul_le_mul_right key hp
  · have hp : 0 < (1 - u) ^ 4 := pow_pos h.one_sub_pos 4
    have key : w * (1 - u) ^ 4 ≤ (1 + 1 / 2 ^ 49) * B * (1 - u) ^ 4 := by
      calc w * (1 - u) ^ 4 = (1 - u) ^ 4 * w := mul_comm _ _
        _ ≤ (1 + u) ^ 6 * B := hle
        _ ≤ (1 + 1 / 2 ^ 53 : α) ^ 6 * B := mul_le_mul_of_nonneg_right a1 hB
        _ ≤ (1 + 1 / 2 ^ 49) * (1 - 1 / 2 ^ 53 : α) ^ 4 * B := mul_le_mul_of_nonneg_right n1 hB
        _ = (1 + 1 / 2 ^ 49) * B * (1 - 1 / 2 ^ 53 : α) ^ 4 := by ring
        _ ≤ (1 + 1 / 2 ^ 49) * B * (1 - u) ^ 4 :=
            mul_le_mul_of_nonneg_left b2 (mul_nonneg (by norm_num) hB)
    exact le_of_mul_le_mul_right key hp

end RoundedNormalize

/-! ## Evaluation of the rounded operations -/

section RoundedEval

variable {α : Type} [LinearOrderedField α]

theorem Rounded.normalize_of_ne (R : FP α) (v : Vec α) (hne : Rounded.mag R v ≠ 0) :
    Rounded.normalize R v =
      some ⟨R.rnd (v.x * R.rnd (1 / Rounded.mag R v)),
        R.rnd (v.y * R.rnd (1 / Rounded.mag R v))⟩ := by
  unfold Rounded.normalize
  dsimp only
  rw [if_pos hne, R.div_of_ne _ hne]
  rfl

theorem Rounded.setMag_of_ne (R : FP α) (v : Vec α) (n : α) (hne : Rounded.mag R v ≠ 0) :
    Rounded.setMag R v n =
      some ⟨R.rnd (R.rnd (v.x * R.rnd (1 / Rounded.mag R v)) * n),
        R.rnd (R.rnd (v.y * R.rnd (1 / Rounded.mag R v)) * n)⟩ := by
  unfold Rounded.setMag
  rw [Rounded.normalize_of_ne R v hne]
  rfl

theorem Rounded.map_of_ne (R : FP α) (n start1 stop1 start2 stop2 : α)
    (hne : R.sub stop1 start1 ≠ 0) :
    Rounded.map R n start1 stop1 start2 stop2 =
      some (R.rnd (R.rnd (R.rnd (R.sub n start1 / R.sub stop1 start1) * R.sub stop2 start2) +
        start2)) := by
  unfold Rounded.map
  rw [R.div_of_ne _ hne]
  rfl

end RoundedEval

/-! ## `update()` on the doubles -/

section RoundedUpdate

variable {α : Type} [LinearOrderedField α] {R : FP α} {u : α}

/-- What `update()` returns once `limit` has returned. -/
theorem Rounded.update_of_limit (R : FP α) (p : Particle α) {w : Vec α}
    (hw : Rounded.limit R (Rounded.add R p.vel p.acc) p.maxspeed = some w) :
    Rounded.update R p = some
      { p with
        pos := Rounded.add R p.pos w
        vel := w
        acc := Rounded.mult R p.acc 0
        history :=
          if (p.history ++ [Rounded.add R p.pos w]).length > p.maxHistory then
            (p.history ++ [Rounded.add R p.pos w]).drop 1
          else p.history ++ [Rounded.add R p.pos w] } := by
  unfold Rounded.update
  rw [hw]
  rfl

/-- C1 (amended): for every particle state (any position, velocity,
acceleration and `maxspeed`), on numbers whose operations round with a
relative error of at most `2⁻⁵³` (the doubles, overflow and underflow apart),
`update()` returns, and the velocity it leaves has a squared magnitude of at
most `maxspeed² * (1 + 2⁻⁴⁹)`: the magnitude is at most `maxspeed` up to the
rounding, not exactly. -/
theorem update_velocity_le_maxspeed_rounded (R : FP α) (u : α) (h : R.Accurate u)
    (hu : u ≤ 1 / 2 ^ 53) (p : Particle α) :
    ∃ q, Rounded.update R p = some q ∧ q.maxspeed = p.maxspeed ∧
      q.vel.magSq ≤ (1 + 1 / 2 ^ 49) * (p.maxspeed * p.maxspeed) := by
  obtain ⟨w, hw, hb⟩ := h.limit_le (Rounded.add R p.vel p.acc) p.maxspeed
  exact ⟨_, Rounded.update_of_limit R p hw, rfl,
    h.tolerance_le hu (mul_self_nonneg _) hb⟩

/-- Witness of C1 (amended) on the doubles: velocity `(2.375, 3.625)`,
acceleration `(0, 0)`, `maxspeed = 2`. -/
theorem update_velocity_le_maxspeed_rounded_witness :
    ∃ q, Rounded.update (doubles Real.sqrt Real.cos Real.sin (2 * Real.pi) (fun _ _ _ => 0))
        ⟨⟨0, 0⟩, ⟨19 / 8, 29 / 8⟩, ⟨0, 0⟩, 2, [], 20⟩ = some q ∧ q.maxspeed = 2 ∧
      q.vel.magSq ≤ (1 + 1 / 2 ^ 49) * ((2 : ℝ) * 2) :=
  update_velocity_le_maxspeed_rounded _ _ (doubles_accurate _ _ _ _) le_rfl
    ⟨⟨0, 0⟩, ⟨19 / 8, 29 / 8⟩, ⟨0, 0⟩, 2, [], 20⟩

/-- C17 (amended): on numbers whose operations round with a relative error
of at most `2⁻⁵³` (the doubles, overflow and underflow apart), `update()`
returns and integrates once: with `w` the rounded sum `vel + acc`, the new
velocity is `w` if the computed `magSq` of `w` is not larger than the computed
`maxspeed * maxspeed`; otherwise it is `w` divided by its computed magnitude
and multiplied by `maxspeed`, each coordinate within two roundings of the
coordinate of `w` times `maxspeed / mag`, and its squared magnitude is
`maxspeed²` up to the factors `1 - 2⁻⁵⁰` and `1 + 2⁻⁴⁹`, not exactly. The new
position is the rounded sum of the old position and the new velocity, the new
acceleration is the zero vector, and the newest trail point is the new
position. -/
theorem update_integrates_once_rounded (R : FP α) (u : α) (h : R.Accurate u)
    (hu : u ≤ 1 / 2 ^ 53) (p : Particle α) (hH : 0 < p.maxHistory) :
    ∃ q, Rounded.update R p = some q ∧
      (¬ Rounded.magSq R (Rounded.add R p.vel p.acc) > R.mul p.maxspeed p.maxspeed →
        q.vel = Rounded.add R p.vel p.acc) ∧
      (Rounded.magSq R (Rounded.add R p.vel p.acc) > R.mul p.maxspeed p.maxspeed →
        q.vel = Rounded.mult R
          ⟨R.rnd ((Rounded.add R p.vel p.acc).x / Rounded.mag R (Rounded.add R p.vel p.acc)),
           R.rnd ((Rounded.add R p.vel p.acc).y / Rounded.mag R (Rounded.add R p.vel p.acc))⟩
          p.maxspeed ∧
        0 < Rounded.mag R (Rounded.add R p.vel p.acc) ∧
        |q.vel.x - (Rounded.add R p.vel p.acc).x /
            Rounded.mag R (Rounded.add R p.vel p.acc) * p.maxspeed| ≤
          ((1 + u) ^ 2 - 1) * |(Rounded.add R p.vel p.acc).x /
            Rounded.mag R (Rounded.add R p.vel p.acc) * p.maxspeed| ∧
        |q.vel.y - (Rounded.add R p.vel p.acc).y /
            Rounded.mag R (Rounded.add R p.vel p.acc) * p.maxspeed| ≤
          ((1 + u) ^ 2 - 1) * |(Rounded.add R p.vel p.acc).y /
            Rounded.mag R (Rounded.add R p.vel p.acc) * p.maxspeed| ∧
        (1 - 1 / 2 ^ 50) * (p.maxspeed * p.maxspeed) ≤ q.vel.magSq ∧
        q.vel.magSq ≤ (1 + 1 / 2 ^ 49) * (p.maxspeed * p.maxspeed)) ∧
      q.pos = ⟨R.rnd (p.pos.x + q.vel.x), R.rnd (p.pos.y + q.vel.y)⟩ ∧
      q.acc = ⟨0, 0⟩ ∧
      q.history.getLast? = some q.pos ∧
      q.maxspeed = p.maxspeed ∧ q.maxHistory = p.maxHistory := by
  have hacc : Rounded.mult R p.acc 0 = ⟨0, 0⟩ := by
    unfold Rounded.mult FP.mul
    rw [mul_zero, mul_zero, h.rnd_zero]
  have hhist : ∀ pos : Vec α,
      (if (p.history ++ [pos]).length > p.maxHistory then (p.history ++ [pos]).drop 1
        else p.history ++ [pos]).getLast? = some pos := by
    intro pos
    split_ifs with hl
    · rw [List.getLast?_drop, if_neg (by omega), List.getLast?_concat]
    · rw [List.getLast?_concat]
  by_cases hgt : Rounded.magSq R (Rounded.add R p.vel p.acc) > R.mul p.maxspeed p.maxspeed
  · have hs : 0 < Rounded.mag R (Rounded.add R p.vel p.acc) :=
      h.sqrt_pos_of_pos (lt_of_le_of_lt (h.rnd_nonneg (mul_self_nonneg _)) hgt)
    refine ⟨_, Rounded.update_of_limit R p (Rounded.limit_of_gt h _ _ hgt),
      fun hn => absurd hgt hn, fun _ => ⟨rfl, hs, ?_, ?_, ?_, ?_⟩, rfl, hacc, hhist _, rfl, rfl⟩
    · have := h.near_rnd ((h.near_rnd ((FP.Near.refl u (Rounded.add R p.vel p.acc).x).mul_right
        h.u_nonneg (Rounded.mag R (Rounded.add R p.vel p.acc))⁻¹)).mul_right
        h.u_nonneg p.maxspeed)
      rw [← div_eq_mul_inv] at this
      exact this
    · have := h.near_rnd ((h.near_rnd ((FP.Near.refl u (Rounded.add R p.vel p.acc).y).mul_right
        h.u_nonneg (Rounded.mag R (Rounded.add R p.vel p.acc))⁻¹)).mul_right
        h.u_nonneg p.maxspeed)
      rw [← div_eq_mul_inv] at this
      exact this
    · exact h.tolerance_ge hu (Vec.magSq_nonneg _) (h.limit_rescaled_ge _ _ hgt)
    · exact h.tolerance_le hu (mul_self_nonneg _) (h.limit_rescaled_le _ _ hgt)
  · exact ⟨_, Rounded.update_of_limit R p (Rounded.limit_of_le R _ _ hgt),
      fun _ => rfl, fun hn => absurd hn hgt, rfl, hacc, hhist _, rfl, rfl⟩

/-- Witness of C17 (amended) on the doubles: position `(10, 10)`, velocity
`(1, 1)`, acceleration `(0, 1)`, `maxspeed = 2`. -/
theorem update_integrates_once_rounded_witness :
    ∃ q, Rounded.update (doubles Real.sqrt Real.cos Real.sin (2 * Real.pi) (fun _ _ _ => 0))
        ⟨⟨10, 10⟩, ⟨1, 1⟩, ⟨0, 1⟩, 2, [], 20⟩ = some q ∧
      q.pos = ⟨round53 (10 + q.vel.x), round53 (10 + q.vel.y)⟩ ∧
      q.acc = (⟨0, 0⟩ : Vec ℝ) ∧ q.history.getLast? = some q.pos := by
  obtain ⟨q, h1, _, _, h4, h5, h6, _⟩ :=
    update_integrates_once_rounded
      (doubles Real.sqrt Real.cos Real.sin (2 * Real.pi) (fun _ _ _ => 0)) _
      (doubles_accurate _ _ _ _) le_rfl ⟨⟨10, 10⟩, ⟨1, 1⟩, ⟨0, 1⟩, 2, [], 20⟩ (by decide)
  exact ⟨q, h1, h4, h5, h6⟩


end RoundedUpdate

/-! ## `update()` on the doubles: counterexamples -/

section RoundedUpdateExamples

/-- C1 (counterexample): on the doubles, `update()` of the particle with
velocity `(2.375, 3.625)`, acceleration `(0, 0)` and `maxspeed = 2` leaves the
velocity `(1.096052514621746, 1.672922259159507)`, whose magnitude is larger
than `maxspeed`: `mag()` computes `2.0000000000000004`, and the sum of the
squares of the two doubles is larger than `4`. -/
theorem update_velocity_exceeds_maxspeed :
    Rounded.update (doubles Real.sqrt Real.cos Real.sin (2 * Real.pi) (fun _ _ _ => 0))
        ⟨⟨0, 0⟩, ⟨19 / 8, 29 / 8⟩, ⟨0, 0⟩, 2, [], 20⟩ =
      some ⟨⟨2468090848214495 / 2251799813685248, 1883543015742641 / 1125899906842624⟩,
        ⟨2468090848214495 / 2251799813685248, 1883543015742641 / 1125899906842624⟩, ⟨0, 0⟩, 2,
        [⟨2468090848214495 / 2251799813685248, 1883543015742641 / 1125899906842624⟩], 20⟩ ∧
    Rounded.mag (doubles Real.sqrt Real.cos Real.sin (2 * Real.pi) (fun _ _ _ => 0))
        ⟨2468090848214495 / 2251799813685248, 1883543015742641 / 1125899906842624⟩ =
      4503599627370497 / 2251799813685248 ∧
    (2 : ℝ) < 4503599627370497 / 2251799813685248 ∧
    (2 : ℝ) * 2 <
      (⟨2468090848214495 / 2251799813685248, 1883543015742641 / 1125899906842624⟩ : Vec ℝ).magSq := by
  have hx0 : round53 (19 / 8 + 0 : ℝ) = 19 / 8 := by
    apply round53_eq _ _ (-51) (5348024557502464)
    · norm_num [le_abs]
    · norm_num [abs_lt]
    · norm_num
    · norm_num [abs_lt]
  have hy0 : round53 (29 / 8 + 0 : ℝ) = 29 / 8 := by
    apply round53_eq _ _ (-51) (8162774324609024)
    · norm_num [le_abs]
    · norm_num [abs_lt]
    · norm_num
    · norm_num [abs_lt]
  have hxx : round53 (19 / 8 * (19 / 8) : ℝ) = 361 / 64 := by
    apply round53_eq _ _ (-50) (6350779162034176)
    · norm_num [le_abs]
    · norm_num [abs_lt]
    · norm_num
    · norm_num [abs_lt]
  have hyy : round53 (29 / 8 * (29 / 8) : ℝ) = 841 / 64 := by
    apply round53_eq _ _ (-49) (7397514231676928)
    · norm_num [le_abs]
    · norm_num [abs_lt]
    · norm_num
    · norm_num [abs_lt]
  have hm : round53 (361 / 64 + 841 / 64 : ℝ) = 601 / 32 := by
    apply round53_eq _ _ (-48) (5286451906347008)
    · norm_num [le_abs]
    · norm_num [abs_lt]
    · norm_num
    · norm_num [abs_lt]
  have hMM : round53 (2 * 2 : ℝ) = 4 := by
    apply round53_eq _ _ (-50) (4503599627370496)
    · norm_num [le_abs]
    · norm_num [abs_lt]
    · norm_num
    · norm_num [abs_lt]
  have hs : round53 (Real.sqrt (601 / 32 : ℝ)) = 1219837664290223 / 281474976710656 := by
    apply round53_sqrt_eq _ _ (-50) (4879350657160892) <;> norm_num
  have hx1 : round53 (19 / 8 / (1219837664290223 / 281474976710656) : ℝ) = 2468090848214495 / 4503599627370496 := by
    apply round53_eq _ _ (-53) (4936181696428990)
    · norm_num [le_abs]
    · norm_num [abs_lt]
    · norm_num
    · norm_num [abs_lt]
  have hy1 : round53 (29 / 8 / (1219837664290223 / 281474976710656) : ℝ) = 1883543015742641 / 2251799813685248 := by
    apply round53_eq _ _ (-53) (7534172062970564)
    · norm_num [le_abs]
    · norm_num [abs_lt]
    · norm_num
    · norm_num [abs_lt]
  have hx2 : round53 (2468090848214495 / 4503599627370496 * 2 : ℝ) = 2468090848214495 / 2251799813685248 := by
    apply round53_eq _ _ (-52) (4936181696428990)
    · norm_num [le_abs]
    · norm_num [abs_lt]
    · norm_num
    · norm_num [abs_lt]
  have hy2 : round53 (1883543015742641 / 2251799813685248 * 2 : ℝ) = 1883543015742641 / 1125899906842624 := by
    apply round53_eq _ _ (-52) (7534172062970564)
    · norm_num [le_abs]
    · norm_num [abs_lt]
    · norm_num
    · norm_num [abs_lt]
  have hpx : round53 (0 + 2468090848214495 / 2251799813685248 : ℝ) = 2468090848214495 / 2251799813685248 := by
    apply round53_eq _ _ (-52) (4936181696428990)
    · norm_num [le_abs]
    · norm_num [abs_lt]
    · norm_num
    · norm_num [abs_lt]
  have hpy : round53 (0 + 1883543015742641 / 1125899906842624 : ℝ) = 1883543015742641 / 1125899906842624 := by
    apply round53_eq _ _ (-52) (7534172062970564)
    · norm_num [le_abs]
    · norm_num [abs_lt]
    · norm_num
    · norm_num [abs_lt]
  have hz : round53 (0 * 0 : ℝ) = 0 := by
    have e : (0 * 0 : ℝ) = 0 := by norm_num
    rw [e, round53_zero]
  have hvx : round53 (2468090848214495 / 2251799813685248 * (2468090848214495 / 2251799813685248) : ℝ) = 2705157180500415 / 2251799813685248 := by
    apply round53_eq _ _ (-52) (5410314361000830)
    · norm_num [le_abs]
    · norm_num [abs_lt]
    · norm_num
    · norm_num [abs_lt]
  have hvy : round53 (1883543015742641 / 1125899906842624 * (1883543015742641 / 1125899906842624) : ℝ) = 1575510518560145 / 562949953421312 := by
    apply round53_eq _ _ (-51) (6302042074240580)
    · norm_num [le_abs]
    · norm_num [abs_lt]
    · norm_num
    · norm_num [abs_lt]
  have hm2 : round53 (2705157180500415 / 2251799813685248 + 1575510518560145 / 562949953421312 : ℝ) = 2251799813685249 / 562949953421312 := by
    apply round53_tie _ _ (-50) (4503599627370498) (4503599627370497)
    · norm_num [le_abs]
    · norm_num [abs_lt]
    · norm_num
    · norm_num
    · norm_num
    · norm_num
  have hs2 : round53 (Real.sqrt (2251799813685249 / 562949953421312 : ℝ)) = 4503599627370497 / 2251799813685248 := by
    apply round53_sqrt_eq _ _ (-51) (4503599627370497) <;> norm_num
  have hadd : Rounded.add (doubles Real.sqrt Real.cos Real.sin (2 * Real.pi) (fun _ _ _ => 0))
      ⟨19 / 8, 29 / 8⟩ ⟨0, 0⟩ = ⟨19 / 8, 29 / 8⟩ := by
    show (⟨round53 (19 / 8 + 0), round53 (29 / 8 + 0)⟩ : Vec ℝ) = _
    rw [hx0, hy0]
  have hmag : Rounded.magSq (doubles Real.sqrt Real.cos Real.sin (2 * Real.pi) (fun _ _ _ => 0))
      ⟨19 / 8, 29 / 8⟩ = 601 / 32 := by
    show round53 (round53 (19 / 8 * (19 / 8)) + round53 (29 / 8 * (29 / 8))) = _
    rw [hxx, hyy, hm]
  have hlim : Rounded.limit (doubles Real.sqrt Real.cos Real.sin (2 * Real.pi) (fun _ _ _ => 0))
      ⟨19 / 8, 29 / 8⟩ 2 = some ⟨2468090848214495 / 2251799813685248, 1883543015742641 / 1125899906842624⟩ := by
    rw [Rounded.limit_of_gt (doubles_accurate _ _ _ _) _ _
      (by rw [hmag]; show round53 (2 * 2 : ℝ) < 601 / 32; rw [hMM]; norm_num)]
    show some (⟨round53 (round53 (19 / 8 / round53 (Real.sqrt (Rounded.magSq _ _))) * 2),
      round53 (round53 (29 / 8 / round53 (Real.sqrt (Rounded.magSq _ _))) * 2)⟩ : Vec ℝ) = _
    rw [hmag, hs, hx1, hx2, hy1, hy2]
  refine ⟨?_, ?_, by norm_num, by norm_num [Vec.magSq]⟩
  · unfold Rounded.update
    rw [hadd, hlim]
    show some (⟨⟨round53 (0 + 2468090848214495 / 2251799813685248), round53 (0 + 1883543015742641 / 1125899906842624)⟩,
      ⟨2468090848214495 / 2251799813685248, 1883543015742641 / 1125899906842624⟩, ⟨round53 (0 * 0), round53 (0 * 0)⟩, 2,
      [⟨round53 (0 + 2468090848214495 / 2251799813685248), round53 (0 + 1883543015742641 / 1125899906842624)⟩], 20⟩ : Particle ℝ) = _
    rw [hpx, hpy, hz]
  · show round53 (Real.sqrt (round53 (round53 (2468090848214495 / 2251799813685248 * (2468090848214495 / 2251799813685248)) + round53 (1883543015742641 / 1125899906842624 * (1883543015742641 / 1125899906842624))))) = _
    rw [hvx, hvy, hm2, hs2]


/-- C17 (counterexample): on the doubles, `update()` of the particle at
`(10, 10)` with velocity `(1, 1)`, acceleration `(0, 1)` and `maxspeed = 2`
rescales `vel + acc = (1, 2)`, of magnitude larger than `2`, to
`(0.8944271909999159, 1.7888543819998317)`: `mag()` computes
`1.9999999999999998` for it and the sum of the squares of the two doubles is
less than `4`, so the magnitude is not `maxspeed`; and the new position
`10.894427190999917` is the rounded sum, not the sum, of the old position and
the new velocity. -/
theorem update_rescales_below_maxspeed :
    Rounded.update (doubles Real.sqrt Real.cos Real.sin (2 * Real.pi) (fun _ _ _ => 0))
        ⟨⟨10, 10⟩, ⟨1, 1⟩, ⟨0, 1⟩, 2, [], 20⟩ =
      some ⟨⟨3066508639862639 / 281474976710656, 6636535025237435 / 562949953421312⟩,
        ⟨8056283928194521 / 9007199254740992, 8056283928194521 / 4503599627370496⟩, ⟨0, 0⟩, 2,
        [⟨3066508639862639 / 281474976710656, 6636535025237435 / 562949953421312⟩], 20⟩ ∧
    Rounded.mag (doubles Real.sqrt Real.cos Real.sin (2 * Real.pi) (fun _ _ _ => 0))
        ⟨8056283928194521 / 9007199254740992, 8056283928194521 / 4503599627370496⟩ =
      9007199254740991 / 4503599627370496 ∧
    (9007199254740991 / 4503599627370496 : ℝ) < 2 ∧
    (⟨8056283928194521 / 9007199254740992, 8056283928194521 / 4503599627370496⟩ : Vec ℝ).magSq < 2 * 2 ∧
    (3066508639862639 / 281474976710656 : ℝ) ≠ 10 + 8056283928194521 / 9007199254740992 := by
  have h1 : round53 (1 + 0 : ℝ) = 1 := by
    apply round53_eq _ _ (-52) (4503599627370496)
    · norm_num [le_abs]
    · norm_num [abs_lt]
    · norm_num
    · norm_num [abs_lt]
  have h2 : round53 (1 + 1 : ℝ) = 2 := by
    apply round53_eq _ _ (-51) (4503599627370496)
    · norm_num [le_abs]
    · norm_num [abs_lt]
    · norm_num
    · norm_num [abs_lt]
  have h3 : round53 (1 * 1 : ℝ) = 1 := by
    apply round53_eq _ _ (-52) (4503599627370496)
    · norm_num [le_abs]
    · norm_num [abs_lt]
    · norm_num
    · norm_num [abs_lt]
  have h4 : round53 (2 * 2 : ℝ) = 4 := by
    apply round53_eq _ _ (-50) (4503599627370496)
    · norm_num [le_abs]
    · norm_num [abs_lt]
    · norm_num
    · norm_num [abs_lt]
  have h5 : round53 (1 + 4 : ℝ) = 5 := by
    apply round53_eq _ _ (-50) (5629499534213120)
    · norm_num [le_abs]
    · norm_num [abs_lt]
    · norm_num
    · norm_num [abs_lt]
  have h6 : round53 (Real.sqrt (5 : ℝ)) = 629397181890197 / 281474976710656 := by
    apply round53_sqrt_eq _ _ (-51) (5035177455121576) <;> norm_num
  have h7 : round53 (1 / (629397181890197 / 281474976710656) : ℝ) = 8056283928194521 / 18014398509481984 := by
    apply round53_eq _ _ (-54) (8056283928194521)
    · norm_num [le_abs]
    · norm_num [abs_lt]
    · norm_num
    · norm_num [abs_lt]
  have h8 : round53 ((8056283928194521 / 18014398509481984) * 2 : ℝ) = 8056283928194521 / 9007199254740992 := by
    apply round53_eq _ _ (-53) (8056283928194521)
    · norm_num [le_abs]
    · norm_num [abs_lt]
    · norm_num
    · norm_num [abs_lt]
  have h9 : round53 (2 / (629397181890197 / 281474976710656) : ℝ) = 8056283928194521 / 9007199254740992 := by
    apply round53_eq _ _ (-53) (8056283928194521)
    · norm_num [le_abs]
    · norm_num [abs_lt]
    · norm_num
    · norm_num [abs_lt]
  have h10 : round53 ((8056283928194521 / 9007199254740992) * 2 : ℝ) = 8056283928194521 / 4503599627370496 := by
    apply round53_eq _ _ (-52) (8056283928194521)
    · norm_num [le_abs]
    · norm_num [abs_lt]
    · norm_num
    · norm_num [abs_lt]
  have h11 : round53 (10 + (8056283928194521 / 9007199254740992) : ℝ) = 3066508639862639 / 281474976710656 := by
    apply round53_eq _ _ (-49) (6133017279725278)
    · norm_num [le_abs]
    · norm_num [abs_lt]
    · norm_num
    · norm_num [abs_lt]
  have h12 : round53 (10 + (8056283928194521 / 4503599627370496) : ℝ) = 6636535025237435 / 562949953421312 := by
    apply round53_eq _ _ (-49) (6636535025237435)
    · norm_num [le_abs]
    · norm_num [abs_lt]
    · norm_num
    · norm_num [abs_lt]
  have h13 : round53 (0 * 0 : ℝ) = 0 := by
    have e : (0 * 0 : ℝ) = 0 := by norm_num
    rw [e, round53_zero]
  have h14 : round53 (1 * 0 : ℝ) = 0 := by
    have e : (1 * 0 : ℝ) = 0 := by norm_num
    rw [e, round53_zero]
  have h15 : round53 ((8056283928194521 / 9007199254740992) * (8056283928194521 / 9007199254740992) : ℝ) = 7205759403792793 / 9007199254740992 := by
    apply round53_eq _ _ (-53) (7205759403792793)
    · norm_num [le_abs]
    · norm_num [abs_lt]
    · norm_num
    · norm_num [abs_lt]
  have h16 : round53 ((8056283928194521 / 4503599627370496) * (8056283928194521 / 4503599627370496) : ℝ) = 7205759403792793 / 2251799813685248 := by
    apply round53_eq _ _ (-51) (7205759403792793)
    · norm_num [le_abs]
    · norm_num [abs_lt]
    · norm_num
    · norm_num [abs_lt]
  have h17 : round53 ((7205759403792793 / 9007199254740992) + (7205759403792793 / 2251799813685248) : ℝ) = 9007199254740991 / 2251799813685248 := by
    apply round53_eq _ _ (-51) (9007199254740991)
    · norm_num [le_abs]
    · norm_num [abs_lt]
    · norm_num
    · norm_num [abs_lt]
  have h18 : round53 (Real.sqrt (9007199254740991 / 2251799813685248 : ℝ)) = 9007199254740991 / 4503599627370496 := by
    apply round53_sqrt_eq _ _ (-52) (9007199254740991) <;> norm_num
  have hadd : Rounded.add (doubles Real.sqrt Real.cos Real.sin (2 * Real.pi) (fun _ _ _ => 0))
      ⟨1, 1⟩ ⟨0, 1⟩ = ⟨1, 2⟩ := by
    show (⟨round53 (1 + 0), round53 (1 + 1)⟩ : Vec ℝ) = _
    simp only [h1, h2, h3, h4, h5, h6, h7, h8, h9, h10, h11, h12, h13, h14, h15, h16, h17, h18]
  have hmag : Rounded.magSq (doubles Real.sqrt Real.cos Real.sin (2 * Real.pi) (fun _ _ _ => 0))
      ⟨1, 2⟩ = 5 := by
    show round53 ((round53 (1 * 1)) + (round53 (2 * 2))) = _
    simp only [h1, h2, h3, h4, h5, h6, h7, h8, h9, h10, h11, h12, h13, h14, h15, h16, h17, h18]
  have hlim : Rounded.limit (doubles Real.sqrt Real.cos Real.sin (2 * Real.pi) (fun _ _ _ => 0))
      ⟨1, 2⟩ 2 = some ⟨8056283928194521 / 9007199254740992, 8056283928194521 / 4503599627370496⟩ := by
    rw [Rounded.limit_of_gt (doubles_accurate _ _ _ _) _ _
      (by rw [hmag]; show round53 (2 * 2 : ℝ) < 5; simp only [h1, h2, h3, h4, h5, h6, h7, h8, h9, h10, h11, h12, h13, h14, h15, h16, h17, h18]; norm_num)]
    show some (⟨round53 (round53 (1 / round53 (Real.sqrt (Rounded.magSq _ _))) * 2),
      round53 (round53 (2 / round53 (Real.sqrt (Rounded.magSq _ _))) * 2)⟩ : Vec ℝ) = _
    rw [hmag]
    simp only [h1, h2, h3, h4, h5, h6, h7, h8, h9, h10, h11, h12, h13, h14, h15, h16, h17, h18]
  refine ⟨?_, ?_, by norm_num, by norm_num [Vec.magSq], by norm_num⟩
  · unfold Rounded.update
    rw [hadd, hlim]
    show some (⟨⟨round53 (10 + (8056283928194521 / 9007199254740992)), round53 (10 + (8056283928194521 / 4503599627370496))⟩,
      ⟨8056283928194521 / 9007199254740992, 8056283928194521 / 4503599627370496⟩, ⟨round53 (0 * 0), round53 (1 * 0)⟩, 2,
      [⟨round53 (10 + (8056283928194521 / 9007199254740992)), round53 (10 + (8056283928194521 / 4503599627370496))⟩], 20⟩ : Particle ℝ) = _
    simp only [h1, h2, h3, h4, h5, h6, h7, h8, h9, h10, h11, h12, h13, h14, h15, h16, h17, h18]
  · show round53 (Real.sqrt (round53 ((round53 ((8056283928194521 / 9007199254740992) * (8056283928194521 / 9007199254740992))) + (round53 ((8056283928194521 / 4503599627370496) * (8056283928194521 / 4503599627370496)))))) = _
    simp only [h1, h2, h3, h4, h5, h6, h7, h8, h9, h10, h11, h12, h13, h14, h15, h16, h17, h18]

end RoundedUpdateExamples

/-! ## The display hue on the doubles -/

section RoundedHue

variable {α : Type} [LinearOrderedField α] {R : FP α} {u : α}

theorem FP.Accurate.near_one (h : R.Accurate u) (t : α) : FP.Near u 1 (R.rnd t) t :=
  h.near_rnd (FP.Near.refl u t)

/-- The blend of a registry of one injection. -/
theorem Rounded.blendHue_single (R : FP α) (inj : Injection α) (pos : Vec α) (hue : α) :
    Rounded.blendHue R [inj] pos hue =
      if Rounded.dist R pos.x pos.y inj.pos.x inj.pos.y < inj.radius then
        (Rounded.map R (Rounded.dist R pos.x pos.y inj.pos.x inj.pos.y) 0 inj.radius 1 0).map
          (fun influence => Rounded.lerp R hue inj.hue (R.mul influence (R.lit (7 / 10))))
      else some hue := by
  unfold Rounded.blendHue
  rw [List.foldlM_cons]
  simp only [List.foldlM_nil]
  split_ifs <;> simp

/-- The influence `map(d, 0, r, 1, 0)` of an injection of radius `r > 0` at
the distance `0 ≤ d < r` is a number, at most seven roundings away from
`1 - d / r`. -/
theorem FP.Accurate.influence_within (h : R.Accurate u) {d r : α} (hd : 0 ≤ d) (hdr : d < r) :
    ∃ influence, Rounded.map R d 0 r 1 0 = some influence ∧
      FP.Within u 7 (1 + 1) influence (d * r⁻¹ * (-1) + 1) := by
  have hr : 0 < r := lt_of_le_of_lt hd hdr
  have hne : R.sub r 0 ≠ 0 := by
    intro h0
    have := h.rnd_eq_zero h0
    rw [sub_zero] at this
    exact hr.ne' this
  have n1 : FP.Near u 1 (R.sub d 0) d := by
    unfold FP.sub
    rw [sub_zero]
    exact h.near_one d
  have n2 : FP.Near u 1 (R.sub r 0) r := by
    unfold FP.sub
    rw [sub_zero]
    exact h.near_one r
  have n4 : FP.Near u (1 + 2 + 1) (R.rnd (R.sub d 0 / R.sub r 0)) (d * r⁻¹) := by
    rw [div_eq_mul_inv]
    exact h.near_rnd (n1.mul h.u_nonneg (h.near_inv hr.ne' n2))
  have n5 : FP.Near u 1 (R.sub 0 1) (-1) := by
    unfold FP.sub
    rw [zero_sub]
    exact h.near_one (-1)
  have n7 := h.near_rnd (n4.mul h.u_nonneg n5)
  have hrho : |d * r⁻¹ * (-1)| ≤ 1 := by
    rw [abs_mul, abs_neg, abs_one, mul_one, ← div_eq_mul_inv, abs_of_nonneg (div_nonneg hd hr.le),
      div_le_one hr]
    exact hdr.le
  have w7 : FP.Within u 6 1 (R.rnd (R.rnd (R.sub d 0 / R.sub r 0) * R.sub 0 1))
      (d * r⁻¹ * (-1)) := n7.within.mono h.u_nonneg (by norm_num) hrho
  have w1 : FP.Within u 6 1 (1 : α) 1 :=
    (FP.Within.exact u (by rw [abs_one])).mono h.u_nonneg (by norm_num) le_rfl
  have w8 := h.within_rnd (w7.add w1)
  refine ⟨R.rnd (R.rnd (R.rnd (R.sub d 0 / R.sub r 0) * R.sub 0 1) + 1), ?_, ?_⟩
  · unfold Rounded.map FP.div
    rw [if_neg hne]
    rfl
  · exact w8

/-- C12 (amended): on numbers whose operations round with a relative error
of at most `2⁻⁵³` (the doubles, overflow and underflow apart), for a particle
and a single injection of radius `r` at the computed distance `d ≥ 0`: if
`d < r` the influence `map(d, 0, r, 1, 0)` is a number and the display hue of
the particle is `lerp(base, injHue, influence * 0.7)` on these numbers, which
is `base + (injHue - base) * 0.7 * (1 - d / r)` up to the absolute error
`2⁻⁴⁸ * (|base| + |injHue - base|)`, not exactly; if `d ≥ r` it is the base
hue unchanged. -/
theorem particleHue_single_injection_rounded [FloorRing α] (R : FP α) (u : α)
    (h : R.Accurate u) (hu : u ≤ 1 / 2 ^ 53) (hueShift : α) (i : ℕ) (pos : Vec α)
    (inj : Injection α) (hd : 0 ≤ Rounded.dist R pos.x pos.y inj.pos.x inj.pos.y) :
    (Rounded.dist R pos.x pos.y inj.pos.x inj.pos.y < inj.radius →
      ∃ influence,
        Rounded.map R (Rounded.dist R pos.x pos.y inj.pos.x inj.pos.y) 0 inj.radius 1 0 =
          some influence ∧
        Rounded.particleHue R hueShift [inj] i pos =
          some (Rounded.lerp R (Rounded.particleBaseHue R hueShift i) inj.hue
            (R.mul influence (R.lit (7 / 10)))) ∧
        |Rounded.lerp R (Rounded.particleBaseHue R hueShift i) inj.hue
              (R.mul influence (R.lit (7 / 10))) -
            (Rounded.particleBaseHue R hueShift i +
              (inj.hue - Rounded.particleBaseHue R hueShift i) * (7 / 10) *
                (1 - Rounded.dist R pos.x pos.y inj.pos.x inj.pos.y / inj.radius))| ≤
          1 / 2 ^ 48 * (|Rounded.particleBaseHue R hueShift i| +
            |inj.hue - Rounded.particleBaseHue R hueShift i|)) ∧
    (¬ Rounded.dist R pos.x pos.y inj.pos.x inj.pos.y < inj.radius →
      Rounded.particleHue R hueShift [inj] i pos =
        some (Rounded.particleBaseHue R hueShift i)) := by
  constructor
  · intro hdr
    obtain ⟨influence, hmap, hw⟩ := h.influence_within hd hdr
    refine ⟨influence, hmap, ?_, ?_⟩
    · unfold Rounded.particleHue
      rw [Rounded.blendHue_single, if_pos hdr, hmap]
      rfl
    · have c : FP.Within u 1 (7 / 10) (R.lit (7 / 10)) (7 / 10) :=
        (h.near_one (7 / 10)).within.mono h.u_nonneg le_rfl
          (by rw [abs_of_pos (by norm_num : (0 : α) < 7 / 10)])
      have w11 := h.within_rnd (hw.prod h.u_nonneg c)
      have s := (h.near_one (inj.hue - Rounded.particleBaseHue R hueShift i)).within
      have w13 := h.within_rnd (w11.prod h.u_nonneg s)
      have wb : FP.Within u (7 + 1 + 1 + 1 + 1) |Rounded.particleBaseHue R hueShift i|
          (Rounded.particleBaseHue R hueShift i) (Rounded.particleBaseHue R hueShift i) :=
        (FP.Within.exact u le_rfl).mono h.u_nonneg (by norm_num) le_rfl
      have w15 := (h.within_rnd (w13.add wb)).2
      have e : Rounded.dist R pos.x pos.y inj.pos.x inj.pos.y * inj.radius⁻¹ * (-1) + 1 =
          1 - Rounded.dist R pos.x pos.y inj.pos.x inj.pos.y / inj.radius := by
        rw [div_eq_mul_inv]
        ring
      rw [e] at w15
      have e2 : (1 - Rounded.dist R pos.x pos.y inj.pos.x inj.pos.y / inj.radius) * (7 / 10) *
          (inj.hue - Rounded.particleBaseHue R hueShift i) + Rounded.particleBaseHue R hueShift i =
          Rounded.particleBaseHue R hueShift i +
            (inj.hue - Rounded.particleBaseHue R hueShift i) * (7 / 10) *
              (1 - Rounded.dist R pos.x pos.y inj.pos.x inj.pos.y / inj.radius) := by ring
      rw [e2] at w15
      have hk : ((1 + u) ^ (7 + 1 + 1 + 1 + 1 + 1) - 1) * (7 / 5) ≤ 1 / 2 ^ 48 := by
        have h1 : (1 + u) ^ (7 + 1 + 1 + 1 + 1 + 1) ≤ (1 + 1 / 2 ^ 53 : α) ^ (7 + 1 + 1 + 1 + 1 + 1) :=
          pow_le_pow_left₀ h.one_add_pos.le (by linarith) _
        have h2 : ((1 + 1 / 2 ^ 53 : α) ^ (7 + 1 + 1 + 1 + 1 + 1) - 1) * (7 / 5) ≤ 1 / 2 ^ 48 := by
          norm_num
        linarith
      have hb0 := abs_nonneg (Rounded.particleBaseHue R hueShift i)
      have hs0 := abs_nonneg (inj.hue - Rounded.particleBaseHue R hueShift i)
      have hk0 : (0 : α) ≤ (1 + u) ^ (7 + 1 + 1 + 1 + 1 + 1) - 1 := by
        have : (1 : α) ≤ (1 + u) ^ (7 + 1 + 1 + 1 + 1 + 1) := one_le_pow₀ (by linarith [h.u_nonneg])
        linarith
      refine le_trans w15 ?_
      calc ((1 + u) ^ (7 + 1 + 1 + 1 + 1 + 1) - 1) *
            ((1 + 1) * (7 / 10) * |inj.hue - Rounded.particleBaseHue R hueShift i| +
              |Rounded.particleBaseHue R hueShift i|)
          ≤ ((1 + u) ^ (7 + 1 + 1 + 1 + 1 + 1) - 1) *
            (7 / 5 * (|Rounded.particleBaseHue R hueShift i| +
              |inj.hue - Rounded.particleBaseHue R hueShift i|)) := by
            apply mul_le_mul_of_nonneg_left _ hk0
            linarith
        _ = ((1 + u) ^ (7 + 1 + 1 + 1 + 1 + 1) - 1) * (7 / 5) *
            (|Rounded.particleBaseHue R hueShift i| +
              |inj.hue - Rounded.particleBaseHue R hueShift i|) := by ring
        _ ≤ 1 / 2 ^ 48 * (|Rounded.particleBaseHue R hueShift i| +
              |inj.hue - Rounded.particleBaseHue R hueShift i|) :=
            mul_le_mul_of_nonneg_right hk (by linarith)
  · intro hdr
    unfold Rounded.particleHue
    rw [Rounded.blendHue_single, if_neg hdr]

/-- C12 (counterexample): on the doubles, the particle `0` at `(50, 50)` with
`hueShift = 160`, of base hue `0`, and the single injection at `(50, 50)`
with hue `180` and radius `100` get the hue `125.99999999999999`
(`0.7` is not a double, and the product of the double next to it and `180`
rounds below `126`), not `126`. -/
theorem particleHue_scenario_ne_126 :
    Rounded.particleBaseHue (doubles Real.sqrt Real.cos Real.sin (2 * Real.pi) (fun _ _ _ => 0)) 160 0 = 0 ∧
    Rounded.particleHue (doubles Real.sqrt Real.cos Real.sin (2 * Real.pi) (fun _ _ _ => 0)) 160
      [⟨⟨50, 50⟩, 180, 100⟩] 0 ⟨50, 50⟩ = some (8866461766385663 / 70368744177664) ∧
    (8866461766385663 / 70368744177664 : ℝ) ≠ 126 := by
  have h1 : round53 (200 + 160 : ℝ) = 360 := by
    apply round53_eq _ _ (-44) (6333186975989760)
    · norm_num [le_abs]
    · norm_num [abs_lt]
    · norm_num
    · norm_num [abs_lt]
  have h2 : round53 (1 / 10 : ℝ) = 3602879701896397 / 36028797018963968 := by
    apply round53_eq _ _ (-56) (7205759403792794)
    · norm_num [le_abs]
    · norm_num [abs_lt]
    · norm_num
    · norm_num [abs_lt]
  have h3 : round53 (0 * (3602879701896397 / 36028797018963968) : ℝ) = 0 := by
    have e : (0 * (3602879701896397 / 36028797018963968) : ℝ) = 0 := by norm_num
    rw [e, round53_zero]
  have h4 : round53 (360 + 0 : ℝ) = 360 := by
    apply round53_eq _ _ (-44) (6333186975989760)
    · norm_num [le_abs]
    · norm_num [abs_lt]
    · norm_num
    · norm_num [abs_lt]
  have h5 : round53 (50 - 50 : ℝ) = 0 := by
    have e : (50 - 50 : ℝ) = 0 := by norm_num
    rw [e, round53_zero]
  have h6 : round53 (Real.sqrt (0 * 0 + 0 * 0 : ℝ)) = 0 := by
    have e : (0 * 0 + 0 * 0 : ℝ) = 0 := by norm_num
    rw [e, Real.sqrt_zero, round53_zero]
  have h7 : round53 (0 - 0 : ℝ) = 0 := by
    have e : (0 - 0 : ℝ) = 0 := by norm_num
    rw [e, round53_zero]
  have h8 : round53 (100 - 0 : ℝ) = 100 := by
    apply round53_eq _ _ (-46) (7036874417766400)
    · norm_num [le_abs]
    · norm_num [abs_lt]
    · norm_num
    · norm_num [abs_lt]
  have h9 : round53 (0 / 100 : ℝ) = 0 := by
    have e : (0 / 100 : ℝ) = 0 := by norm_num
    rw [e, round53_zero]
  have h10 : round53 (0 - 1 : ℝ) = (-1) := by
    apply round53_eq _ _ (-52) (-4503599627370496)
    · norm_num [le_abs]
    · norm_num [abs_lt]
    · norm_num
    · norm_num [abs_lt]
  have h11 : round53 (0 * (-1) : ℝ) = 0 := by
    have e : (0 * (-1) : ℝ) = 0 := by norm_num
    rw [e, round53_zero]
  have h12 : round53 (0 + 1 : ℝ) = 1 := by
    apply round53_eq _ _ (-52) (4503599627370496)
    · norm_num [le_abs]
    · norm_num [abs_lt]
    · norm_num
    · norm_num [abs_lt]
  have h13 : round53 (7 / 10 : ℝ) = 3152519739159347 / 4503599627370496 := by
    apply round53_eq _ _ (-53) (6305039478318694)
    · norm_num [le_abs]
    · norm_num [abs_lt]
    · norm_num
    · norm_num [abs_lt]
  have h14 : round53 (1 * (3152519739159347 / 4503599627370496) : ℝ) = 3152519739159347 / 4503599627370496 := by
    apply round53_eq _ _ (-53) (6305039478318694)
    · norm_num [le_abs]
    · norm_num [abs_lt]
    · norm_num
    · norm_num [abs_lt]
  have h15 : round53 (180 - 0 : ℝ) = 180 := by
    apply round53_eq _ _ (-45) (6333186975989760)
    · norm_num [le_abs]
    · norm_num [abs_lt]
    · norm_num
    · norm_num [abs_lt]
  have h16 : round53 ((3152519739159347 / 4503599627370496) * 180 : ℝ) = 8866461766385663 / 70368744177664 := by
    apply round53_eq _ _ (-46) (8866461766385663)
    · norm_num [le_abs]
    · norm_num [abs_lt]
    · norm_num
    · norm_num [abs_lt]
  have h17 : round53 ((8866461766385663 / 70368744177664) + 0 : ℝ) = 8866461766385663 / 70368744177664 := by
    apply round53_eq _ _ (-46) (8866461766385663)
    · norm_num [le_abs]
    · norm_num [abs_lt]
    · norm_num
    · norm_num [abs_lt]
  have hbase : Rounded.particleBaseHue (doubles Real.sqrt Real.cos Real.sin (2 * Real.pi) (fun _ _ _ => 0)) 160 0 = 0 := by
    have e : round53 (round53 ((200 : ℝ) + 160) + round53 (((0 : ℕ) : ℝ) * round53 (1 / 10))) =
        360 := by
      rw [Nat.cast_zero]
      simp only [h1, h2, h3, h4, h5, h6, h7, h8, h9, h10, h11, h12, h13, h14, h15, h16, h17]
    show jsMod (round53 (round53 ((200 : ℝ) + 160) +
      round53 (((0 : ℕ) : ℝ) * round53 (1 / 10)))) 360 = 0
    rw [e]
    unfold jsMod
    norm_num
  have hdist : Rounded.dist (doubles Real.sqrt Real.cos Real.sin (2 * Real.pi) (fun _ _ _ => 0)) 50 50 50 50 = 0 := by
    show round53 (Real.sqrt (round53 ((50 : ℝ) - 50) * round53 ((50 : ℝ) - 50) +
      round53 ((50 : ℝ) - 50) * round53 ((50 : ℝ) - 50))) = 0
    simp only [h1, h2, h3, h4, h5, h6, h7, h8, h9, h10, h11, h12, h13, h14, h15, h16, h17]
  have hsub : FP.sub (doubles Real.sqrt Real.cos Real.sin (2 * Real.pi) (fun _ _ _ => 0)) 100 0 = 100 := by
    show round53 ((100 : ℝ) - 0) = 100
    simp only [h1, h2, h3, h4, h5, h6, h7, h8, h9, h10, h11, h12, h13, h14, h15, h16, h17]
  have hmap : Rounded.map (doubles Real.sqrt Real.cos Real.sin (2 * Real.pi) (fun _ _ _ => 0)) 0 0 100 1 0 = some 1 := by
    unfold Rounded.map FP.div
    rw [hsub, if_neg (by norm_num)]
    show some (round53 (round53 (round53 (round53 ((0 : ℝ) - 0) / 100) * round53 (0 - 1)) + 1)) = _
    simp only [h1, h2, h3, h4, h5, h6, h7, h8, h9, h10, h11, h12, h13, h14, h15, h16, h17]
  refine ⟨hbase, ?_, by norm_num⟩
  unfold Rounded.particleHue
  rw [hbase, Rounded.blendHue_single]
  show (if Rounded.dist _ 50 50 50 50 < (100 : ℝ) then
    (Rounded.map _ (Rounded.dist _ 50 50 50 50) 0 100 1 0).map _ else _) = _
  rw [hdist, if_pos (by norm_num), hmap]
  show some (round53 (round53 (round53 (1 * round53 (7 / 10)) * round53 ((180 : ℝ) - 0)) + 0)) = _
  simp only [h1, h2, h3, h4, h5, h6, h7, h8, h9, h10, h11, h12, h13, h14, h15, h16, h17]

/-- Witness of C12 (amended) on the doubles: the particle `0` at `(50, 50)`
with `hueShift = 160` and the injection at `(50, 50)` with hue `180` and
radius `100`. -/
theorem particleHue_single_injection_rounded_witness :
    ∃ influence,
      Rounded.map (doubles Real.sqrt Real.cos Real.sin (2 * Real.pi) (fun _ _ _ => 0))
        (Rounded.dist (doubles Real.sqrt Real.cos Real.sin (2 * Real.pi) (fun _ _ _ => 0)) 50 50 50 50)
        0 100 1 0 = some influence ∧
      Rounded.particleHue (doubles Real.sqrt Real.cos Real.sin (2 * Real.pi) (fun _ _ _ => 0)) 160
        [⟨⟨50, 50⟩, 180, 100⟩] 0 ⟨50, 50⟩ =
        some (Rounded.lerp (doubles Real.sqrt Real.cos Real.sin (2 * Real.pi) (fun _ _ _ => 0))
          (Rounded.particleBaseHue (doubles Real.sqrt Real.cos Real.sin (2 * Real.pi) (fun _ _ _ => 0)) 160 0)
          180
          (FP.mul (doubles Real.sqrt Real.cos Real.sin (2 * Real.pi) (fun _ _ _ => 0)) influence
            (FP.lit (doubles Real.sqrt Real.cos Real.sin (2 * Real.pi) (fun _ _ _ => 0)) (7 / 10)))) ∧
      |Rounded.lerp (doubles Real.sqrt Real.cos Real.sin (2 * Real.pi) (fun _ _ _ => 0))
            (Rounded.particleBaseHue (doubles Real.sqrt Real.cos Real.sin (2 * Real.pi) (fun _ _ _ => 0)) 160 0)
            180
            (FP.mul (doubles Real.sqrt Real.cos Real.sin (2 * Real.pi) (fun _ _ _ => 0)) influence
              (FP.lit (doubles Real.sqrt Real.cos Real.sin (2 * Real.pi) (fun _ _ _ => 0)) (7 / 10))) -
          (Rounded.particleBaseHue (doubles Real.sqrt Real.cos Real.sin (2 * Real.pi) (fun _ _ _ => 0)) 160 0 +
            (180 - Rounded.particleBaseHue (doubles Real.sqrt Real.cos Real.sin (2 * Real.pi) (fun _ _ _ => 0)) 160 0) * (7 / 10) *
              (1 - Rounded.dist (doubles Real.sqrt Real.cos Real.sin (2 * Real.pi) (fun _ _ _ => 0)) 50 50 50 50 / 100))| ≤
        1 / 2 ^ 48 * (|Rounded.particleBaseHue (doubles Real.sqrt Real.cos Real.sin (2 * Real.pi) (fun _ _ _ => 0)) 160 0| +
          |180 - Rounded.particleBaseHue (doubles Real.sqrt Real.cos Real.sin (2 * Real.pi) (fun _ _ _ => 0)) 160 0|) :=
  (particleHue_single_injection_rounded _ _ (doubles_accurate _ _ _ _) le_rfl 160 0 ⟨50, 50⟩
    ⟨⟨50, 50⟩, 180, 100⟩ (by
      show (0 : ℝ) ≤ round53 (Real.sqrt (round53 ((50 : ℝ) - 50) * round53 ((50 : ℝ) - 50) +
        round53 ((50 : ℝ) - 50) * round53 ((50 : ℝ) - 50)))
      rw [sub_self, round53_zero, mul_zero, add_zero, Real.sqrt_zero, round53_zero])).1 (by
      show round53 (Real.sqrt (round53 ((50 : ℝ) - 50) * round53 ((50 : ℝ) - 50) +
        round53 ((50 : ℝ) - 50) * round53 ((50 : ℝ) - 50))) < (100 : ℝ)
      rw [sub_self, round53_zero, mul_zero, add_zero, Real.sqrt_zero, round53_zero]
      norm_num)

end RoundedHue

/-! ## The vector of a grid cell on the doubles -/

section RoundedCell

variable {α : Type} [LinearOrderedField α] {R : FP α} {u : α}

theorem FP.Accurate.pow_add_le (h : R.Accurate u) {k : ℕ} (hk : k ≤ 10) :
    (1 + u) ^ k ≤ 102 / 100 := by
  have h1 : (1 + u) ^ k ≤ (1 + u) ^ 10 := pow_le_pow_right₀ (by linarith [h.u_nonneg]) hk
  have h2 : (1 + u) ^ 10 ≤ (1 + 1 / 1024 : α) ^ 10 :=
    pow_le_pow_left₀ h.one_add_pos.le (by linarith [h.u_le]) 10
  have h3 : (1 + 1 / 1024 : α) ^ 10 ≤ 102 / 100 := by norm_num
  linarith

theorem FP.Accurate.pow_sub_ge (h : R.Accurate u) {k : ℕ} (hk : k ≤ 6) :
    99 / 100 ≤ (1 - u) ^ k := by
  have h1 : (1 - u) ^ 6 ≤ (1 - u) ^ k :=
    pow_le_pow_of_le_one h.one_sub_pos.le (by linarith [h.u_nonneg]) hk
  have h2 : (1 - 1 / 1024 : α) ^ 6 ≤ (1 - u) ^ 6 :=
    pow_le_pow_left₀ (by norm_num) (by linarith [h.u_le]) 6
  have h3 : (99 / 100 : α) ≤ (1 - 1 / 1024 : α) ^ 6 := by norm_num
  linarith

/-- The vector `fromAngle` returns is not zero. -/
theorem FP.Accurate.fromAngle_magSq_pos (h : R.Accurate u) (hS : R.Sound) (angle : α) :
    0 < (Rounded.fromAngle R angle).magSq := by
  by_contra hc
  have h0 := Vec.eq_zero_of_magSq hc
  unfold Rounded.fromAngle FP.mul at h0
  simp only [Vec.mk.injEq] at h0
  have hx := h.rnd_eq_zero h0.1
  have hy := h.rnd_eq_zero h0.2
  rw [one_mul] at hx hy
  rcases hS.cos_sin_ne angle with hne | hne
  · exact hne hx
  · exact hne hy

/-- Whatever the vector, `normalize` returns, and the squared length of what
it returns is at most `((1 + u) / (1 - u))⁴`. -/
theorem FP.Accurate.normalize_any (h : R.Accurate u) (v : Vec α) :
    ∃ m, Rounded.normalize R v = some m ∧ (1 - u) ^ 4 * m.magSq ≤ (1 + u) ^ 4 := by
  by_cases hv : 0 < v.magSq
  · exact ⟨_, h.normalize_of_pos hv, h.normalize_magSq_le hv⟩
  · refine ⟨⟨0, 0⟩, ?_, ?_⟩
    · rw [Vec.eq_zero_of_magSq hv]
      exact h.normalize_zero_vec
    · have : (⟨0, 0⟩ : Vec α).magSq = 0 := by simp [Vec.magSq]
      rw [this, mul_zero]
      exact (pow_pos h.one_add_pos 4).le

/-- The difference of a vector of squared length at least `0.97` and a vector
of squared length at most `3 / 4` is not zero. -/
theorem FP.Accurate.sub_magSq_pos (h : R.Accurate u) {v t : Vec α} (hv : 97 / 100 ≤ v.magSq)
    (ht : t.magSq ≤ 3 / 4) : 0 < (Rounded.sub R v t).magSq := by
  by_contra hc
  have h0 := Vec.eq_zero_of_magSq hc
  unfold Rounded.sub FP.sub at h0
  simp only [Vec.mk.injEq] at h0
  have hx : v.x = t.x := sub_eq_zero.1 (h.rnd_eq_zero h0.1)
  have hy : v.y = t.y := sub_eq_zero.1 (h.rnd_eq_zero h0.2)
  unfold Vec.magSq at hv ht
  rw [hx, hy] at hv
  linarith

/-- The repulsion `mouseVector * (influence * 0.8)` has a squared length of
at most `3 / 4`. -/
theorem FP.Accurate.repulsion_magSq_le (h : R.Accurate u) {m : Vec α} {influence : α}
    (hm : (1 - u) ^ 4 * m.magSq ≤ (1 + u) ^ 4) (hi : |influence| ≤ 104 / 100) :
    (Rounded.mult R m (R.mul influence (R.lit (8 / 10)))).magSq ≤ 3 / 4 := by
  have ht := h.magSq_mult_le m (R.mul influence (R.lit (8 / 10)))
  have hk := h.rnd_sq_le (influence * R.lit (8 / 10))
  have hc := h.rnd_sq_le (8 / 10)
  have hii : influence * influence ≤ 104 / 100 * (104 / 100) := by
    have := mul_le_mul hi hi (abs_nonneg _) (by norm_num)
    rwa [abs_mul_abs_self] at this
  have hp10 := h.pow_add_le (le_refl 10)
  have hq4 := h.pow_sub_ge (by norm_num : 4 ≤ 6)
  have hp2 : 0 ≤ (1 + u) ^ 2 := (pow_pos h.one_add_pos 2).le
  have hmn := m.magSq_nonneg
  have hkk : R.mul influence (R.lit (8 / 10)) * R.mul influence (R.lit (8 / 10)) ≤
      (1 + u) ^ 4 * (104 / 100 * (104 / 100) * (8 / 10 * (8 / 10))) := by
    calc R.mul influence (R.lit (8 / 10)) * R.mul influence (R.lit (8 / 10))
        ≤ (1 + u) ^ 2 * (influence * R.lit (8 / 10) * (influence * R.lit (8 / 10))) := hk
      _ = (1 + u) ^ 2 * (influence * influence * (R.lit (8 / 10) * R.lit (8 / 10))) := by ring
      _ ≤ (1 + u) ^ 2 * (104 / 100 * (104 / 100) * ((1 + u) ^ 2 * (8 / 10 * (8 / 10)))) :=
          mul_le_mul_of_nonneg_left
            (mul_le_mul hii hc (mul_self_nonneg _) (by norm_num)) hp2
      _ = (1 + u) ^ 4 * (104 / 100 * (104 / 100) * (8 / 10 * (8 / 10))) := by ring
  have key : (1 - u) ^ 4 * (Rounded.mult R m (R.mul influence (R.lit (8 / 10)))).magSq ≤
      (1 + u) ^ 10 * (104 / 100 * (104 / 100) * (8 / 10 * (8 / 10))) := by
    calc (1 - u) ^ 4 * (Rounded.mult R m (R.mul influence (R.lit (8 / 10)))).magSq
        ≤ (1 - u) ^ 4 * ((1 + u) ^ 2 * (m.magSq *
            (R.mul influence (R.lit (8 / 10)) * R.mul influence (R.lit (8 / 10))))) :=
          mul_le_mul_of_nonneg_left ht (pow_pos h.one_sub_pos 4).le
      _ = (1 + u) ^ 2 * (R.mul influence (R.lit (8 / 10)) * R.mul influence (R.lit (8 / 10))) *
            ((1 - u) ^ 4 * m.magSq) := by ring
      _ ≤ (1 + u) ^ 2 * (R.mul influence (R.lit (8 / 10)) * R.mul influence (R.lit (8 / 10))) *
            (1 + u) ^ 4 :=
          mul_le_mul_of_nonneg_left hm (mul_nonneg hp2 (mul_self_nonneg _))
      _ = (1 + u) ^ 6 * (R.mul influence (R.lit (8 / 10)) * R.mul influence (R.lit (8 / 10))) := by
          ring
      _ ≤ (1 + u) ^ 6 * ((1 + u) ^ 4 * (104 / 100 * (104 / 100) * (8 / 10 * (8 / 10)))) :=
          mul_le_mul_of_nonneg_left hkk (pow_pos h.one_add_pos 6).le
      _ = (1 + u) ^ 10 * (104 / 100 * (104 / 100) * (8 / 10 * (8 / 10))) := by ring
  have hwn := Vec.magSq_nonneg (Rounded.mult R m (R.mul influence (R.lit (8 / 10))))
  nlinarith

/-- The influence of the pointer on a cell at a distance `0 ≤ d < 150` is a
number of absolute value at most `1.04`. -/
theorem FP.Accurate.pointer_influence (h : R.Accurate u) {d : α} (hd : 0 ≤ d) (hd150 : d < 150) :
    ∃ influence, Rounded.map R d 0 150 1 0 = some influence ∧ |influence| ≤ 104 / 100 := by
  obtain ⟨influence, hmap, hw⟩ := h.influence_within hd hd150
  refine ⟨influence, hmap, ?_⟩
  have ht : |d * (150 : α)⁻¹ * (-1) + 1| ≤ 1 := by
    rw [abs_le]
    constructor
    · have : d * (150 : α)⁻¹ ≤ 1 := by
        rw [← div_eq_mul_inv, div_le_one (by norm_num)]
        exact hd150.le
      linarith
    · have : 0 ≤ d * (150 : α)⁻¹ := mul_nonneg hd (by norm_num)
      linarith
  have h7 := h.pow_add_le (by norm_num : 7 ≤ 10)
  have h1 : |influence| ≤ |influence - (d * (150 : α)⁻¹ * (-1) + 1)| +
      |d * (150 : α)⁻¹ * (-1) + 1| := by
    have := abs_add (influence - (d * (150 : α)⁻¹ * (-1) + 1)) (d * (150 : α)⁻¹ * (-1) + 1)
    rwa [sub_add_cancel] at this
  have h2 := hw.2
  linarith

/-- The vector of a grid cell is a vector of numbers, of squared length `1`
when the computed distance to the pointer is not less than `150` and `2.25`
when it is, up to the factors `1 ± 2⁻⁴⁹`. -/
theorem FP.Accurate.cellVector_magSq (h : R.Accurate u) (hu : u ≤ 1 / 2 ^ 53) (hS : R.Sound)
    (mouseX mouseY xoff yoff zoff : α) (x y : ℕ) :
    ∃ v, Rounded.cellVector R mouseX mouseY xoff yoff zoff x y = some v ∧
      (¬ Rounded.dist R (R.mul (x : α) resolution) (R.mul (y : α) resolution) mouseX mouseY
          < 150 →
        (1 - 1 / 2 ^ 49) * 1 ≤ v.magSq ∧ v.magSq ≤ (1 + 1 / 2 ^ 49) * 1) ∧
      (Rounded.dist R (R.mul (x : α) resolution) (R.mul (y : α) resolution) mouseX mouseY
          < 150 →
        (1 - 1 / 2 ^ 49) * (9 / 4) ≤ v.magSq ∧ v.magSq ≤ (1 + 1 / 2 ^ 49) * (9 / 4)) := by
  obtain ⟨v, hv, -, hvle, hvge⟩ := h.setMag_of_pos
    (h.fromAngle_magSq_pos hS (R.mul (R.mul (R.noise xoff yoff zoff) R.TWO_PI) 4)) 1
  have e1 : (1 : α) * 1 = 1 := one_mul 1
  have e2 : (3 / 2 : α) * (3 / 2) = 9 / 4 := by norm_num
  by_cases hd : Rounded.dist R (R.mul (x : α) resolution) (R.mul (y : α) resolution)
      mouseX mouseY < 150
  · obtain ⟨m, hm, hmle⟩ := h.normalize_any
      ⟨R.sub mouseX (R.mul (x : α) resolution), R.sub mouseY (R.mul (y : α) resolution)⟩
    have hd0 : 0 ≤ Rounded.dist R (R.mul (x : α) resolution) (R.mul (y : α) resolution)
        mouseX mouseY := hS.hypot_nonneg _ _
    obtain ⟨influence, hmap, hi⟩ := h.pointer_influence hd0 hd
    have hv97 : 97 / 100 ≤ v.magSq := by
      have h6 := h.pow_sub_ge (le_refl 6)
      have h4 := h.pow_add_le (by norm_num : 4 ≤ 10)
      have hvn := v.magSq_nonneg
      have h44 : 0 < (1 + u) ^ 4 := pow_pos h.one_add_pos 4
      nlinarith
    have hw := h.sub_magSq_pos hv97 (h.repulsion_magSq_le hmle hi)
    obtain ⟨r, hr, -, hrle, hrge⟩ := h.setMag_of_pos (h.normalize_magSq_pos hw) (3 / 2)
    rw [e2] at hrle hrge
    refine ⟨r, ?_, fun hn => absurd hd hn, fun _ =>
      h.setMag_tolerance hu (by norm_num) r.magSq_nonneg hrle hrge⟩
    unfold Rounded.cellVector
    dsimp only
    rw [hv, Option.some_bind, if_pos hd, hm, Option.some_bind, hmap, Option.some_bind,
      h.normalize_of_pos hw, Option.some_bind, hr]
  · rw [e1] at hvle hvge
    refine ⟨v, ?_, fun _ => h.setMag_tolerance hu (by norm_num) v.magSq_nonneg hvle hvge,
      fun hn => absurd hn hd⟩
    unfold Rounded.cellVector
    dsimp only
    rw [hv, Option.some_bind, if_neg hd]

end RoundedCell

/-! ## The content of the flow field on the doubles -/

section RoundedField

variable {α : Type} [LinearOrderedField α] [FloorRing α]

/-- The state of the inner loop after the columns `0, …, n - 1` of row `y`,
the index stride being the natural `c`. -/
theorem Rounded.row_fold (R : FP α) (width mouseX mouseY yoff zoff : α) (c : ℕ)
    (hc : floor (R.rnd (width / resolution)) = (c : ℤ)) (y : ℕ)
    (field : List (Option (Option (Vec α)))) (n : ℕ) :
    ((List.range n).foldl
      (fun (st : List (Option (Option (Vec α))) × α) (x : ℕ) =>
        (arraySet st.1 ((x : ℤ) + (y : ℤ) * floor (R.rnd (width / resolution)))
          (Rounded.cellVector R mouseX mouseY st.2 yoff zoff x y), R.add st.2 (R.lit (1 / 10))))
      (field, 0)).2 = Rounded.offset R n ∧
    (∀ col < n, arrayGet ((List.range n).foldl
      (fun (st : List (Option (Option (Vec α))) × α) (x : ℕ) =>
        (arraySet st.1 ((x : ℤ) + (y : ℤ) * floor (R.rnd (width / resolution)))
          (Rounded.cellVector R mouseX mouseY st.2 yoff zoff x y), R.add st.2 (R.lit (1 / 10))))
      (field, 0)).1 ((col + y * c : ℕ) : ℤ) =
        some (Rounded.cellVector R mouseX mouseY (Rounded.offset R col) yoff zoff col y)) ∧
    (∀ j : ℕ, (∀ x < n, j ≠ x + y * c) → arrayGet ((List.range n).foldl
      (fun (st : List (Option (Option (Vec α))) × α) (x : ℕ) =>
        (arraySet st.1 ((x : ℤ) + (y : ℤ) * floor (R.rnd (width / resolution)))
          (Rounded.cellVector R mouseX mouseY st.2 yoff zoff x y), R.add st.2 (R.lit (1 / 10))))
      (field, 0)).1 (j : ℤ) = arrayGet field (j : ℤ)) := by
  induction n with
  | zero =>
    refine ⟨rfl, fun col h => absurd h (Nat.not_lt_zero _), fun j _ => rfl⟩
  | succ n ih =>
    obtain ⟨ih1, ih2, ih3⟩ := ih
    have hidx : (n : ℤ) + (y : ℤ) * floor (R.rnd (width / resolution)) =
        ((n + y * c : ℕ) : ℤ) := by
      rw [hc]; push_cast; ring
    rw [List.range_succ, List.foldl_append]
    simp only [List.foldl_cons, List.foldl_nil]
    rw [hidx, ih1]
    refine ⟨rfl, ?_, ?_⟩
    · intro col hcol
      by_cases h : col = n
      · rw [h]
        exact arrayGet_arraySet_eq _ _ _
      · rw [arrayGet_arraySet_ne _ _ _ (by omega)]
        exact ih2 col (by omega)
    · intro j hj
      rw [arrayGet_arraySet_ne _ _ _ (hj n (Nat.lt_succ_self n))]
      exact ih3 j (fun x hx => hj x (Nat.lt_succ_of_lt hx))

/-- After the inner loop for row `y`, the slot of each visited cell holds the
vector of that cell. -/
theorem Rounded.row_get (R : FP α) (width mouseX mouseY yoff zoff : α) (y : ℕ)
    (field : List (Option (Option (Vec α)))) (col : ℕ)
    (hcol : (col : α) < R.rnd (width / resolution)) :
    arrayGet (Rounded.rebuildRow R width mouseX mouseY yoff zoff y field)
      ((col + y * ⌊R.rnd (width / resolution)⌋₊ : ℕ) : ℤ) =
      some (Rounded.cellVector R mouseX mouseY (Rounded.offset R col) yoff zoff col y) := by
  have hpos : (0 : α) ≤ R.rnd (width / resolution) := le_trans (Nat.cast_nonneg col) hcol.le
  exact (Rounded.row_fold R width mouseX mouseY yoff zoff _ (floor_eq_natFloor hpos) y
    field ⌈R.rnd (width / resolution)⌉₊).2.1 col (Nat.lt_ceil.2 hcol)

/-- The inner loop for row `y` leaves the slots below `y * stride` as they
were. -/
theorem Rounded.row_get_below (R : FP α) (width mouseX mouseY yoff zoff : α) (y : ℕ)
    (field : List (Option (Option (Vec α)))) (j : ℕ)
    (hj : j < y * ⌊R.rnd (width / resolution)⌋₊) :
    arrayGet (Rounded.rebuildRow R width mouseX mouseY yoff zoff y field) (j : ℤ) =
      arrayGet field (j : ℤ) := by
  by_cases hpos : (0 : α) ≤ R.rnd (width / resolution)
  · exact (Rounded.row_fold R width mouseX mouseY yoff zoff _ (floor_eq_natFloor hpos) y
      field ⌈R.rnd (width / resolution)⌉₊).2.2 j (fun x _ => by omega)
  · have : ⌊R.rnd (width / resolution)⌋₊ = 0 := Nat.floor_of_nonpos (le_of_lt (not_le.1 hpos))
    rw [this] at hj
    omega

/-- The state of the rebuild after the rows `0, …, n - 1`: the slot of each
cell `(col, row)` with `col` below the stride holds the vector of that
cell. -/
theorem Rounded.field_fold (R : FP α) (width mouseX mouseY zoff : α)
    (field : List (Option (Option (Vec α)))) (n : ℕ) :
    ((List.range n).foldl
      (fun (st : List (Option (Option (Vec α))) × α) (y : ℕ) =>
        (Rounded.rebuildRow R width mouseX mouseY st.2 zoff y st.1,
          R.add st.2 (R.lit (1 / 10))))
      (field, 0)).2 = Rounded.offset R n ∧
    (∀ row < n, ∀ col < ⌊R.rnd (width / resolution)⌋₊, arrayGet ((List.range n).foldl
      (fun (st : List (Option (Option (Vec α))) × α) (y : ℕ) =>
        (Rounded.rebuildRow R width mouseX mouseY st.2 zoff y st.1,
          R.add st.2 (R.lit (1 / 10))))
      (field, 0)).1 ((col + row * ⌊R.rnd (width / resolution)⌋₊ : ℕ) : ℤ) =
        some (Rounded.cellVector R mouseX mouseY (Rounded.offset R col) (Rounded.offset R row)
          zoff col row)) := by
  induction n with
  | zero => exact ⟨rfl, fun row h => absurd h (Nat.not_lt_zero _)⟩
  | succ n ih =>
    obtain ⟨ih1, ih2⟩ := ih
    rw [List.range_succ, List.foldl_append]
    simp only [List.foldl_cons, List.foldl_nil]
    rw [ih1]
    refine ⟨rfl, ?_⟩
    intro row hrow col hcol
    by_cases h : row = n
    · rw [h]
      apply Rounded.row_get
      have h1 : ((col + 1 : ℕ) : α) ≤ R.rnd (width / resolution) :=
        (Nat.le_floor_iff' (Nat.succ_ne_zero col)).1 hcol
      push_cast at h1
      linarith
    · have hlt : row + 1 ≤ n := by omega
      have hmul := Nat.mul_le_mul_right ⌊R.rnd (width / resolution)⌋₊ hlt
      rw [Rounded.row_get_below _ _ _ _ _ _ _ _ _ (by
        rw [Nat.add_mul, Nat.one_mul] at hmul; omega)]
      exact ih2 row (by omega) col hcol

/-- After the rebuild, the slot `col + row * floor(width / 20)` of a cell with
`col < floor(width / 20)` in a visited row holds the vector computed for
that cell, at the noise offsets the loops have reached. -/
theorem Rounded.field_get (R : FP α) (width height mouseX mouseY zoff : α)
    (field : List (Option (Option (Vec α)))) (col row : ℕ)
    (hcol : col < ⌊R.rnd (width / resolution)⌋₊)
    (hrow : (row : α) < R.rnd (height / resolution)) :
    arrayGet (Rounded.rebuildFlowField R width height mouseX mouseY zoff field)
      ((col : ℤ) + (row : ℤ) * floor (R.rnd (width / resolution))) =
      some (Rounded.cellVector R mouseX mouseY (Rounded.offset R col) (Rounded.offset R row)
        zoff col row) := by
  have hpos : (0 : α) ≤ R.rnd (width / resolution) := by
    by_contra hneg
    rw [Nat.floor_of_nonpos (le_of_lt (not_le.1 hneg))] at hcol
    exact Nat.not_lt_zero _ hcol
  have hidx : (col : ℤ) + (row : ℤ) * floor (R.rnd (width / resolution)) =
      ((col + row * ⌊R.rnd (width / resolution)⌋₊ : ℕ) : ℤ) := by
    rw [floor_eq_natFloor hpos]; push_cast; ring
  rw [hidx]
  exact (Rounded.field_fold R width mouseX mouseY zoff field
    ⌈R.rnd (height / resolution)⌉₊).2 row (Nat.lt_ceil.2 hrow) col hcol

end RoundedField

/-! ## The distance and the trigonometric functions of the doubles -/

section DoublesSound

theorem round53_nonneg {x : ℝ} (hx : 0 ≤ x) : 0 ≤ round53 x := by
  have h := (abs_le.1 (round53_abs_sub_le x)).1
  rw [abs_of_nonneg hx] at h
  have : (1 / 2 ^ 53 : ℝ) * x ≤ x := by
    have : (1 / 2 ^ 53 : ℝ) ≤ 1 := by norm_num
    nlinarith
  linarith

theorem round53_eq_zero {x : ℝ} (hx : round53 x = 0) : x = 0 := by
  have h := round53_abs_sub_le x
  rw [hx, zero_sub, abs_neg] at h
  by_contra hne
  have hpos : 0 < |x| := abs_pos.2 hne
  have : (1 / 2 ^ 53 : ℝ) * |x| < |x| := by
    have : (1 / 2 ^ 53 : ℝ) < 1 := by norm_num
    nlinarith
  linarith

/-- The doubles with the correctly rounded `Math.hypot`, `Math.cos` and
`Math.sin` meet what the flow field asks of them. -/
theorem doubles_sound (twoPi : ℝ) (noise : ℝ → ℝ → ℝ → ℝ) :
    (doubles Real.sqrt Real.cos Real.sin twoPi noise).Sound where
  hypot_nonneg := fun x y => round53_nonneg (Real.sqrt_nonneg _)
  hypot_zero := by
    show round53 (Real.sqrt ((0 : ℝ) * 0 + 0 * 0)) = 0
    rw [mul_zero, add_zero, Real.sqrt_zero, round53_zero]
  cos_sin_ne := fun a => by
    by_contra hc
    push_neg at hc
    have h1 : Real.cos a = 0 := round53_eq_zero hc.1
    have h2 : Real.sin a = 0 := round53_eq_zero hc.2
    have h3 := Real.sin_sq_add_cos_sq a
    rw [h1, h2] at h3
    norm_num at h3

end DoublesSound

/-! ## The doubles next to `2π`, to a cosine and to a sine -/

section DoublesTrig

/-- A positive number between `lo` and `hi`, both in the binade
`2 ^ (e + 52) ≤ · < 2 ^ (e + 53)` and less than half a step away from the
multiple `k * 2 ^ e`, rounds to that multiple. -/
theorem round53_eq_of_mem (x r lo hi : ℝ) (e k : ℤ) (hlo : lo ≤ x) (hhi : x ≤ hi)
    (h1 : (2 : ℝ) ^ (e + 52) ≤ lo) (h2 : hi < (2 : ℝ) ^ (e + 53))
    (hr : r = (k : ℝ) * (2 : ℝ) ^ e) (h3 : r - (2 : ℝ) ^ e / 2 < lo)
    (h4 : hi < r + (2 : ℝ) ^ e / 2) : round53 x = r := by
  have hx0 : 0 < x := lt_of_lt_of_le (zpow_pos (by norm_num) _) (h1.trans hlo)
  apply round53_eq x r e k
  · rw [abs_of_pos hx0]
    linarith
  · rw [abs_of_pos hx0]
    linarith
  · exact hr
  · rw [abs_lt]
    constructor <;> linarith

/-- `TWO_PI` on the doubles is `6.283185307179586`. -/
theorem round53_two_pi : round53 (2 * Real.pi) = 884279719003555 / 140737488355328 := by
  have hp1 := Real.pi_gt_d20
  have hp2 := Real.pi_lt_d20
  apply round53_eq_of_mem _ _ (2 * 3.14159265358979323846) (2 * 3.14159265358979323847)
    (-50) 7074237752028440
  · linarith
  · linarith
  · norm_num
  · norm_num
  · norm_num
  · norm_num
  · norm_num

end DoublesTrig

/-! ## The magnitude of the flow-field vectors on the doubles -/

section RoundedFieldMagnitude

variable {α : Type} [LinearOrderedField α] [FloorRing α]

/-- The computed distance of the pointer `(60, 80)` to the cell `(0, 0)`. -/
theorem doubles_dist_60_80 :
    Rounded.dist (doubles Real.sqrt Real.cos Real.sin (2 * Real.pi) (fun _ _ _ => 0))
      (FP.mul (doubles Real.sqrt Real.cos Real.sin (2 * Real.pi) (fun _ _ _ => 0)) ((0 : ℕ) : ℝ) resolution)
      (FP.mul (doubles Real.sqrt Real.cos Real.sin (2 * Real.pi) (fun _ _ _ => 0)) ((0 : ℕ) : ℝ) resolution)
      60 80 = 100 := by
  have h1 : round53 (100 / 20 : ℝ) = 5 := by
    apply round53_eq _ _ (-50) (5629499534213120)
    · norm_num [le_abs]
    · norm_num [abs_lt]
    · norm_num
    · norm_num [abs_lt]
  have h2 : round53 (60 - 0 : ℝ) = 60 := by
    apply round53_eq _ _ (-47) (8444249301319680)
    · norm_num [le_abs]
    · norm_num [abs_lt]
    · norm_num
    · norm_num [abs_lt]
  have h3 : round53 (80 - 0 : ℝ) = 80 := by
    apply round53_eq _ _ (-46) (5629499534213120)
    · norm_num [le_abs]
    · norm_num [abs_lt]
    · norm_num
    · norm_num [abs_lt]
  have h4 : round53 (Real.sqrt (60 * 60 + 80 * 80 : ℝ)) = 100 := by
    apply round53_sqrt_eq _ _ (-46) (7036874417766400) <;> norm_num
  show round53 (Real.sqrt (round53 ((60 : ℝ) - round53 (((0 : ℕ) : ℝ) * 20)) *
      round53 ((60 : ℝ) - round53 (((0 : ℕ) : ℝ) * 20)) +
    round53 ((80 : ℝ) - round53 (((0 : ℕ) : ℝ) * 20)) *
      round53 ((80 : ℝ) - round53 (((0 : ℕ) : ℝ) * 20)))) = 100
  rw [Nat.cast_zero, zero_mul, round53_zero]
  simp only [h1, h2, h3, h4]

/-- C8 (amended): on numbers whose operations round with a relative error of
at most `2⁻⁵³` (the doubles, overflow and underflow apart), with a distance
that is not negative and a cosine and a sine that are not both `0`: for every
noise source, pointer position and grid cell `(col, row)`
(`col < floor(width/20)`, `row < floor(height/20)`), after the flow-field
rebuild of `draw()` the slot of the cell holds a vector of numbers (no
division by `0` occurs, the perturbed vector is not zero before it is
renormalised) whose squared magnitude is `1` up to the factors `1 ± 2⁻⁴⁹`
when the computed distance from `(col * 20, row * 20)` to the pointer is not
less than `150`, and `2.25` up to the same factors when it is less than `150`:
the magnitudes are `1` and `1.5` up to the rounding, not exactly. The same
holds for the vector computed for any cell at any noise offsets. -/
theorem flowField_vector_mag_rounded (R : FP α) (u : α) (h : R.Accurate u)
    (hu : u ≤ 1 / 2 ^ 53) (hS : R.Sound) (mouseX mouseY : α) :
    (∀ (width height zoff : α) (field : List (Option (Option (Vec α)))) (col row : ℕ),
      col < ⌊R.rnd (width / resolution)⌋₊ → row < ⌊R.rnd (height / resolution)⌋₊ →
      ∃ v, arrayGet (Rounded.rebuildFlowField R width height mouseX mouseY zoff field)
          ((col : ℤ) + (row : ℤ) * floor (R.rnd (width / resolution))) = some (some v) ∧
        (¬ Rounded.dist R (R.mul (col : α) resolution) (R.mul (row : α) resolution)
            mouseX mouseY < 150 →
          (1 - 1 / 2 ^ 49) * 1 ≤ v.magSq ∧ v.magSq ≤ (1 + 1 / 2 ^ 49) * 1) ∧
        (Rounded.dist R (R.mul (col : α) resolution) (R.mul (row : α) resolution)
            mouseX mouseY < 150 →
          (1 - 1 / 2 ^ 49) * (9 / 4) ≤ v.magSq ∧ v.magSq ≤ (1 + 1 / 2 ^ 49) * (9 / 4))) ∧
    (∀ (xoff yoff zoff : α) (x y : ℕ),
      ∃ v, Rounded.cellVector R mouseX mouseY xoff yoff zoff x y = some v ∧
        (¬ Rounded.dist R (R.mul (x : α) resolution) (R.mul (y : α) resolution)
            mouseX mouseY < 150 →
          (1 - 1 / 2 ^ 49) * 1 ≤ v.magSq ∧ v.magSq ≤ (1 + 1 / 2 ^ 49) * 1) ∧
        (Rounded.dist R (R.mul (x : α) resolution) (R.mul (y : α) resolution)
            mouseX mouseY < 150 →
          (1 - 1 / 2 ^ 49) * (9 / 4) ≤ v.magSq ∧ v.magSq ≤ (1 + 1 / 2 ^ 49) * (9 / 4))) := by
  constructor
  · intro width height zoff field col row hcol hrow
    have hrow' : (row : α) < R.rnd (height / resolution) := by
      have h1 : ((row + 1 : ℕ) : α) ≤ R.rnd (height / resolution) :=
        (Nat.le_floor_iff' (Nat.succ_ne_zero row)).1 hrow
      push_cast at h1
      linarith
    obtain ⟨v, hv, hb⟩ := h.cellVector_magSq hu hS mouseX mouseY (Rounded.offset R col)
      (Rounded.offset R row) zoff col row
    refine ⟨v, ?_, hb⟩
    rw [Rounded.field_get R width height mouseX mouseY zoff field col row hcol hrow',
      hv]
  · intro xoff yoff zoff x y
    exact h.cellVector_magSq hu hS mouseX mouseY xoff yoff zoff x y

/-- Witness of C8 (amended) on the doubles: the cell `(0, 0)` of a
`100 × 100` canvas with the pointer at `(60, 80)`, at the distance `100`. -/
theorem flowField_vector_mag_rounded_witness :
    ∃ v, arrayGet (Rounded.rebuildFlowField
          (doubles Real.sqrt Real.cos Real.sin (2 * Real.pi) (fun _ _ _ => 0))
          100 100 60 80 0 (newArray 25))
        (((0 : ℕ) : ℤ) + ((0 : ℕ) : ℤ) * floor (round53 ((100 : ℝ) / resolution))) =
          some (some v) ∧
      (1 - 1 / 2 ^ 49) * (9 / 4) ≤ v.magSq ∧ v.magSq ≤ (1 + 1 / 2 ^ 49) * (9 / 4) := by
  have h1 : round53 (100 / 20 : ℝ) = 5 := by
    apply round53_eq _ _ (-50) (5629499534213120)
    · norm_num [le_abs]
    · norm_num [abs_lt]
    · norm_num
    · norm_num [abs_lt]
  have h2 : round53 (60 - 0 : ℝ) = 60 := by
    apply round53_eq _ _ (-47) (8444249301319680)
    · norm_num [le_abs]
    · norm_num [abs_lt]
    · norm_num
    · norm_num [abs_lt]
  have h3 : round53 (80 - 0 : ℝ) = 80 := by
    apply round53_eq _ _ (-46) (5629499534213120)
    · norm_num [le_abs]
    · norm_num [abs_lt]
    · norm_num
    · norm_num [abs_lt]
  have h4 : round53 (Real.sqrt (60 * 60 + 80 * 80 : ℝ)) = 100 := by
    apply round53_sqrt_eq _ _ (-46) (7036874417766400) <;> norm_num
  have hq : round53 ((100 : ℝ) / resolution) = 5 := by
    show round53 ((100 : ℝ) / 20) = 5
    simp only [h1, h2, h3, h4]
  have hfl : 0 < ⌊FP.rnd (doubles Real.sqrt Real.cos Real.sin (2 * Real.pi) (fun _ _ _ => 0))
      ((100 : ℝ) / resolution)⌋₊ := by
    show 0 < ⌊round53 ((100 : ℝ) / resolution)⌋₊
    rw [hq, Nat.floor_pos]
    norm_num
  obtain ⟨v, hv, _, hnear⟩ :=
    (flowField_vector_mag_rounded
      (doubles Real.sqrt Real.cos Real.sin (2 * Real.pi) (fun _ _ _ => 0)) _
      (doubles_accurate _ _ _ _) le_rfl (doubles_sound _ _) 60 80).1 100 100 0 (newArray 25)
      0 0 hfl hfl
  exact ⟨v, hv, hnear (by rw [doubles_dist_60_80]; norm_num)⟩

end RoundedFieldMagnitude

section RoundedFieldExample

/-- C8 (counterexample): on the doubles, with the noise value `0` (angle `0`,
base vector `(1, 0)`) and the pointer at `(60, 80)`, at the distance `100`
from the cell `(0, 0)` of a `100 × 100` canvas, the rebuild stores in the
slot of that cell the vector
`(1.453846153846154, -0.36923076923076936)`: `mag()` computes
`1.5000000000000002` for it, and the sum of the squares of the two doubles is
larger than `2.25`, so the magnitude is not exactly `1.5`. -/
theorem cellVector_mag_ne_three_halves :
    arrayGet (Rounded.rebuildFlowField
          (doubles Real.sqrt Real.cos Real.sin (2 * Real.pi) (fun _ _ _ => 0))
          100 100 60 80 0 (newArray 25))
        (((0 : ℕ) : ℤ) + ((0 : ℕ) : ℤ) * floor (round53 ((100 : ℝ) / resolution))) =
      some (some ⟨409221312294723 / 281474976710656, (-(3325735109442829 / 9007199254740992))⟩) ∧
    Rounded.cellVector (doubles Real.sqrt Real.cos Real.sin (2 * Real.pi) (fun _ _ _ => 0))
        60 80 0 0 0 0 0 =
      some ⟨409221312294723 / 281474976710656, (-(3325735109442829 / 9007199254740992))⟩ ∧
    Rounded.dist (doubles Real.sqrt Real.cos Real.sin (2 * Real.pi) (fun _ _ _ => 0))
        (FP.mul (doubles Real.sqrt Real.cos Real.sin (2 * Real.pi) (fun _ _ _ => 0)) ((0 : ℕ) : ℝ) resolution)
        (FP.mul (doubles Real.sqrt Real.cos Real.sin (2 * Real.pi) (fun _ _ _ => 0)) ((0 : ℕ) : ℝ) resolution)
        60 80 = 100 ∧
    Rounded.mag (doubles Real.sqrt Real.cos Real.sin (2 * Real.pi) (fun _ _ _ => 0))
        ⟨409221312294723 / 281474976710656, (-(3325735109442829 / 9007199254740992))⟩ =
      6755399441055745 / 4503599627370496 ∧
    (6755399441055745 / 4503599627370496 : ℝ) ≠ 3 / 2 ∧
    (3 / 2 : ℝ) * (3 / 2) <
      (⟨409221312294723 / 281474976710656, (-(3325735109442829 / 9007199254740992))⟩ : Vec ℝ).magSq := by
  have h1 : round53 (1 : ℝ) = 1 := by
    apply round53_eq _ _ (-52) (4503599627370496)
    · norm_num [le_abs]
    · norm_num [abs_lt]
    · norm_num
    · norm_num [abs_lt]
  have h2 : round53 (1 * 1 : ℝ) = 1 := by
    apply round53_eq _ _ (-52) (4503599627370496)
    · norm_num [le_abs]
    · norm_num [abs_lt]
    · norm_num
    · norm_num [abs_lt]
  have h3 : round53 (1 * 0 : ℝ) = 0 := by
    have e : (1 * 0 : ℝ) = 0 := by norm_num
    rw [e, round53_zero]
  have h4 : round53 (0 * 0 : ℝ) = 0 := by
    have e : (0 * 0 : ℝ) = 0 := by norm_num
    rw [e, round53_zero]
  have h5 : round53 (1 + 0 : ℝ) = 1 := by
    apply round53_eq _ _ (-52) (4503599627370496)
    · norm_num [le_abs]
    · norm_num [abs_lt]
    · norm_num
    · norm_num [abs_lt]
  have h6 : round53 (Real.sqrt (1 : ℝ)) = 1 := by
    apply round53_sqrt_eq _ _ (-52) (4503599627370496) <;> norm_num
  have h7 : round53 (1 / 1 : ℝ) = 1 := by
    apply round53_eq _ _ (-52) (4503599627370496)
    · norm_num [le_abs]
    · norm_num [abs_lt]
    · norm_num
    · norm_num [abs_lt]
  have h8 : round53 (0 * 1 : ℝ) = 0 := by
    have e : (0 * 1 : ℝ) = 0 := by norm_num
    rw [e, round53_zero]
  have h9 : round53 (60 - 0 : ℝ) = 60 := by
    apply round53_eq _ _ (-47) (8444249301319680)
    · norm_num [le_abs]
    · norm_num [abs_lt]
    · norm_num
    · norm_num [abs_lt]
  have h10 : round53 (80 - 0 : ℝ) = 80 := by
    apply round53_eq _ _ (-46) (5629499534213120)
    · norm_num [le_abs]
    · norm_num [abs_lt]
    · norm_num
    · norm_num [abs_lt]
  have h11 : round53 (Real.sqrt (60 * 60 + 80 * 80 : ℝ)) = 100 := by
    apply round53_sqrt_eq _ _ (-46) (7036874417766400) <;> norm_num
  have h12 : round53 (60 * 60 : ℝ) = 3600 := by
    apply round53_eq _ _ (-41) (7916483719987200)
    · norm_num [le_abs]
    · norm_num [abs_lt]
    · norm_num
    · norm_num [abs_lt]
  have h13 : round53 (80 * 80 : ℝ) = 6400 := by
    apply round53_eq _ _ (-40) (7036874417766400)
    · norm_num [le_abs]
    · norm_num [abs_lt]
    · norm_num
    · norm_num [abs_lt]
  have h14 : round53 (3600 + 6400 : ℝ) = 10000 := by
    apply round53_eq _ _ (-39) (5497558138880000)
    · norm_num [le_abs]
    · norm_num [abs_lt]
    · norm_num
    · norm_num [abs_lt]
  have h15 : round53 (Real.sqrt (10000 : ℝ)) = 100 := by
    apply round53_sqrt_eq _ _ (-46) (7036874417766400) <;> norm_num
  have h16 : round53 (1 / 100 : ℝ) = 5764607523034235 / 576460752303423488 := by
    apply round53_eq _ _ (-59) (5764607523034235)
    · norm_num [le_abs]
    · norm_num [abs_lt]
    · norm_num
    · norm_num [abs_lt]
  have h17 : round53 (60 * (5764607523034235 / 576460752303423488) : ℝ) = 5404319552844595 / 9007199254740992 := by
    apply round53_eq _ _ (-53) (5404319552844595)
    · norm_num [le_abs]
    · norm_num [abs_lt]
    · norm_num
    · norm_num [abs_lt]
  have h18 : round53 (80 * (5764607523034235 / 576460752303423488) : ℝ) = 3602879701896397 / 4503599627370496 := by
    apply round53_eq _ _ (-53) (7205759403792794)
    · norm_num [le_abs]
    · norm_num [abs_lt]
    · norm_num
    · norm_num [abs_lt]
  have h19 : round53 (100 - 0 : ℝ) = 100 := by
    apply round53_eq _ _ (-46) (7036874417766400)
    · norm_num [le_abs]
    · norm_num [abs_lt]
    · norm_num
    · norm_num [abs_lt]
  have h20 : round53 (150 - 0 : ℝ) = 150 := by
    apply round53_eq _ _ (-45) (5277655813324800)
    · norm_num [le_abs]
    · norm_num [abs_lt]
    · norm_num
    · norm_num [abs_lt]
  have h21 : round53 (100 / 150 : ℝ) = 6004799503160661 / 9007199254740992 := by
    apply round53_eq _ _ (-53) (6004799503160661)
    · norm_num [le_abs]
    · norm_num [abs_lt]
    · norm_num
    · norm_num [abs_lt]
  have h22 : round53 (0 - 1 : ℝ) = (-1) := by
    apply round53_eq _ _ (-52) (-4503599627370496)
    · norm_num [le_abs]
    · norm_num [abs_lt]
    · norm_num
    · norm_num [abs_lt]
  have h23 : round53 ((6004799503160661 / 9007199254740992) * (-1) : ℝ) = (-(6004799503160661 / 9007199254740992)) := by
    apply round53_eq _ _ (-53) (-6004799503160661)
    · norm_num [le_abs]
    · norm_num [abs_lt]
    · norm_num
    · norm_num [abs_lt]
  have h24 : round53 ((-(6004799503160661 / 9007199254740992)) + 1 : ℝ) = 3002399751580331 / 9007199254740992 := by
    apply round53_eq _ _ (-54) (6004799503160662)
    · norm_num [le_abs]
    · norm_num [abs_lt]
    · norm_num
    · norm_num [abs_lt]
  have h25 : round53 (8 / 10 : ℝ) = 3602879701896397 / 4503599627370496 := by
    apply round53_eq _ _ (-53) (7205759403792794)
    · norm_num [le_abs]
    · norm_num [abs_lt]
    · norm_num
    · norm_num [abs_lt]
  have h26 : round53 ((3002399751580331 / 9007199254740992) * (3602879701896397 / 4503599627370496) : ℝ) = 2401919801264265 / 9007199254740992 := by
    apply round53_eq _ _ (-54) (4803839602528530)
    · norm_num [le_abs]
    · norm_num [abs_lt]
    · norm_num
    · norm_num [abs_lt]
  have h27 : round53 ((5404319552844595 / 9007199254740992) * (2401919801264265 / 9007199254740992) : ℝ) = 1441151880758559 / 9007199254740992 := by
    apply round53_eq _ _ (-55) (5764607523034236)
    · norm_num [le_abs]
    · norm_num [abs_lt]
    · norm_num
    · norm_num [abs_lt]
  have h28 : round53 ((3602879701896397 / 4503599627370496) * (2401919801264265 / 9007199254740992) : ℝ) = 480383960252853 / 2251799813685248 := by
    apply round53_eq _ _ (-55) (7686143364045648)
    · norm_num [le_abs]
    · norm_num [abs_lt]
    · norm_num
    · norm_num [abs_lt]
  have h29 : round53 (1 - (1441151880758559 / 9007199254740992) : ℝ) = 7566047373982433 / 9007199254740992 := by
    apply round53_eq _ _ (-53) (7566047373982433)
    · norm_num [le_abs]
    · norm_num [abs_lt]
    · norm_num
    · norm_num [abs_lt]
  have h30 : round53 (0 - (480383960252853 / 2251799813685248) : ℝ) = (-(480383960252853 / 2251799813685248)) := by
    apply round53_eq _ _ (-55) (-7686143364045648)
    · norm_num [le_abs]
    · norm_num [abs_lt]
    · norm_num
    · norm_num [abs_lt]
  have h31 : round53 ((7566047373982433 / 9007199254740992) * (7566047373982433 / 9007199254740992) : ℝ) = 6355479794145243 / 9007199254740992 := by
    apply round53_eq _ _ (-53) (6355479794145243)
    · norm_num [le_abs]
    · norm_num [abs_lt]
    · norm_num
    · norm_num [abs_lt]
  have h32 : round53 ((-(480383960252853 / 2251799813685248)) * (-(480383960252853 / 2251799813685248)) : ℝ) = 3279421168659477 / 72057594037927936 := by
    apply round53_eq _ _ (-57) (6558842337318954)
    · norm_num [le_abs]
    · norm_num [abs_lt]
    · norm_num
    · norm_num [abs_lt]
  have h33 : round53 ((6355479794145243 / 9007199254740992) + (3279421168659477 / 72057594037927936) : ℝ) = 3382703720113839 / 4503599627370496 := by
    apply round53_eq _ _ (-53) (6765407440227678)
    · norm_num [le_abs]
    · norm_num [abs_lt]
    · norm_num
    · norm_num [abs_lt]
  have h34 : round53 (Real.sqrt (3382703720113839 / 4503599627370496 : ℝ)) = 7806239354108859 / 9007199254740992 := by
    apply round53_sqrt_eq _ _ (-53) (7806239354108859) <;> norm_num
  have h35 : round53 (1 / (7806239354108859 / 9007199254740992) : ℝ) = 5196461108504419 / 4503599627370496 := by
    apply round53_eq _ _ (-52) (5196461108504419)
    · norm_num [le_abs]
    · norm_num [abs_lt]
    · norm_num
    · norm_num [abs_lt]
  have h36 : round53 ((7566047373982433 / 9007199254740992) * (5196461108504419 / 4503599627370496) : ℝ) = 136407104098241 / 140737488355328 := by
    apply round53_eq _ _ (-53) (8730054662287424)
    · norm_num [le_abs]
    · norm_num [abs_lt]
    · norm_num
    · norm_num [abs_lt]
  have h37 : round53 ((-(480383960252853 / 2251799813685248)) * (5196461108504419 / 4503599627370496) : ℝ) = (-(4434313479257105 / 18014398509481984)) := by
    apply round53_eq _ _ (-55) (-8868626958514210)
    · norm_num [le_abs]
    · norm_num [abs_lt]
    · norm_num
    · norm_num [abs_lt]
  have h38 : round53 ((136407104098241 / 140737488355328) * (136407104098241 / 140737488355328) : ℝ) = 528839849734719 / 562949953421312 := by
    apply round53_eq _ _ (-53) (8461437595755504)
    · norm_num [le_abs]
    · norm_num [abs_lt]
    · norm_num
    · norm_num [abs_lt]
  have h39 : round53 ((-(4434313479257105 / 18014398509481984)) * (-(4434313479257105 / 18014398509481984)) : ℝ) = 272880829492745 / 4503599627370496 := by
    apply round53_eq _ _ (-57) (8732186543767840)
    · norm_num [le_abs]
    · norm_num [abs_lt]
    · norm_num
    · norm_num [abs_lt]
  have h40 : round53 ((528839849734719 / 562949953421312) + (272880829492745 / 4503599627370496) : ℝ) = 4503599627370497 / 4503599627370496 := by
    apply round53_eq _ _ (-52) (4503599627370497)
    · norm_num [le_abs]
    · norm_num [abs_lt]
    · norm_num
    · norm_num [abs_lt]
  have h41 : round53 (Real.sqrt (4503599627370497 / 4503599627370496 : ℝ)) = 1 := by
    apply round53_sqrt_eq _ _ (-52) (4503599627370496) <;> norm_num
  have h42 : round53 ((136407104098241 / 140737488355328) * 1 : ℝ) = 136407104098241 / 140737488355328 := by
    apply round53_eq _ _ (-53) (8730054662287424)
    · norm_num [le_abs]
    · norm_num [abs_lt]
    · norm_num
    · norm_num [abs_lt]
  have h43 : round53 ((-(4434313479257105 / 18014398509481984)) * 1 : ℝ) = (-(4434313479257105 / 18014398509481984)) := by
    apply round53_eq _ _ (-55) (-8868626958514210)
    · norm_num [le_abs]
    · norm_num [abs_lt]
    · norm_num
    · norm_num [abs_lt]
  have h44 : round53 ((136407104098241 / 140737488355328) * (3 / 2) : ℝ) = 409221312294723 / 281474976710656 := by
    apply round53_eq _ _ (-52) (6547540996715568)
    · norm_num [le_abs]
    · norm_num [abs_lt]
    · norm_num
    · norm_num [abs_lt]
  have h45 : round53 ((-(4434313479257105 / 18014398509481984)) * (3 / 2) : ℝ) = (-(3325735109442829 / 9007199254740992)) := by
    apply round53_tie _ _ (-54) (-6651470218885658) (-6651470218885658)
    · norm_num [le_abs]
    · norm_num [abs_lt]
    · norm_num
    · norm_num
    · norm_num
    · norm_num
  have h46 : round53 ((409221312294723 / 281474976710656) * (409221312294723 / 281474976710656) : ℝ) = 4759558647612471 / 2251799813685248 := by
    apply round53_eq _ _ (-51) (4759558647612471)
    · norm_num [le_abs]
    · norm_num [abs_lt]
    · norm_num
    · norm_num [abs_lt]
  have h47 : round53 ((-(3325735109442829 / 9007199254740992)) * (-(3325735109442829 / 9007199254740992)) : ℝ) = 4911854930869411 / 36028797018963968 := by
    apply round53_eq _ _ (-55) (4911854930869411)
    · norm_num [le_abs]
    · norm_num [abs_lt]
    · norm_num
    · norm_num [abs_lt]
  have h48 : round53 ((4759558647612471 / 2251799813685248) + (4911854930869411 / 36028797018963968) : ℝ) = 5066549580791809 / 2251799813685248 := by
    apply round53_eq _ _ (-51) (5066549580791809)
    · norm_num [le_abs]
    · norm_num [abs_lt]
    · norm_num
    · norm_num [abs_lt]
  have h49 : round53 (Real.sqrt (5066549580791809 / 2251799813685248 : ℝ)) = 6755399441055745 / 4503599627370496 := by
    apply round53_sqrt_eq _ _ (-52) (6755399441055745) <;> norm_num
  have h50 : round53 (100 / 20 : ℝ) = 5 := by
    apply round53_eq _ _ (-50) (5629499534213120)
    · norm_num [le_abs]
    · norm_num [abs_lt]
    · norm_num
    · norm_num [abs_lt]
  have hang : FP.mul (doubles Real.sqrt Real.cos Real.sin (2 * Real.pi) (fun _ _ _ => 0))
      (FP.mul (doubles Real.sqrt Real.cos Real.sin (2 * Real.pi) (fun _ _ _ => 0)) (0 : ℝ)
        (round53 (2 * Real.pi))) 4 = 0 := by
    show round53 (round53 ((0 : ℝ) * round53 (2 * Real.pi)) * 4) = 0
    rw [zero_mul, round53_zero, zero_mul, round53_zero]
  have hv0 : Rounded.fromAngle (doubles Real.sqrt Real.cos Real.sin (2 * Real.pi) (fun _ _ _ => 0)) 0 = ⟨1, 0⟩ := by
    show (⟨round53 (1 * round53 (Real.cos 0)), round53 (1 * round53 (Real.sin 0))⟩ : Vec ℝ) = _
    rw [Real.cos_zero, Real.sin_zero, round53_zero]
    simp only [h1, h2, h3, h4, h5, h6, h7, h8, h9, h10, h11, h12, h13, h14, h15, h16, h17, h18, h19, h20, h21, h22, h23, h24, h25, h26, h27, h28, h29, h30, h31, h32, h33, h34, h35, h36, h37, h38, h39, h40, h41, h42, h43, h44, h45, h46, h47, h48, h49, h50]
  have hset1m : Rounded.mag (doubles Real.sqrt Real.cos Real.sin (2 * Real.pi) (fun _ _ _ => 0))
      ⟨1, 0⟩ = 1 := by
    show round53 (Real.sqrt (round53 (round53 (1 * 1) + round53 (0 * 0)))) = _
    simp only [h1, h2, h3, h4, h5, h6, h7, h8, h9, h10, h11, h12, h13, h14, h15, h16, h17, h18, h19, h20, h21, h22, h23, h24, h25, h26, h27, h28, h29, h30, h31, h32, h33, h34, h35, h36, h37, h38, h39, h40, h41, h42, h43, h44, h45, h46, h47, h48, h49, h50]
  have hset1 : Rounded.setMag (doubles Real.sqrt Real.cos Real.sin (2 * Real.pi) (fun _ _ _ => 0))
      ⟨1, 0⟩ (1) = some ⟨1, 0⟩ := by
    rw [Rounded.setMag_of_ne _ _ _ (by rw [hset1m]; norm_num), hset1m]
    show some (⟨round53 (round53 (1 * round53 (1 / 1)) * 1), round53 (round53 (0 * round53 (1 / 1)) * 1)⟩ : Vec ℝ) = _
    simp only [h1, h2, h3, h4, h5, h6, h7, h8, h9, h10, h11, h12, h13, h14, h15, h16, h17, h18, h19, h20, h21, h22, h23, h24, h25, h26, h27, h28, h29, h30, h31, h32, h33, h34, h35, h36, h37, h38, h39, h40, h41, h42, h43, h44, h45, h46, h47, h48, h49, h50]
  have hcell : FP.mul (doubles Real.sqrt Real.cos Real.sin (2 * Real.pi) (fun _ _ _ => 0))
      ((0 : ℕ) : ℝ) resolution = 0 := by
    show round53 (((0 : ℕ) : ℝ) * 20) = 0
    rw [Nat.cast_zero, zero_mul, round53_zero]
  have hdx : FP.sub (doubles Real.sqrt Real.cos Real.sin (2 * Real.pi) (fun _ _ _ => 0)) 60 0 = 60 := by
    show round53 ((60 : ℝ) - 0) = _
    simp only [h1, h2, h3, h4, h5, h6, h7, h8, h9, h10, h11, h12, h13, h14, h15, h16, h17, h18, h19, h20, h21, h22, h23, h24, h25, h26, h27, h28, h29, h30, h31, h32, h33, h34, h35, h36, h37, h38, h39, h40, h41, h42, h43, h44, h45, h46, h47, h48, h49, h50]
  have hdy : FP.sub (doubles Real.sqrt Real.cos Real.sin (2 * Real.pi) (fun _ _ _ => 0)) 80 0 = 80 := by
    show round53 ((80 : ℝ) - 0) = _
    simp only [h1, h2, h3, h4, h5, h6, h7, h8, h9, h10, h11, h12, h13, h14, h15, h16, h17, h18, h19, h20, h21, h22, h23, h24, h25, h26, h27, h28, h29, h30, h31, h32, h33, h34, h35, h36, h37, h38, h39, h40, h41, h42, h43, h44, h45, h46, h47, h48, h49, h50]
  have hdist : Rounded.dist (doubles Real.sqrt Real.cos Real.sin (2 * Real.pi) (fun _ _ _ => 0)) 0 0 60 80 = 100 := by
    show round53 (Real.sqrt (round53 ((60 : ℝ) - 0) * round53 ((60 : ℝ) - 0) +
      round53 ((80 : ℝ) - 0) * round53 ((80 : ℝ) - 0))) = _
    simp only [h1, h2, h3, h4, h5, h6, h7, h8, h9, h10, h11, h12, h13, h14, h15, h16, h17, h18, h19, h20, h21, h22, h23, h24, h25, h26, h27, h28, h29, h30, h31, h32, h33, h34, h35, h36, h37, h38, h39, h40, h41, h42, h43, h44, h45, h46, h47, h48, h49, h50]
  have hmvm : Rounded.mag (doubles Real.sqrt Real.cos Real.sin (2 * Real.pi) (fun _ _ _ => 0))
      ⟨60, 80⟩ = 100 := by
    show round53 (Real.sqrt (round53 (round53 (60 * 60) + round53 (80 * 80)))) = _
    simp only [h1, h2, h3, h4, h5, h6, h7, h8, h9, h10, h11, h12, h13, h14, h15, h16, h17, h18, h19, h20, h21, h22, h23, h24, h25, h26, h27, h28, h29, h30, h31, h32, h33, h34, h35, h36, h37, h38, h39, h40, h41, h42, h43, h44, h45, h46, h47, h48, h49, h50]
  have hmv : Rounded.normalize (doubles Real.sqrt Real.cos Real.sin (2 * Real.pi) (fun _ _ _ => 0))
      ⟨60, 80⟩ = some ⟨5404319552844595 / 9007199254740992, 3602879701896397 / 4503599627370496⟩ := by
    rw [Rounded.normalize_of_ne _ _ (by rw [hmvm]; norm_num), hmvm]
    show some (⟨round53 (60 * round53 (1 / 100)), round53 (80 * round53 (1 / 100))⟩ : Vec ℝ) = _
    simp only [h1, h2, h3, h4, h5, h6, h7, h8, h9, h10, h11, h12, h13, h14, h15, h16, h17, h18, h19, h20, h21, h22, h23, h24, h25, h26, h27, h28, h29, h30, h31, h32, h33, h34, h35, h36, h37, h38, h39, h40, h41, h42, h43, h44, h45, h46, h47, h48, h49, h50]
  have h150 : FP.sub (doubles Real.sqrt Real.cos Real.sin (2 * Real.pi) (fun _ _ _ => 0)) 150 0 = 150 := by
    show round53 ((150 : ℝ) - 0) = _
    simp only [h1, h2, h3, h4, h5, h6, h7, h8, h9, h10, h11, h12, h13, h14, h15, h16, h17, h18, h19, h20, h21, h22, h23, h24, h25, h26, h27, h28, h29, h30, h31, h32, h33, h34, h35, h36, h37, h38, h39, h40, h41, h42, h43, h44, h45, h46, h47, h48, h49, h50]
  have hinfl : Rounded.map (doubles Real.sqrt Real.cos Real.sin (2 * Real.pi) (fun _ _ _ => 0)) 100 0 150 1 0 = some (3002399751580331 / 9007199254740992) := by
    rw [Rounded.map_of_ne _ _ _ _ _ _ (by rw [h150]; norm_num), h150]
    show some (round53 (round53 (round53 (round53 ((100 : ℝ) - 0) / 150) * round53 (0 - 1)) + 1)) = _
    simp only [h1, h2, h3, h4, h5, h6, h7, h8, h9, h10, h11, h12, h13, h14, h15, h16, h17, h18, h19, h20, h21, h22, h23, h24, h25, h26, h27, h28, h29, h30, h31, h32, h33, h34, h35, h36, h37, h38, h39, h40, h41, h42, h43, h44, h45, h46, h47, h48, h49, h50]
  have hw : Rounded.sub (doubles Real.sqrt Real.cos Real.sin (2 * Real.pi) (fun _ _ _ => 0)) ⟨1, 0⟩
      (Rounded.mult (doubles Real.sqrt Real.cos Real.sin (2 * Real.pi) (fun _ _ _ => 0))
        ⟨5404319552844595 / 9007199254740992, 3602879701896397 / 4503599627370496⟩
        (FP.mul (doubles Real.sqrt Real.cos Real.sin (2 * Real.pi) (fun _ _ _ => 0)) (3002399751580331 / 9007199254740992)
          (FP.lit (doubles Real.sqrt Real.cos Real.sin (2 * Real.pi) (fun _ _ _ => 0)) (8 / 10)))) =
      ⟨7566047373982433 / 9007199254740992, (-(480383960252853 / 2251799813685248))⟩ := by
    show (⟨round53 (1 - round53 ((5404319552844595 / 9007199254740992) * round53 ((3002399751580331 / 9007199254740992) * round53 (8 / 10)))),
      round53 (0 - round53 ((3602879701896397 / 4503599627370496) * round53 ((3002399751580331 / 9007199254740992) * round53 (8 / 10))))⟩ : Vec ℝ) = _
    simp only [h1, h2, h3, h4, h5, h6, h7, h8, h9, h10, h11, h12, h13, h14, h15, h16, h17, h18, h19, h20, h21, h22, h23, h24, h25, h26, h27, h28, h29, h30, h31, h32, h33, h34, h35, h36, h37, h38, h39, h40, h41, h42, h43, h44, h45, h46, h47, h48, h49, h50]
  have hn2m : Rounded.mag (doubles Real.sqrt Real.cos Real.sin (2 * Real.pi) (fun _ _ _ => 0))
      ⟨7566047373982433 / 9007199254740992, (-(480383960252853 / 2251799813685248))⟩ = 7806239354108859 / 9007199254740992 := by
    show round53 (Real.sqrt (round53 (round53 ((7566047373982433 / 9007199254740992) * (7566047373982433 / 9007199254740992)) + round53 ((-(480383960252853 / 2251799813685248)) * (-(480383960252853 / 2251799813685248)))))) = _
    simp only [h1, h2, h3, h4, h5, h6, h7, h8, h9, h10, h11, h12, h13, h14, h15, h16, h17, h18, h19, h20, h21, h22, h23, h24, h25, h26, h27, h28, h29, h30, h31, h32, h33, h34, h35, h36, h37, h38, h39, h40, h41, h42, h43, h44, h45, h46, h47, h48, h49, h50]
  have hn2 : Rounded.normalize (doubles Real.sqrt Real.cos Real.sin (2 * Real.pi) (fun _ _ _ => 0))
      ⟨7566047373982433 / 9007199254740992, (-(480383960252853 / 2251799813685248))⟩ = some ⟨136407104098241 / 140737488355328, (-(4434313479257105 / 18014398509481984))⟩ := by
    rw [Rounded.normalize_of_ne _ _ (by rw [hn2m]; norm_num), hn2m]
    show some (⟨round53 ((7566047373982433 / 9007199254740992) * round53 (1 / (7806239354108859 / 9007199254740992))), round53 ((-(480383960252853 / 2251799813685248)) * round53 (1 / (7806239354108859 / 9007199254740992)))⟩ : Vec ℝ) = _
    simp only [h1, h2, h3, h4, h5, h6, h7, h8, h9, h10, h11, h12, h13, h14, h15, h16, h17, h18, h19, h20, h21, h22, h23, h24, h25, h26, h27, h28, h29, h30, h31, h32, h33, h34, h35, h36, h37, h38, h39, h40, h41, h42, h43, h44, h45, h46, h47, h48, h49, h50]
  have hset2m : Rounded.mag (doubles Real.sqrt Real.cos Real.sin (2 * Real.pi) (fun _ _ _ => 0))
      ⟨136407104098241 / 140737488355328, (-(4434313479257105 / 18014398509481984))⟩ = 1 := by
    show round53 (Real.sqrt (round53 (round53 ((136407104098241 / 140737488355328) * (136407104098241 / 140737488355328)) + round53 ((-(4434313479257105 / 18014398509481984)) * (-(4434313479257105 / 18014398509481984)))))) = _
    simp only [h1, h2, h3, h4, h5, h6, h7, h8, h9, h10, h11, h12, h13, h14, h15, h16, h17, h18, h19, h20, h21, h22, h23, h24, h25, h26, h27, h28, h29, h30, h31, h32, h33, h34, h35, h36, h37, h38, h39, h40, h41, h42, h43, h44, h45, h46, h47, h48, h49, h50]
  have hset2 : Rounded.setMag (doubles Real.sqrt Real.cos Real.sin (2 * Real.pi) (fun _ _ _ => 0))
      ⟨136407104098241 / 140737488355328, (-(4434313479257105 / 18014398509481984))⟩ (3 / 2) = some ⟨409221312294723 / 281474976710656, (-(3325735109442829 / 9007199254740992))⟩ := by
    rw [Rounded.setMag_of_ne _ _ _ (by rw [hset2m]; norm_num), hset2m]
    show some (⟨round53 (round53 ((136407104098241 / 140737488355328) * round53 (1 / 1)) * (3 / 2)), round53 (round53 ((-(4434313479257105 / 18014398509481984)) * round53 (1 / 1)) * (3 / 2))⟩ : Vec ℝ) = _
    simp only [h1, h2, h3, h4, h5, h6, h7, h8, h9, h10, h11, h12, h13, h14, h15, h16, h17, h18, h19, h20, h21, h22, h23, h24, h25, h26, h27, h28, h29, h30, h31, h32, h33, h34, h35, h36, h37, h38, h39, h40, h41, h42, h43, h44, h45, h46, h47, h48, h49, h50]
  have hmagr : Rounded.mag (doubles Real.sqrt Real.cos Real.sin (2 * Real.pi) (fun _ _ _ => 0))
      ⟨409221312294723 / 281474976710656, (-(3325735109442829 / 9007199254740992))⟩ = 6755399441055745 / 4503599627370496 := by
    show round53 (Real.sqrt (round53 ((round53 ((409221312294723 / 281474976710656) * (409221312294723 / 281474976710656))) + (round53 ((-(3325735109442829 / 9007199254740992)) * (-(3325735109442829 / 9007199254740992))))))) = _
    simp only [h1, h2, h3, h4, h5, h6, h7, h8, h9, h10, h11, h12, h13, h14, h15, h16, h17, h18, h19, h20, h21, h22, h23, h24, h25, h26, h27, h28, h29, h30, h31, h32, h33, h34, h35, h36, h37, h38, h39, h40, h41, h42, h43, h44, h45, h46, h47, h48, h49, h50]
  have hq : round53 ((100 : ℝ) / resolution) = 5 := by
    show round53 ((100 : ℝ) / 20) = 5
    simp only [h1, h2, h3, h4, h5, h6, h7, h8, h9, h10, h11, h12, h13, h14, h15, h16, h17, h18, h19, h20, h21, h22, h23, h24, h25, h26, h27, h28, h29, h30, h31, h32, h33, h34, h35, h36, h37, h38, h39, h40, h41, h42, h43, h44, h45, h46, h47, h48, h49, h50]
  have hvec : Rounded.cellVector (doubles Real.sqrt Real.cos Real.sin (2 * Real.pi) (fun _ _ _ => 0))
      60 80 0 0 0 0 0 = some ⟨409221312294723 / 281474976710656, (-(3325735109442829 / 9007199254740992))⟩ := by
    unfold Rounded.cellVector
    dsimp only
    rw [hcell]
    show ((Rounded.setMag _ (Rounded.fromAngle _ (FP.mul _ (FP.mul _ (0 : ℝ)
      (round53 (2 * Real.pi))) 4)) 1).bind _) = _
    rw [hang, hv0, hset1, Option.some_bind, hdist, if_pos (by norm_num), hdx, hdy, hmv,
      Option.some_bind, hinfl, Option.some_bind, hw, hn2, Option.some_bind, hset2]
  refine ⟨?_, hvec, ?_, hmagr, by norm_num, by norm_num [Vec.magSq]⟩
  · have hget := Rounded.field_get
      (doubles Real.sqrt Real.cos Real.sin (2 * Real.pi) (fun _ _ _ => 0))
      100 100 60 80 0 (newArray 25) 0 0
      (by
        show 0 < ⌊round53 ((100 : ℝ) / resolution)⌋₊
        rw [hq, Nat.floor_pos]
        norm_num)
      (by
        show ((0 : ℕ) : ℝ) < round53 ((100 : ℝ) / resolution)
        rw [hq]
        norm_num)
    exact hget.trans (congrArg some hvec)
  · rw [hcell, hdist]

end RoundedFieldExample

/-! ## The pointer on a grid cell, on the doubles -/

section RoundedPointerOnCell

variable {α : Type} [LinearOrderedField α] {R : FP α} {u : α}

theorem FP.Accurate.rnd_pos (h : R.Accurate u) {x : α} (hx : 0 < x) : 0 < R.rnd x :=
  lt_of_lt_of_le (mul_pos h.one_sub_pos hx) (h.rnd_ge hx.le)

theorem FP.Accurate.inv_mag_pos (h : R.Accurate u) {v : Vec α} (hv : 0 < v.magSq) :
    0 < R.rnd (1 / Rounded.mag R v) :=
  h.rnd_pos (one_div_pos.2 (h.mag_pos hv))

/-- A coordinate scaled by `mult`: one more rounding. -/
theorem FP.Accurate.near_mult (h : R.Accurate u) {k : ℕ} {y t : α} (hy : FP.Near u k y t)
    (n : α) : FP.Near u (k + 1) (R.rnd (y * n)) (t * n) :=
  h.near_rnd (hy.mul_right h.u_nonneg n)

/-- From the count of roundings to the tolerance `2⁻⁴⁹` of the doubles. -/
theorem FP.Accurate.near_tolerance (h : R.Accurate u) (hu : u ≤ 1 / 2 ^ 53) {k : ℕ}
    (hk : k ≤ 10) {y t : α} (hy : FP.Near u k y t) : |y - t| ≤ 1 / 2 ^ 49 * |t| := by
  have h1 : (1 + u) ^ k ≤ (1 + u) ^ 10 := pow_le_pow_right₀ (by linarith [h.u_nonneg]) hk
  have h2 : (1 + u) ^ 10 ≤ (1 + 1 / 2 ^ 53 : α) ^ 10 :=
    pow_le_pow_left₀ h.one_add_pos.le (by linarith) 10
  have h3 : (1 + 1 / 2 ^ 53 : α) ^ 10 - 1 ≤ 1 / 2 ^ 49 := by norm_num
  unfold FP.Near at hy
  exact le_trans hy (mul_le_mul_of_nonneg_right (by linarith) (abs_nonneg _))

/-- C16 (amended): on numbers whose operations round with a relative error
of at most `2⁻⁵³` (the doubles, overflow and underflow apart), with a distance
that is `0` from a point to itself and a cosine and a sine that are not both
`0`: when the pointer is at the canvas position of a grid cell, the
cell-to-pointer vector is the zero vector, its computed length is `0`, and
`normalize` returns it as it is, without a division; the computed distance is
`0`, and the rebuilt vector of the cell is a vector of numbers. It is the
vector `(cos angle, sin angle)` of the runtime scaled by a common positive
factor `S`, each coordinate up to the relative error `2⁻⁴⁹`, and its squared
magnitude is `2.25` up to the factors `1 ± 2⁻⁴⁹`: the direction and the
magnitude `1.5` hold up to the rounding, not exactly. -/
theorem cellVector_pointer_on_cell_rounded (R : FP α) (u : α) (h : R.Accurate u)
    (hu : u ≤ 1 / 2 ^ 53) (hS : R.Sound) (xoff yoff zoff : α) (x y : ℕ) :
    (⟨R.sub (R.mul (x : α) resolution) (R.mul (x : α) resolution),
      R.sub (R.mul (y : α) resolution) (R.mul (y : α) resolution)⟩ : Vec α) = ⟨0, 0⟩ ∧
    Rounded.mag R (⟨0, 0⟩ : Vec α) = 0 ∧
    Rounded.normalize R (⟨0, 0⟩ : Vec α) = some ⟨0, 0⟩ ∧
    Rounded.dist R (R.mul (x : α) resolution) (R.mul (y : α) resolution)
      (R.mul (x : α) resolution) (R.mul (y : α) resolution) = 0 ∧
    ∃ v S, Rounded.cellVector R (R.mul (x : α) resolution) (R.mul (y : α) resolution)
        xoff yoff zoff x y = some v ∧
      0 < S ∧
      |v.x - R.cos (R.mul (R.mul (R.noise xoff yoff zoff) R.TWO_PI) 4) * S| ≤
        1 / 2 ^ 49 * |R.cos (R.mul (R.mul (R.noise xoff yoff zoff) R.TWO_PI) 4) * S| ∧
      |v.y - R.sin (R.mul (R.mul (R.noise xoff yoff zoff) R.TWO_PI) 4) * S| ≤
        1 / 2 ^ 49 * |R.sin (R.mul (R.mul (R.noise xoff yoff zoff) R.TWO_PI) 4) * S| ∧
      (1 - 1 / 2 ^ 49) * (9 / 4) ≤ v.magSq ∧ v.magSq ≤ (1 + 1 / 2 ^ 49) * (9 / 4) := by
  have hmv : (⟨R.sub (R.mul (x : α) resolution) (R.mul (x : α) resolution),
      R.sub (R.mul (y : α) resolution) (R.mul (y : α) resolution)⟩ : Vec α) = ⟨0, 0⟩ := by
    unfold FP.sub
    rw [sub_self, sub_self, h.rnd_zero]
  have hd : Rounded.dist R (R.mul (x : α) resolution) (R.mul (y : α) resolution)
      (R.mul (x : α) resolution) (R.mul (y : α) resolution) = 0 := by
    unfold Rounded.dist FP.sub
    rw [sub_self, sub_self, h.rnd_zero, hS.hypot_zero]
  have hm0 : Rounded.mag R (⟨0, 0⟩ : Vec α) = 0 := by
    unfold Rounded.mag Rounded.magSq FP.add FP.mul
    dsimp only
    rw [mul_zero, h.rnd_zero, add_zero, h.rnd_zero, h.sqrt_of_zero]
  refine ⟨hmv, hm0, h.normalize_zero_vec, hd, ?_⟩
  have hv0 := h.fromAngle_magSq_pos hS (R.mul (R.mul (R.noise xoff yoff zoff) R.TWO_PI) 4)
  obtain ⟨v1, hv1, hv1eq, hvle, hvge⟩ := h.setMag_of_pos hv0 1
  obtain ⟨influence, hmap, -⟩ := h.pointer_influence (le_refl (0 : α)) (by norm_num)
  have ht : Rounded.mult R (⟨0, 0⟩ : Vec α) (R.mul influence (R.lit (8 / 10))) = ⟨0, 0⟩ := by
    unfold Rounded.mult FP.mul
    dsimp only
    rw [zero_mul, h.rnd_zero]
  have hv97 : 97 / 100 ≤ v1.magSq := by
    have h6 := h.pow_sub_ge (le_refl 6)
    have h4 := h.pow_add_le (by norm_num : 4 ≤ 10)
    have hvn := v1.magSq_nonneg
    have h44 : 0 < (1 + u) ^ 4 := pow_pos h.one_add_pos 4
    nlinarith
  have hw := h.sub_magSq_pos (t := (⟨0, 0⟩ : Vec α)) hv97 (by norm_num [Vec.magSq])
  have hw2 := h.normalize_magSq_pos hw
  obtain ⟨r, hr, hreq, hrle, hrge⟩ := h.setMag_of_pos hw2 (3 / 2)
  have e2 : (3 / 2 : α) * (3 / 2) = 9 / 4 := by norm_num
  rw [e2] at hrle hrge
  have hcell : Rounded.cellVector R (R.mul (x : α) resolution) (R.mul (y : α) resolution)
      xoff yoff zoff x y = some r := by
    unfold Rounded.cellVector
    dsimp only
    rw [hv1, Option.some_bind, hd, if_pos (by norm_num), hmv, h.normalize_zero_vec,
      Option.some_bind, hmap, Option.some_bind, ht, h.normalize_of_pos hw, Option.some_bind, hr]
  have hi1 := h.inv_mag_pos hv0
  have hi2 := h.inv_mag_pos hw
  have hi3 := h.inv_mag_pos hw2
  refine ⟨r, R.rnd (1 / Rounded.mag R
      (Rounded.fromAngle R (R.mul (R.mul (R.noise xoff yoff zoff) R.TWO_PI) 4))) * 1 *
    R.rnd (1 / Rounded.mag R (Rounded.sub R v1 ⟨0, 0⟩)) *
    R.rnd (1 / Rounded.mag R (Rounded.mult R (Rounded.sub R v1 ⟨0, 0⟩)
      (R.rnd (1 / Rounded.mag R (Rounded.sub R v1 ⟨0, 0⟩))))) * (3 / 2),
    hcell, by positivity, ?_, ?_, h.setMag_tolerance hu (by norm_num) r.magSq_nonneg hrle hrge⟩
  · have n1 : FP.Near u 1 (R.mul 1 (R.cos (R.mul (R.mul (R.noise xoff yoff zoff) R.TWO_PI) 4)))
        (R.cos (R.mul (R.mul (R.noise xoff yoff zoff) R.TWO_PI) 4)) := by
      unfold FP.mul
      rw [one_mul]
      exact h.near_one _
    have n3 := h.near_mult (h.near_mult n1 (R.rnd (1 / Rounded.mag R
      (Rounded.fromAngle R (R.mul (R.mul (R.noise xoff yoff zoff) R.TWO_PI) 4))))) 1
    have n4 : FP.Near u (1 + 1 + 1 + 1) (Rounded.sub R v1 ⟨0, 0⟩).x
        (R.cos (R.mul (R.mul (R.noise xoff yoff zoff) R.TWO_PI) 4) *
          R.rnd (1 / Rounded.mag R
            (Rounded.fromAngle R (R.mul (R.mul (R.noise xoff yoff zoff) R.TWO_PI) 4))) * 1) := by
      rw [hv1eq]
      unfold Rounded.sub FP.sub
      dsimp only
      rw [sub_zero]
      exact h.near_rnd n3
    have n7 := h.near_mult (h.near_mult (h.near_mult n4
      (R.rnd (1 / Rounded.mag R (Rounded.sub R v1 ⟨0, 0⟩))))
      (R.rnd (1 / Rounded.mag R (Rounded.mult R (Rounded.sub R v1 ⟨0, 0⟩)
        (R.rnd (1 / Rounded.mag R (Rounded.sub R v1 ⟨0, 0⟩))))))) (3 / 2)
    have := h.near_tolerance hu (by norm_num) n7
    have e : R.cos (R.mul (R.mul (R.noise xoff yoff zoff) R.TWO_PI) 4) *
        (R.rnd (1 / Rounded.mag R
          (Rounded.fromAngle R (R.mul (R.mul (R.noise xoff yoff zoff) R.TWO_PI) 4))) * 1 *
        R.rnd (1 / Rounded.mag R (Rounded.sub R v1 ⟨0, 0⟩)) *
        R.rnd (1 / Rounded.mag R (Rounded.mult R (Rounded.sub R v1 ⟨0, 0⟩)
          (R.rnd (1 / Rounded.mag R (Rounded.sub R v1 ⟨0, 0⟩))))) * (3 / 2)) =
        R.cos (R.mul (R.mul (R.noise xoff yoff zoff) R.TWO_PI) 4) *
          R.rnd (1 / Rounded.mag R
            (Rounded.fromAngle R (R.mul (R.mul (R.noise xoff yoff zoff) R.TWO_PI) 4))) * 1 *
          R.rnd (1 / Rounded.mag R (Rounded.sub R v1 ⟨0, 0⟩)) *
          R.rnd (1 / Rounded.mag R (Rounded.mult R (Rounded.sub R v1 ⟨0, 0⟩)
            (R.rnd (1 / Rounded.mag R (Rounded.sub R v1 ⟨0, 0⟩))))) * (3 / 2) := by ring
    rw [hreq, e]
    exact this
  · have n1 : FP.Near u 1 (R.mul 1 (R.sin (R.mul (R.mul (R.noise xoff yoff zoff) R.TWO_PI) 4)))
        (R.sin (R.mul (R.mul (R.noise xoff yoff zoff) R.TWO_PI) 4)) := by
      unfold FP.mul
      rw [one_mul]
      exact h.near_one _
    have n3 := h.near_mult (h.near_mult n1 (R.rnd (1 / Rounded.mag R
      (Rounded.fromAngle R (R.mul (R.mul (R.noise xoff yoff zoff) R.TWO_PI) 4))))) 1
    have n4 : FP.Near u (1 + 1 + 1 + 1) (Rounded.sub R v1 ⟨0, 0⟩).y
        (R.sin (R.mul (R.mul (R.noise xoff yoff zoff) R.TWO_PI) 4) *
          R.rnd (1 / Rounded.mag R
            (Rounded.fromAngle R (R.mul (R.mul (R.noise xoff yoff zoff) R.TWO_PI) 4))) * 1) := by
      rw [hv1eq]
      unfold Rounded.sub FP.sub
      dsimp only
      rw [sub_zero]
      exact h.near_rnd n3
    have n7 := h.near_mult (h.near_mult (h.near_mult n4
      (R.rnd (1 / Rounded.mag R (Rounded.sub R v1 ⟨0, 0⟩))))
      (R.rnd (1 / Rounded.mag R (Rounded.mult R (Rounded.sub R v1 ⟨0, 0⟩)
        (R.rnd (1 / Rounded.mag R (Rounded.sub R v1 ⟨0, 0⟩))))))) (3 / 2)
    have := h.near_tolerance hu (by norm_num) n7
    have e : R.sin (R.mul (R.mul (R.noise xoff yoff zoff) R.TWO_PI) 4) *
        (R.rnd (1 / Rounded.mag R
          (Rounded.fromAngle R (R.mul (R.mul (R.noise xoff yoff zoff) R.TWO_PI) 4))) * 1 *
        R.rnd (1 / Rounded.mag R (Rounded.sub R v1 ⟨0, 0⟩)) *
        R.rnd (1 / Rounded.mag R (Rounded.mult R (Rounded.sub R v1 ⟨0, 0⟩)
          (R.rnd (1 / Rounded.mag R (Rounded.sub R v1 ⟨0, 0⟩))))) * (3 / 2)) =
        R.sin (R.mul (R.mul (R.noise xoff yoff zoff) R.TWO_PI) 4) *
          R.rnd (1 / Rounded.mag R
            (Rounded.fromAngle R (R.mul (R.mul (R.noise xoff yoff zoff) R.TWO_PI) 4))) * 1 *
          R.rnd (1 / Rounded.mag R (Rounded.sub R v1 ⟨0, 0⟩)) *
          R.rnd (1 / Rounded.mag R (Rounded.mult R (Rounded.sub R v1 ⟨0, 0⟩)
            (R.rnd (1 / Rounded.mag R (Rounded.sub R v1 ⟨0, 0⟩))))) * (3 / 2) := by ring
    rw [hreq, e]
    exact this

end RoundedPointerOnCell

section RoundedPointerOnCellExample

/-- C16 (counterexample): on the doubles, with the noise value `2⁻²⁶ = 1 / 67108864` (angle
`3.7450702829239286e-07`, for which `Math.cos` and `Math.sin` return
`0.9999999999999298` and `3.7450702829238413e-07`) and the pointer at
`(20, 20)`, the canvas position of the cell `(1, 1)`, the rebuild computes
for that cell the vector `(1.4999999999998952, 5.617605424385764e-07)`. The
direction `(cos angle, sin angle)` scaled by `1.5` is
`(1.4999999999998948, 5.617605424385762e-07)`: both coordinates differ. `mag()`
computes `1.5000000000000004` for the rebuilt vector and the sum of the squares
of its two doubles is larger than `2.25`, so its magnitude is not `1.5`. -/
theorem cellVector_on_cell_ne_scaled_direction :
    Rounded.cellVector (doubles Real.sqrt Real.cos Real.sin (2 * Real.pi) (fun _ _ _ => 1 / 67108864))
        20 20 0 0 0 1 1 =
      some ⟨844424930131909 / 562949953421312, 663209789252651 / 1180591620717411303424⟩ ∧
    Rounded.fromAngle (doubles Real.sqrt Real.cos Real.sin (2 * Real.pi) (fun _ _ _ => 1 / 67108864))
        (FP.mul (doubles Real.sqrt Real.cos Real.sin (2 * Real.pi) (fun _ _ _ => 1 / 67108864))
          (FP.mul (doubles Real.sqrt Real.cos Real.sin (2 * Real.pi) (fun _ _ _ => 1 / 67108864))
            (FP.noise (doubles Real.sqrt Real.cos Real.sin (2 * Real.pi) (fun _ _ _ => 1 / 67108864)) 0 0 0)
            (FP.TWO_PI (doubles Real.sqrt Real.cos Real.sin (2 * Real.pi) (fun _ _ _ => 1 / 67108864)))) 4) =
      ⟨1125899906842545 / 1125899906842624, 7074237752028275 / 18889465931478580854784⟩ ∧
    Rounded.mult (doubles Real.sqrt Real.cos Real.sin (2 * Real.pi) (fun _ _ _ => 1 / 67108864))
        ⟨1125899906842545 / 1125899906842624, 7074237752028275 / 18889465931478580854784⟩ (3 / 2) =
      ⟨3377699720527635 / 2251799813685248, 2652839157010603 / 4722366482869645213696⟩ ∧
    (844424930131909 / 562949953421312 : ℝ) ≠ 3377699720527635 / 2251799813685248 ∧
    (663209789252651 / 1180591620717411303424 : ℝ) ≠ 2652839157010603 / 4722366482869645213696 ∧
    Rounded.mag (doubles Real.sqrt Real.cos Real.sin (2 * Real.pi) (fun _ _ _ => 1 / 67108864))
        ⟨844424930131909 / 562949953421312, 663209789252651 / 1180591620717411303424⟩ =
      3377699720527873 / 2251799813685248 ∧
    (3377699720527873 / 2251799813685248 : ℝ) ≠ 3 / 2 ∧
    (9 / 4 : ℝ) < (⟨844424930131909 / 562949953421312, 663209789252651 / 1180591620717411303424⟩ : Vec ℝ).magSq := by
  have h1 : round53 ((1 / 67108864) * (884279719003555 / 140737488355328) : ℝ) = 884279719003555 / 9444732965739290427392 := by
    apply round53_eq _ _ (-76) (7074237752028440)
    · norm_num [le_abs]
    · norm_num [abs_lt]
    · norm_num
    · norm_num [abs_lt]
  have h2 : round53 ((884279719003555 / 9444732965739290427392) * 4 : ℝ) = 884279719003555 / 2361183241434822606848 := by
    apply round53_eq _ _ (-74) (7074237752028440)
    · norm_num [le_abs]
    · norm_num [abs_lt]
    · norm_num
    · norm_num [abs_lt]
  have h3 : round53 (1 * (1125899906842545 / 1125899906842624) : ℝ) = 1125899906842545 / 1125899906842624 := by
    apply round53_eq _ _ (-53) (9007199254740360)
    · norm_num [le_abs]
    · norm_num [abs_lt]
    · norm_num
    · norm_num [abs_lt]
  have h4 : round53 (1 * (7074237752028275 / 18889465931478580854784) : ℝ) = 7074237752028275 / 18889465931478580854784 := by
    apply round53_eq _ _ (-74) (7074237752028275)
    · norm_num [le_abs]
    · norm_num [abs_lt]
    · norm_num
    · norm_num [abs_lt]
  have h5 : round53 ((1125899906842545 / 1125899906842624) * (1125899906842545 / 1125899906842624) : ℝ) = 562949953421233 / 562949953421312 := by
    apply round53_eq _ _ (-53) (9007199254739728)
    · norm_num [le_abs]
    · norm_num [abs_lt]
    · norm_num
    · norm_num [abs_lt]
  have h6 : round53 ((7074237752028275 / 18889465931478580854784) * (7074237752028275 / 18889465931478580854784) : ℝ) = 5556093337879771 / 39614081257132168796771975168 := by
    apply round53_eq _ _ (-95) (5556093337879771)
    · norm_num [le_abs]
    · norm_num [abs_lt]
    · norm_num
    · norm_num [abs_lt]
  have h7 : round53 ((562949953421233 / 562949953421312) + (5556093337879771 / 39614081257132168796771975168) : ℝ) = 9007199254740991 / 9007199254740992 := by
    apply round53_eq _ _ (-53) (9007199254740991)
    · norm_num [le_abs]
    · norm_num [abs_lt]
    · norm_num
    · norm_num [abs_lt]
  have h8 : round53 (Real.sqrt (9007199254740991 / 9007199254740992 : ℝ)) = 9007199254740991 / 9007199254740992 := by
    apply round53_sqrt_eq _ _ (-53) (9007199254740991) <;> norm_num
  have h9 : round53 (1 / (9007199254740991 / 9007199254740992) : ℝ) = 4503599627370497 / 4503599627370496 := by
    apply round53_eq _ _ (-52) (4503599627370497)
    · norm_num [le_abs]
    · norm_num [abs_lt]
    · norm_num
    · norm_num [abs_lt]
  have h10 : round53 ((1125899906842545 / 1125899906842624) * (4503599627370497 / 4503599627370496) : ℝ) = 4503599627370181 / 4503599627370496 := by
    apply round53_eq _ _ (-53) (9007199254740362)
    · norm_num [le_abs]
    · norm_num [abs_lt]
    · norm_num
    · norm_num [abs_lt]
  have h11 : round53 ((7074237752028275 / 18889465931478580854784) * (4503599627370497 / 4503599627370496) : ℝ) = 7074237752028277 / 18889465931478580854784 := by
    apply round53_eq _ _ (-74) (7074237752028277)
    · norm_num [le_abs]
    · norm_num [abs_lt]
    · norm_num
    · norm_num [abs_lt]
  have h12 : round53 ((4503599627370181 / 4503599627370496) * 1 : ℝ) = 4503599627370181 / 4503599627370496 := by
    apply round53_eq _ _ (-53) (9007199254740362)
    · norm_num [le_abs]
    · norm_num [abs_lt]
    · norm_num
    · norm_num [abs_lt]
  have h13 : round53 ((7074237752028277 / 18889465931478580854784) * 1 : ℝ) = 7074237752028277 / 18889465931478580854784 := by
    apply round53_eq _ _ (-74) (7074237752028277)
    · norm_num [le_abs]
    · norm_num [abs_lt]
    · norm_num
    · norm_num [abs_lt]
  have h14 : round53 (1 * 20 : ℝ) = 20 := by
    apply round53_eq _ _ (-48) (5629499534213120)
    · norm_num [le_abs]
    · norm_num [abs_lt]
    · norm_num
    · norm_num [abs_lt]
  have h15 : round53 (20 - 20 : ℝ) = 0 := by
    have e : (20 - 20 : ℝ) = 0 := by norm_num
    rw [e, round53_zero]
  have h16 : round53 (Real.sqrt (0 * 0 + 0 * 0 : ℝ)) = 0 := by
    have e : (0 * 0 + 0 * 0 : ℝ) = 0 := by norm_num
    rw [e, Real.sqrt_zero, round53_zero]
  have h17 : round53 (0 - 0 : ℝ) = 0 := by
    have e : (0 - 0 : ℝ) = 0 := by norm_num
    rw [e, round53_zero]
  have h18 : round53 (150 - 0 : ℝ) = 150 := by
    apply round53_eq _ _ (-45) (5277655813324800)
    · norm_num [le_abs]
    · norm_num [abs_lt]
    · norm_num
    · norm_num [abs_lt]
  have h19 : round53 (0 / 150 : ℝ) = 0 := by
    have e : (0 / 150 : ℝ) = 0 := by norm_num
    rw [e, round53_zero]
  have h20 : round53 (0 - 1 : ℝ) = (-1) := by
    apply round53_eq _ _ (-52) (-4503599627370496)
    · norm_num [le_abs]
    · norm_num [abs_lt]
    · norm_num
    · norm_num [abs_lt]
  have h21 : round53 (0 * (-1) : ℝ) = 0 := by
    have e : (0 * (-1) : ℝ) = 0 := by norm_num
    rw [e, round53_zero]
  have h22 : round53 (0 + 1 : ℝ) = 1 := by
    apply round53_eq _ _ (-52) (4503599627370496)
    · norm_num [le_abs]
    · norm_num [abs_lt]
    · norm_num
    · norm_num [abs_lt]
  have h23 : round53 (8 / 10 : ℝ) = 3602879701896397 / 4503599627370496 := by
    apply round53_eq _ _ (-53) (7205759403792794)
    · norm_num [le_abs]
    · norm_num [abs_lt]
    · norm_num
    · norm_num [abs_lt]
  have h24 : round53 (1 * (3602879701896397 / 4503599627370496) : ℝ) = 3602879701896397 / 4503599627370496 := by
    apply round53_eq _ _ (-53) (7205759403792794)
    · norm_num [le_abs]
    · norm_num [abs_lt]
    · norm_num
    · norm_num [abs_lt]
  have h25 : round53 (0 * (3602879701896397 / 4503599627370496) : ℝ) = 0 := by
    have e : (0 * (3602879701896397 / 4503599627370496) : ℝ) = 0 := by norm_num
    rw [e, round53_zero]
  have h26 : round53 ((4503599627370181 / 4503599627370496) - 0 : ℝ) = 4503599627370181 / 4503599627370496 := by
    apply round53_eq _ _ (-53) (9007199254740362)
    · norm_num [le_abs]
    · norm_num [abs_lt]
    · norm_num
    · norm_num [abs_lt]
  have h27 : round53 ((7074237752028277 / 18889465931478580854784) - 0 : ℝ) = 7074237752028277 / 18889465931478580854784 := by
    apply round53_eq _ _ (-74) (7074237752028277)
    · norm_num [le_abs]
    · norm_num [abs_lt]
    · norm_num
    · norm_num [abs_lt]
  have h28 : round53 ((4503599627370181 / 4503599627370496) * (4503599627370181 / 4503599627370496) : ℝ) = 2251799813684933 / 2251799813685248 := by
    apply round53_eq _ _ (-53) (9007199254739732)
    · norm_num [le_abs]
    · norm_num [abs_lt]
    · norm_num
    · norm_num [abs_lt]
  have h29 : round53 ((7074237752028277 / 18889465931478580854784) * (7074237752028277 / 18889465931478580854784) : ℝ) = 2778046668939887 / 19807040628566084398385987584 := by
    apply round53_eq _ _ (-95) (5556093337879774)
    · norm_num [le_abs]
    · norm_num [abs_lt]
    · norm_num
    · norm_num [abs_lt]
  have h30 : round53 ((2251799813684933 / 2251799813685248) + (2778046668939887 / 19807040628566084398385987584) : ℝ) = 2251799813685249 / 2251799813685248 := by
    apply round53_eq _ _ (-52) (4503599627370498)
    · norm_num [le_abs]
    · norm_num [abs_lt]
    · norm_num
    · norm_num [abs_lt]
  have h31 : round53 (Real.sqrt (2251799813685249 / 2251799813685248 : ℝ)) = 4503599627370497 / 4503599627370496 := by
    apply round53_sqrt_eq _ _ (-52) (4503599627370497) <;> norm_num
  have h32 : round53 (1 / (4503599627370497 / 4503599627370496) : ℝ) = 4503599627370495 / 4503599627370496 := by
    apply round53_eq _ _ (-53) (9007199254740990)
    · norm_num [le_abs]
    · norm_num [abs_lt]
    · norm_num
    · norm_num [abs_lt]
  have h33 : round53 ((4503599627370181 / 4503599627370496) * (4503599627370495 / 4503599627370496) : ℝ) = 1125899906842545 / 1125899906842624 := by
    apply round53_eq _ _ (-53) (9007199254740360)
    · norm_num [le_abs]
    · norm_num [abs_lt]
    · norm_num
    · norm_num [abs_lt]
  have h34 : round53 ((7074237752028277 / 18889465931478580854784) * (4503599627370495 / 4503599627370496) : ℝ) = 7074237752028275 / 18889465931478580854784 := by
    apply round53_eq _ _ (-74) (7074237752028275)
    · norm_num [le_abs]
    · norm_num [abs_lt]
    · norm_num
    · norm_num [abs_lt]
  have h35 : round53 ((4503599627370181 / 4503599627370496) * (3 / 2) : ℝ) = 844424930131909 / 562949953421312 := by
    apply round53_tie _ _ (-52) (6755399441055272) (6755399441055271)
    · norm_num [le_abs]
    · norm_num [abs_lt]
    · norm_num
    · norm_num
    · norm_num
    · norm_num
  have h36 : round53 ((7074237752028277 / 18889465931478580854784) * (3 / 2) : ℝ) = 663209789252651 / 1180591620717411303424 := by
    apply round53_eq _ _ (-73) (5305678314021208)
    · norm_num [le_abs]
    · norm_num [abs_lt]
    · norm_num
    · norm_num [abs_lt]
  have h37 : round53 ((844424930131909 / 562949953421312) * (844424930131909 / 562949953421312) : ℝ) = 1266637395197775 / 562949953421312 := by
    apply round53_eq _ _ (-51) (5066549580791100)
    · norm_num [le_abs]
    · norm_num [abs_lt]
    · norm_num
    · norm_num [abs_lt]
  have h38 : round53 ((663209789252651 / 1180591620717411303424) * (663209789252651 / 1180591620717411303424) : ℝ) = 3125302502557373 / 9903520314283042199192993792 := by
    apply round53_eq _ _ (-94) (6250605005114746)
    · norm_num [le_abs]
    · norm_num [abs_lt]
    · norm_num
    · norm_num [abs_lt]
  have h39 : round53 ((1266637395197775 / 562949953421312) + (3125302502557373 / 9903520314283042199192993792) : ℝ) = 5066549580791811 / 2251799813685248 := by
    apply round53_eq _ _ (-51) (5066549580791811)
    · norm_num [le_abs]
    · norm_num [abs_lt]
    · norm_num
    · norm_num [abs_lt]
  have h40 : round53 (Real.sqrt (5066549580791811 / 2251799813685248 : ℝ)) = 3377699720527873 / 2251799813685248 := by
    apply round53_sqrt_eq _ _ (-52) (6755399441055746) <;> norm_num
  have h41 : round53 ((1125899906842545 / 1125899906842624) * (3 / 2) : ℝ) = 3377699720527635 / 2251799813685248 := by
    apply round53_eq _ _ (-52) (6755399441055270)
    · norm_num [le_abs]
    · norm_num [abs_lt]
    · norm_num
    · norm_num [abs_lt]
  have h42 : round53 ((7074237752028275 / 18889465931478580854784) * (3 / 2) : ℝ) = 2652839157010603 / 4722366482869645213696 := by
    apply round53_eq _ _ (-73) (5305678314021206)
    · norm_num [le_abs]
    · norm_num [abs_lt]
    · norm_num
    · norm_num [abs_lt]
  have hcos : round53 (Real.cos (884279719003555 / 2361183241434822606848)) = 1125899906842545 / 1125899906842624 := by
    have hb := Real.cos_bound (x := 884279719003555 / 2361183241434822606848) (by rw [abs_of_pos (by norm_num)]; norm_num)
    rw [abs_of_pos (by norm_num : (0 : ℝ) < 884279719003555 / 2361183241434822606848), abs_le] at hb
    apply round53_eq_of_mem _ _ (1 - (884279719003555 / 2361183241434822606848) ^ 2 / 2 - (884279719003555 / 2361183241434822606848) ^ 4 * (5 / 96)) (1 - (884279719003555 / 2361183241434822606848) ^ 2 / 2 + (884279719003555 / 2361183241434822606848) ^ 4 * (5 / 96)) (-53) (9007199254740360)
    · linarith [hb.1]
    · linarith [hb.2]
    · norm_num
    · norm_num
    · norm_num
    · norm_num
    · norm_num
  have hsin : round53 (Real.sin (884279719003555 / 2361183241434822606848)) = 7074237752028275 / 18889465931478580854784 := by
    have hb := Real.sin_bound (x := 884279719003555 / 2361183241434822606848) (by rw [abs_of_pos (by norm_num)]; norm_num)
    rw [abs_of_pos (by norm_num : (0 : ℝ) < 884279719003555 / 2361183241434822606848), abs_le] at hb
    apply round53_eq_of_mem _ _ (884279719003555 / 2361183241434822606848 - (884279719003555 / 2361183241434822606848) ^ 3 / 6 - (884279719003555 / 2361183241434822606848) ^ 4 * (5 / 96)) (884279719003555 / 2361183241434822606848 - (884279719003555 / 2361183241434822606848) ^ 3 / 6 + (884279719003555 / 2361183241434822606848) ^ 4 * (5 / 96)) (-74) (7074237752028275)
    · linarith [hb.1]
    · linarith [hb.2]
    · norm_num
    · norm_num
    · norm_num
    · norm_num
    · norm_num
  have hang : FP.mul (doubles Real.sqrt Real.cos Real.sin (2 * Real.pi) (fun _ _ _ => 1 / 67108864))
      (FP.mul (doubles Real.sqrt Real.cos Real.sin (2 * Real.pi) (fun _ _ _ => 1 / 67108864)) (1 / 67108864 : ℝ)
        (round53 (2 * Real.pi))) 4 = 884279719003555 / 2361183241434822606848 := by
    show round53 (round53 ((1 / 67108864 : ℝ) * round53 (2 * Real.pi)) * 4) = _
    rw [round53_two_pi]
    simp only [h1, h2, h3, h4, h5, h6, h7, h8, h9, h10, h11, h12, h13, h14, h15, h16, h17, h18, h19, h20, h21, h22, h23, h24, h25, h26, h27, h28, h29, h30, h31, h32, h33, h34, h35, h36, h37, h38, h39, h40, h41, h42]
  have hv0 : Rounded.fromAngle (doubles Real.sqrt Real.cos Real.sin (2 * Real.pi) (fun _ _ _ => 1 / 67108864))
      (884279719003555 / 2361183241434822606848) = ⟨1125899906842545 / 1125899906842624, 7074237752028275 / 18889465931478580854784⟩ := by
    show (⟨round53 (1 * round53 (Real.cos (884279719003555 / 2361183241434822606848))), round53 (1 * round53 (Real.sin (884279719003555 / 2361183241434822606848)))⟩ : Vec ℝ) = _
    rw [hcos, hsin]
    simp only [h1, h2, h3, h4, h5, h6, h7, h8, h9, h10, h11, h12, h13, h14, h15, h16, h17, h18, h19, h20, h21, h22, h23, h24, h25, h26, h27, h28, h29, h30, h31, h32, h33, h34, h35, h36, h37, h38, h39, h40, h41, h42]
  have hset1m : Rounded.mag (doubles Real.sqrt Real.cos Real.sin (2 * Real.pi) (fun _ _ _ => 1 / 67108864))
      ⟨1125899906842545 / 1125899906842624, 7074237752028275 / 18889465931478580854784⟩ = 9007199254740991 / 9007199254740992 := by
    show round53 (Real.sqrt (round53 (round53 ((1125899906842545 / 1125899906842624) * (1125899906842545 / 1125899906842624)) + round53 ((7074237752028275 / 18889465931478580854784) * (7074237752028275 / 18889465931478580854784))))) = _
    simp only [h1, h2, h3, h4, h5, h6, h7, h8, h9, h10, h11, h12, h13, h14, h15, h16, h17, h18, h19, h20, h21, h22, h23, h24, h25, h26, h27, h28, h29, h30, h31, h32, h33, h34, h35, h36, h37, h38, h39, h40, h41, h42]
  have hset1 : Rounded.setMag (doubles Real.sqrt Real.cos Real.sin (2 * Real.pi) (fun _ _ _ => 1 / 67108864))
      ⟨1125899906842545 / 1125899906842624, 7074237752028275 / 18889465931478580854784⟩ (1) = some ⟨4503599627370181 / 4503599627370496, 7074237752028277 / 18889465931478580854784⟩ := by
    rw [Rounded.setMag_of_ne _ _ _ (by rw [hset1m]; norm_num), hset1m]
    show some (⟨round53 (round53 ((1125899906842545 / 1125899906842624) * round53 (1 / (9007199254740991 / 9007199254740992))) * 1), round53 (round53 ((7074237752028275 / 18889465931478580854784) * round53 (1 / (9007199254740991 / 9007199254740992))) * 1)⟩ : Vec ℝ) = _
    simp only [h1, h2, h3, h4, h5, h6, h7, h8, h9, h10, h11, h12, h13, h14, h15, h16, h17, h18, h19, h20, h21, h22, h23, h24, h25, h26, h27, h28, h29, h30, h31, h32, h33, h34, h35, h36, h37, h38, h39, h40, h41, h42]
  have hcell : FP.mul (doubles Real.sqrt Real.cos Real.sin (2 * Real.pi) (fun _ _ _ => 1 / 67108864))
      ((1 : ℕ) : ℝ) resolution = 20 := by
    show round53 (((1 : ℕ) : ℝ) * 20) = 20
    rw [Nat.cast_one]
    simp only [h1, h2, h3, h4, h5, h6, h7, h8, h9, h10, h11, h12, h13, h14, h15, h16, h17, h18, h19, h20, h21, h22, h23, h24, h25, h26, h27, h28, h29, h30, h31, h32, h33, h34, h35, h36, h37, h38, h39, h40, h41, h42]
  have hmv : (⟨FP.sub (doubles Real.sqrt Real.cos Real.sin (2 * Real.pi) (fun _ _ _ => 1 / 67108864)) 20 20,
      FP.sub (doubles Real.sqrt Real.cos Real.sin (2 * Real.pi) (fun _ _ _ => 1 / 67108864)) 20 20⟩ : Vec ℝ) = ⟨0, 0⟩ := by
    show (⟨round53 ((20 : ℝ) - 20), round53 ((20 : ℝ) - 20)⟩ : Vec ℝ) = _
    simp only [h1, h2, h3, h4, h5, h6, h7, h8, h9, h10, h11, h12, h13, h14, h15, h16, h17, h18, h19, h20, h21, h22, h23, h24, h25, h26, h27, h28, h29, h30, h31, h32, h33, h34, h35, h36, h37, h38, h39, h40, h41, h42]
  have hdist : Rounded.dist (doubles Real.sqrt Real.cos Real.sin (2 * Real.pi) (fun _ _ _ => 1 / 67108864)) 20 20 20 20 = 0 := by
    show round53 (Real.sqrt (round53 ((20 : ℝ) - 20) * round53 ((20 : ℝ) - 20) +
      round53 ((20 : ℝ) - 20) * round53 ((20 : ℝ) - 20))) = _
    simp only [h1, h2, h3, h4, h5, h6, h7, h8, h9, h10, h11, h12, h13, h14, h15, h16, h17, h18, h19, h20, h21, h22, h23, h24, h25, h26, h27, h28, h29, h30, h31, h32, h33, h34, h35, h36, h37, h38, h39, h40, h41, h42]
  have hnz : Rounded.normalize (doubles Real.sqrt Real.cos Real.sin (2 * Real.pi) (fun _ _ _ => 1 / 67108864))
      (⟨0, 0⟩ : Vec ℝ) = some ⟨0, 0⟩ := (doubles_accurate _ _ _ _).normalize_zero_vec
  have h150 : FP.sub (doubles Real.sqrt Real.cos Real.sin (2 * Real.pi) (fun _ _ _ => 1 / 67108864)) 150 0 = 150 := by
    show round53 ((150 : ℝ) - 0) = _
    simp only [h1, h2, h3, h4, h5, h6, h7, h8, h9, h10, h11, h12, h13, h14, h15, h16, h17, h18, h19, h20, h21, h22, h23, h24, h25, h26, h27, h28, h29, h30, h31, h32, h33, h34, h35, h36, h37, h38, h39, h40, h41, h42]
  have hinfl : Rounded.map (doubles Real.sqrt Real.cos Real.sin (2 * Real.pi) (fun _ _ _ => 1 / 67108864)) 0 0 150 1 0 = some 1 := by
    rw [Rounded.map_of_ne _ _ _ _ _ _ (by rw [h150]; norm_num), h150]
    show some (round53 (round53 (round53 (round53 ((0 : ℝ) - 0) / 150) * round53 (0 - 1)) + 1)) = _
    simp only [h1, h2, h3, h4, h5, h6, h7, h8, h9, h10, h11, h12, h13, h14, h15, h16, h17, h18, h19, h20, h21, h22, h23, h24, h25, h26, h27, h28, h29, h30, h31, h32, h33, h34, h35, h36, h37, h38, h39, h40, h41, h42]
  have hw : Rounded.sub (doubles Real.sqrt Real.cos Real.sin (2 * Real.pi) (fun _ _ _ => 1 / 67108864))
      ⟨4503599627370181 / 4503599627370496, 7074237752028277 / 18889465931478580854784⟩
      (Rounded.mult (doubles Real.sqrt Real.cos Real.sin (2 * Real.pi) (fun _ _ _ => 1 / 67108864))
        ⟨0, 0⟩
        (FP.mul (doubles Real.sqrt Real.cos Real.sin (2 * Real.pi) (fun _ _ _ => 1 / 67108864)) 1
          (FP.lit (doubles Real.sqrt Real.cos Real.sin (2 * Real.pi) (fun _ _ _ => 1 / 67108864)) (8 / 10)))) =
      ⟨4503599627370181 / 4503599627370496, 7074237752028277 / 18889465931478580854784⟩ := by
    show (⟨round53 ((4503599627370181 / 4503599627370496) - round53 (0 * round53 (1 * round53 (8 / 10)))),
      round53 ((7074237752028277 / 18889465931478580854784) - round53 (0 * round53 (1 * round53 (8 / 10))))⟩ : Vec ℝ) = _
    simp only [h1, h2, h3, h4, h5, h6, h7, h8, h9, h10, h11, h12, h13, h14, h15, h16, h17, h18, h19, h20, h21, h22, h23, h24, h25, h26, h27, h28, h29, h30, h31, h32, h33, h34, h35, h36, h37, h38, h39, h40, h41, h42]
  have hn2m : Rounded.mag (doubles Real.sqrt Real.cos Real.sin (2 * Real.pi) (fun _ _ _ => 1 / 67108864))
      ⟨4503599627370181 / 4503599627370496, 7074237752028277 / 18889465931478580854784⟩ = 4503599627370497 / 4503599627370496 := by
    show round53 (Real.sqrt (round53 (round53 ((4503599627370181 / 4503599627370496) * (4503599627370181 / 4503599627370496)) + round53 ((7074237752028277 / 18889465931478580854784) * (7074237752028277 / 18889465931478580854784))))) = _
    simp only [h1, h2, h3, h4, h5, h6, h7, h8, h9, h10, h11, h12, h13, h14, h15, h16, h17, h18, h19, h20, h21, h22, h23, h24, h25, h26, h27, h28, h29, h30, h31, h32, h33, h34, h35, h36, h37, h38, h39, h40, h41, h42]
  have hn2 : Rounded.normalize (doubles Real.sqrt Real.cos Real.sin (2 * Real.pi) (fun _ _ _ => 1 / 67108864))
      ⟨4503599627370181 / 4503599627370496, 7074237752028277 / 18889465931478580854784⟩ = some ⟨1125899906842545 / 1125899906842624, 7074237752028275 / 18889465931478580854784⟩ := by
    rw [Rounded.normalize_of_ne _ _ (by rw [hn2m]; norm_num), hn2m]
    show some (⟨round53 ((4503599627370181 / 4503599627370496) * round53 (1 / (4503599627370497 / 4503599627370496))), round53 ((7074237752028277 / 18889465931478580854784) * round53 (1 / (4503599627370497 / 4503599627370496)))⟩ : Vec ℝ) = _
    simp only [h1, h2, h3, h4, h5, h6, h7, h8, h9, h10, h11, h12, h13, h14, h15, h16, h17, h18, h19, h20, h21, h22, h23, h24, h25, h26, h27, h28, h29, h30, h31, h32, h33, h34, h35, h36, h37, h38, h39, h40, h41, h42]
  have hset2m : Rounded.mag (doubles Real.sqrt Real.cos Real.sin (2 * Real.pi) (fun _ _ _ => 1 / 67108864))
      ⟨1125899906842545 / 1125899906842624, 7074237752028275 / 18889465931478580854784⟩ = 9007199254740991 / 9007199254740992 := by
    show round53 (Real.sqrt (round53 (round53 ((1125899906842545 / 1125899906842624) * (1125899906842545 / 1125899906842624)) + round53 ((7074237752028275 / 18889465931478580854784) * (7074237752028275 / 18889465931478580854784))))) = _
    simp only [h1, h2, h3, h4, h5, h6, h7, h8, h9, h10, h11, h12, h13, h14, h15, h16, h17, h18, h19, h20, h21, h22, h23, h24, h25, h26, h27, h28, h29, h30, h31, h32, h33, h34, h35, h36, h37, h38, h39, h40, h41, h42]
  have hset2 : Rounded.setMag (doubles Real.sqrt Real.cos Real.sin (2 * Real.pi) (fun _ _ _ => 1 / 67108864))
      ⟨1125899906842545 / 1125899906842624, 7074237752028275 / 18889465931478580854784⟩ (3 / 2) = some ⟨844424930131909 / 562949953421312, 663209789252651 / 1180591620717411303424⟩ := by
    rw [Rounded.setMag_of_ne _ _ _ (by rw [hset2m]; norm_num), hset2m]
    show some (⟨round53 (round53 ((1125899906842545 / 1125899906842624) * round53 (1 / (9007199254740991 / 9007199254740992))) * (3 / 2)), round53 (round53 ((7074237752028275 / 18889465931478580854784) * round53 (1 / (9007199254740991 / 9007199254740992))) * (3 / 2))⟩ : Vec ℝ) = _
    simp only [h1, h2, h3, h4, h5, h6, h7, h8, h9, h10, h11, h12, h13, h14, h15, h16, h17, h18, h19, h20, h21, h22, h23, h24, h25, h26, h27, h28, h29, h30, h31, h32, h33, h34, h35, h36, h37, h38, h39, h40, h41, h42]
  have hmagr : Rounded.mag (doubles Real.sqrt Real.cos Real.sin (2 * Real.pi) (fun _ _ _ => 1 / 67108864))
      ⟨844424930131909 / 562949953421312, 663209789252651 / 1180591620717411303424⟩ = 3377699720527873 / 2251799813685248 := by
    show round53 (Real.sqrt (round53 ((round53 ((844424930131909 / 562949953421312) * (844424930131909 / 562949953421312))) + (round53 ((663209789252651 / 1180591620717411303424) * (663209789252651 / 1180591620717411303424)))))) = _
    simp only [h1, h2, h3, h4, h5, h6, h7, h8, h9, h10, h11, h12, h13, h14, h15, h16, h17, h18, h19, h20, h21, h22, h23, h24, h25, h26, h27, h28, h29, h30, h31, h32, h33, h34, h35, h36, h37, h38, h39, h40, h41, h42]
  have hscaled : Rounded.mult (doubles Real.sqrt Real.cos Real.sin (2 * Real.pi) (fun _ _ _ => 1 / 67108864))
      ⟨1125899906842545 / 1125899906842624, 7074237752028275 / 18889465931478580854784⟩ (3 / 2) = ⟨3377699720527635 / 2251799813685248, 2652839157010603 / 4722366482869645213696⟩ := by
    show (⟨round53 ((1125899906842545 / 1125899906842624) * (3 / 2)), round53 ((7074237752028275 / 18889465931478580854784) * (3 / 2))⟩ : Vec ℝ) = _
    simp only [h1, h2, h3, h4, h5, h6, h7, h8, h9, h10, h11, h12, h13, h14, h15, h16, h17, h18, h19, h20, h21, h22, h23, h24, h25, h26, h27, h28, h29, h30, h31, h32, h33, h34, h35, h36, h37, h38, h39, h40, h41, h42]
  have hfrom : Rounded.fromAngle (doubles Real.sqrt Real.cos Real.sin (2 * Real.pi) (fun _ _ _ => 1 / 67108864))
      (FP.mul (doubles Real.sqrt Real.cos Real.sin (2 * Real.pi) (fun _ _ _ => 1 / 67108864))
          (FP.mul (doubles Real.sqrt Real.cos Real.sin (2 * Real.pi) (fun _ _ _ => 1 / 67108864))
            (FP.noise (doubles Real.sqrt Real.cos Real.sin (2 * Real.pi) (fun _ _ _ => 1 / 67108864)) 0 0 0)
            (FP.TWO_PI (doubles Real.sqrt Real.cos Real.sin (2 * Real.pi) (fun _ _ _ => 1 / 67108864)))) 4) = ⟨1125899906842545 / 1125899906842624, 7074237752028275 / 18889465931478580854784⟩ := by
    show Rounded.fromAngle _ (FP.mul _ (FP.mul _ (1 / 67108864 : ℝ) (round53 (2 * Real.pi))) 4) = _
    rw [hang, hv0]
  refine ⟨?_, hfrom, hscaled, by norm_num, by norm_num, hmagr, by norm_num,
    by norm_num [Vec.magSq]⟩
  unfold Rounded.cellVector
  dsimp only
  rw [hcell]
  show ((Rounded.setMag _ (Rounded.fromAngle _ (FP.mul _ (FP.mul _ (1 / 67108864 : ℝ)
    (round53 (2 * Real.pi))) 4)) 1).bind _) = _
  rw [hang, hv0, hset1, Option.some_bind, hdist, if_pos (by norm_num), hmv, hnz,
    Option.some_bind, hinfl, Option.some_bind, hw, hn2, Option.some_bind, hset2]

/-- Witness of C16 (amended) on the doubles: the noise value `2⁻²⁶` and the
pointer at the canvas position of the cell `(1, 1)`. -/
theorem cellVector_pointer_on_cell_rounded_witness :
    Rounded.normalize (doubles Real.sqrt Real.cos Real.sin (2 * Real.pi) (fun _ _ _ => 1 / 67108864))
      (⟨0, 0⟩ : Vec ℝ) = some ⟨0, 0⟩ ∧
    ∃ v, Rounded.cellVector (doubles Real.sqrt Real.cos Real.sin (2 * Real.pi) (fun _ _ _ => 1 / 67108864))
        (FP.mul (doubles Real.sqrt Real.cos Real.sin (2 * Real.pi) (fun _ _ _ => 1 / 67108864)) ((1 : ℕ) : ℝ) resolution)
        (FP.mul (doubles Real.sqrt Real.cos Real.sin (2 * Real.pi) (fun _ _ _ => 1 / 67108864)) ((1 : ℕ) : ℝ) resolution)
        0 0 0 1 1 = some v ∧
      (1 - 1 / 2 ^ 49) * (9 / 4) ≤ v.magSq ∧ v.magSq ≤ (1 + 1 / 2 ^ 49) * (9 / 4) := by
  obtain ⟨_, _, h3, _, v, _, hv, _, _, _, hlo, hhi⟩ :=
    cellVector_pointer_on_cell_rounded
      (doubles Real.sqrt Real.cos Real.sin (2 * Real.pi) (fun _ _ _ => 1 / 67108864)) _
      (doubles_accurate _ _ _ _) le_rfl (doubles_sound _ _) 0 0 0 1 1
  exact ⟨h3, v, hv, hlo, hhi⟩

end RoundedPointerOnCellExample

end Sketch
